import Mathlib

/-!
# MOS 6502 emulator: a shallow embedding of `src/mos6502.cpp`

The C++ emulator keeps a register file (`cpu`), a 64 KiB byte array
(`mem.memory`), a static `testing` switch and a 256-entry instruction table.
Here every machine integer is a natural number and every truncation that the
C++ types perform is written out as an explicit `% 256` or `% 65536`.

* A `Byte` (`uint8_t`) is a natural number below 256, a `Word` (`uint16_t`) one below
  65536, a `SignedByte` (`int8_t`) an integer from -128 to 127.
* An operand handle (`Byte *`) is the sum type `BytePtr`.
* Undefined behaviour (reading or writing through `nullptr`, subtracting
  pointers into different objects, calling an empty `std::function`) is the
  value `none`.
* Calls of `delayMicros(CLOCK_uS)` are counted in the field `elapsed`.

The header `mos6502.h` is not part of the sources at hand.  What the code
uses from it (flag masks, `Memory::readByte`, the stack helpers) is modelled
from the specification and marked as such.
-/

set_option linter.unusedVariables false

/-- The `(SignedByte)` cast of a byte: two's-complement reading of 8 bits. -/
def toSignedByte (b : Nat) : Int :=
  if b % 256 < 128 then ((b % 256 : Nat) : Int) else ((b % 256 : Nat) : Int) - 256

/-- The `Word(...)` cast of an `int`: reduction modulo `2 ^ 16`. -/
def wordOfInt (i : Int) : Nat := (i % 65536).toNat

/-- The `Byte(...)` cast of an `int`: reduction modulo `2 ^ 8`. -/
def byteOfInt (i : Int) : Nat := (i % 256).toNat

/-- The operator `~` on a non-negative `int` (32-bit two's complement), as a bit pattern. -/
def bitNot (n : Nat) : Nat := n ^^^ 0xFFFFFFFF

/-- The macro `IS_BIT_ON(n, i)`: `((n & (1 << i)) == (1 << i))`. -/
def IS_BIT_ON (n i : Nat) : Bool := (n &&& (1 <<< i)) == (1 <<< i)

/-- The register file `cpu` of the emulator. -/
structure MOS_6502 where
  accumulator : Nat
  X : Nat
  Y : Nat
  S : Nat
  program_counter : Nat
  P : Nat

namespace MOS_6502

/-- Modelled from the spec: the status masks of `mos6502.h`, which is not among the
sources. The spec lists the flags of the status byte in the order Carry, Zero,
Interrupt-Disable, Decimal, Break, Unused, Overflow, Negative; they are bits 0 to 7. -/
def P_CARRY : Nat := 0x01

/-- Modelled from the spec: the Zero mask (bit 1), see `P_CARRY`. -/
def P_ZERO : Nat := 0x02

/-- Modelled from the spec: the Interrupt-Disable mask (bit 2), see `P_CARRY`. -/
def P_INT_DISABLE : Nat := 0x04

/-- Modelled from the spec: the Decimal mask (bit 3), see `P_CARRY`. -/
def P_DECIMAL : Nat := 0x08

/-- Modelled from the spec: the Break mask (bit 4), see `P_CARRY`. -/
def P_BREAK : Nat := 0x10

/-- Modelled from the spec: the Unused mask (bit 5), see `P_CARRY`. -/
def P_UNUSED : Nat := 0x20

/-- Modelled from the spec: the Overflow mask (bit 6), see `P_CARRY`. -/
def P_OVERFLOW : Nat := 0x40

/-- Modelled from the spec: the Negative mask (bit 7), see `P_CARRY`. -/
def P_NEGATIVE : Nat := 0x80

end MOS_6502

/-- The address space `mem`: the array `mem.memory`, indexed by address. -/
structure Memory where
  memory : Nat → Nat

namespace Memory

/-- Modelled from the spec: the stack page of `mos6502.h` (not among the sources), "a fixed
one-page region reserved for the call stack"; on the 6502 it is page one. -/
def STACK_START : Nat := 0x0100

/-- Modelled from the spec: `Memory::readByte` of `mos6502.h` (not among the sources), which
"reads an arbitrary address-space byte": the array element at the address. -/
def readByte (m : Memory) (addr : Nat) : Nat := m.memory addr

/-- The assignment `memory[addr] = v`. -/
def writeByte (m : Memory) (addr : Nat) (v : Nat) : Memory :=
  ⟨fun a => if a = addr then v else m.memory a⟩

/-- The call `std::memcpy(memory + dest, src.data(), src.size())`, for a copy that stays
inside the array. -/
def memcpy (m : Memory) (dest : Nat) (src : List Nat) : Memory :=
  ⟨fun a => if dest ≤ a ∧ a < dest + src.length then src.getD (a - dest) 0 else m.memory a⟩

/-- Modelled from the spec: `Memory::stackPushByte` of `mos6502.h` (not among the sources).
The byte is stored in the stack page at the stack pointer, which is then decremented
modulo 256. Returns the memory and the new stack pointer. -/
def stackPushByte (m : Memory) (S : Nat) (v : Nat) : Memory × Nat :=
  (m.writeByte (STACK_START + S % 256) (v % 256), (S + 255) % 256)

/-- Modelled from the spec: `Memory::stackPullByte` of `mos6502.h` (not among the sources).
The stack pointer is incremented modulo 256 and the byte it then addresses in the stack
page is returned. Returns the byte and the new stack pointer. -/
def stackPullByte (m : Memory) (S : Nat) : Nat × Nat :=
  (m.readByte (STACK_START + (S + 1) % 256), (S + 1) % 256)

/-- Modelled from the spec: `Memory::stackPushWord` of `mos6502.h` (not among the sources):
a two-byte value is pushed as two bytes, high byte first. -/
def stackPushWord (m : Memory) (S : Nat) (w : Nat) : Memory × Nat :=
  let r := m.stackPushByte S ((w % 65536) / 256)
  r.1.stackPushByte r.2 ((w % 65536) % 256)

/-- Modelled from the spec: `Memory::stackPullWord` of `mos6502.h` (not among the sources):
two bytes are pulled, low byte first, and joined. Returns the value and the new stack pointer. -/
def stackPullWord (m : Memory) (S : Nat) : Nat × Nat :=
  let lo := m.stackPullByte S
  let hi := m.stackPullByte lo.2
  (hi.1 * 256 + lo.1, hi.2)

end Memory

/-- The result of an addressing-mode resolver, a `Byte *`. -/
inductive BytePtr where
  /-- The pointer `mem.memory + addr`. -/
  | memory (addr : Nat)
  /-- The pointer `&cpu.accumulator`. -/
  | accumulator
  /-- The pointer `nullptr`. -/
  | null
deriving DecidableEq, Repr

/-- The addressing modes of the instruction table. -/
inductive AddressMode where
  | IMMEDIATE
  | ZERO_PAGE
  | ZERO_PAGE_AND_X
  | ZERO_PAGE_AND_Y
  | ABSOLUTE
  | ABSOLUTE_AND_X
  | ABSOLUTE_AND_Y
  | INDIRECT
  | INDEXED_INDIRECT
  | INDIRECT_INDEXED
  | ACCUMULATOR
  | IMPLICIT
  | RELATIVE
deriving DecidableEq, Repr

/-- The member functions that `initInstructionMap` binds into the table; `EMPTY_LAMBDA`
is the `[](int) {}` stored at index `0x02`. -/
inductive Behaviour where
  | NOP | ORA | INX | INY | DEX | DEY | INC | DEC | BRK
  | TXA | TAY | TSX | TXS | TYA | TAX | LDA | LDX | LDY | STA | STX | STY
  | JMP | JSR | RTS | PHA | PLA | PHP | PLP | AND | EOR
  | CLC | CLD | CLI | CLV | SEC | SED | SEI | RTI
  | ADC | SBC | ASL | LSR | ROL | ROR | CMP | CPX | CPY
  | BCC | BCS | BEQ | BMI | BNE | BPL | BVC | BVS | BIT
  | EMPTY_LAMBDA
deriving DecidableEq, Repr

/-- One entry of the instruction table: mnemonic, opcode, encoded length, base cycle count,
addressing mode, behaviour, in the order of the initialisers of `initInstructionMap`. The
code names the fields `name`, `cycles`, `addressing_mode` and `implementation`; the names
`opcode` and `bytes` stand for the two it does not name. An empty `std::function` (built
from `nullptr`) is `none`. -/
structure Instruction where
  name : String
  opcode : Nat
  bytes : Nat
  cycles : Nat
  addressing_mode : AddressMode
  implementation : Option Behaviour
deriving DecidableEq, Repr

/-- The emulator: registers, address space, the static `testing` switch, and the number of
`delayMicros(CLOCK_uS)` waits performed so far. -/
structure Emulator where
  cpu : MOS_6502
  mem : Memory
  testing : Bool
  elapsed : Nat

/-- The entry that the fill loop of `Emulator::initInstructionMap` stores in every slot:
named `"DONE"`, Implicit addressing, an empty behaviour. -/
def doneEntry : Instruction := ⟨"DONE", 0x02, 1, 1, .IMPLICIT, none⟩

/-- The assignments `instruction_map[index] = {...}` of `Emulator::initInstructionMap`, in the
order of the source; the last one stores a second `"DONE"` entry at index `0x02`. -/
def assignments : List (Nat × Instruction) := [
  (0x70, Instruction.mk "BVS" 0x70 2 2 .RELATIVE (some .BVS)),
  (0x00, Instruction.mk "BRK" 0x00 1 7 .IMPLICIT (some .BRK)),
  (0xC9, Instruction.mk "CMP" 0xC9 2 2 .IMMEDIATE (some .CMP)),
  (0xC5, Instruction.mk "CMP" 0xC5 2 3 .ZERO_PAGE (some .CMP)),
  (0xD5, Instruction.mk "CMP" 0xD5 2 4 .ZERO_PAGE_AND_X (some .CMP)),
  (0xCD, Instruction.mk "CMP" 0xCD 3 4 .ABSOLUTE (some .CMP)),
  (0xDD, Instruction.mk "CMP" 0xDD 3 4 .ABSOLUTE_AND_X (some .CMP)),
  (0xD9, Instruction.mk "CMP" 0xD9 3 4 .ABSOLUTE_AND_Y (some .CMP)),
  (0xC1, Instruction.mk "CMP" 0xC1 2 6 .INDEXED_INDIRECT (some .CMP)),
  (0xD1, Instruction.mk "CMP" 0xD1 2 5 .INDIRECT_INDEXED (some .CMP)),
  (0xE0, Instruction.mk "CPX" 0xE0 2 2 .IMMEDIATE (some .CPX)),
  (0xE4, Instruction.mk "CPX" 0xE4 2 3 .ZERO_PAGE (some .CPX)),
  (0xEC, Instruction.mk "CPX" 0xEC 3 4 .ABSOLUTE (some .CPX)),
  (0xC0, Instruction.mk "CPY" 0xC0 2 2 .IMMEDIATE (some .CPY)),
  (0xC4, Instruction.mk "CPY" 0xC4 2 3 .ZERO_PAGE (some .CPY)),
  (0xCC, Instruction.mk "CPY" 0xCC 3 4 .ABSOLUTE (some .CPY)),
  (0xCA, Instruction.mk "DEX" 0xCA 1 2 .IMPLICIT (some .DEX)),
  (0x88, Instruction.mk "DEY" 0x88 1 2 .IMPLICIT (some .DEY)),
  (0x49, Instruction.mk "EOR" 0x49 2 2 .IMMEDIATE (some .EOR)),
  (0x45, Instruction.mk "EOR" 0x45 2 3 .ZERO_PAGE (some .EOR)),
  (0x55, Instruction.mk "EOR" 0x55 2 4 .ZERO_PAGE_AND_X (some .EOR)),
  (0x4D, Instruction.mk "EOR" 0x4D 3 4 .ABSOLUTE (some .EOR)),
  (0x5D, Instruction.mk "EOR" 0x5D 3 4 .ABSOLUTE_AND_X (some .EOR)),
  (0x59, Instruction.mk "EOR" 0x59 3 4 .ABSOLUTE_AND_Y (some .EOR)),
  (0x41, Instruction.mk "EOR" 0x41 2 6 .INDEXED_INDIRECT (some .EOR)),
  (0x51, Instruction.mk "EOR" 0x51 2 5 .INDIRECT_INDEXED (some .EOR)),
  (0xE8, Instruction.mk "INX" 0xE8 1 2 .IMPLICIT (some .INX)),
  (0xC8, Instruction.mk "INY" 0xC8 1 2 .IMPLICIT (some .INY)),
  (0x4C, Instruction.mk "JMP" 0x4C 3 3 .ABSOLUTE (some .JMP)),
  (0x6C, Instruction.mk "JMP" 0x6C 3 5 .INDIRECT (some .JMP)),
  (0x20, Instruction.mk "JSR" 0x20 3 6 .ABSOLUTE (some .JSR)),
  (0xA9, Instruction.mk "LDA" 0xA9 2 2 .IMMEDIATE (some .LDA)),
  (0xA5, Instruction.mk "LDA" 0xA5 2 3 .ZERO_PAGE (some .LDA)),
  (0xB5, Instruction.mk "LDA" 0xB5 2 4 .ZERO_PAGE_AND_X (some .LDA)),
  (0xAD, Instruction.mk "LDA" 0xAD 3 4 .ABSOLUTE (some .LDA)),
  (0xBD, Instruction.mk "LDA" 0xBD 3 4 .ABSOLUTE_AND_X (some .LDA)),
  (0xB9, Instruction.mk "LDA" 0xB9 3 4 .ABSOLUTE_AND_Y (some .LDA)),
  (0xA1, Instruction.mk "LDA" 0xA1 2 6 .INDEXED_INDIRECT (some .LDA)),
  (0xB1, Instruction.mk "LDA" 0xB1 2 5 .INDIRECT_INDEXED (some .LDA)),
  (0xA2, Instruction.mk "LDX" 0xA2 2 2 .IMMEDIATE (some .LDX)),
  (0xA6, Instruction.mk "LDX" 0xA6 2 3 .ZERO_PAGE (some .LDX)),
  (0xB6, Instruction.mk "LDX" 0xB6 2 4 .ZERO_PAGE_AND_Y (some .LDX)),
  (0xAE, Instruction.mk "LDX" 0xAE 3 4 .ABSOLUTE (some .LDX)),
  (0xBE, Instruction.mk "LDX" 0xBE 3 4 .ABSOLUTE_AND_Y (some .LDX)),
  (0xA0, Instruction.mk "LDY" 0xA0 2 2 .IMMEDIATE (some .LDY)),
  (0xA4, Instruction.mk "LDY" 0xA4 2 3 .ZERO_PAGE (some .LDY)),
  (0xB4, Instruction.mk "LDY" 0xB4 2 4 .ZERO_PAGE_AND_X (some .LDY)),
  (0xAC, Instruction.mk "LDY" 0xAC 3 4 .ABSOLUTE (some .LDY)),
  (0xBC, Instruction.mk "LDY" 0xBC 3 4 .ABSOLUTE_AND_X (some .LDY)),
  (0x4A, Instruction.mk "LSR" 0x4A 1 2 .ACCUMULATOR (some .LSR)),
  (0x46, Instruction.mk "LSR" 0x46 2 5 .ZERO_PAGE (some .LSR)),
  (0x56, Instruction.mk "LSR" 0x56 2 6 .ZERO_PAGE_AND_X (some .LSR)),
  (0x4E, Instruction.mk "LSR" 0x4E 3 6 .ABSOLUTE (some .LSR)),
  (0x5E, Instruction.mk "LSR" 0x5E 3 7 .ABSOLUTE_AND_X (some .LSR)),
  (0xEA, Instruction.mk "NOP" 0xEA 1 2 .IMPLICIT (some .NOP)),
  (0x09, Instruction.mk "ORA" 0x09 2 2 .IMMEDIATE (some .ORA)),
  (0x05, Instruction.mk "ORA" 0x05 2 3 .ZERO_PAGE (some .ORA)),
  (0x15, Instruction.mk "ORA" 0x15 2 4 .ZERO_PAGE_AND_X (some .ORA)),
  (0x0D, Instruction.mk "ORA" 0x0D 3 4 .ABSOLUTE (some .ORA)),
  (0x1D, Instruction.mk "ORA" 0x1D 3 4 .ABSOLUTE_AND_X (some .ORA)),
  (0x19, Instruction.mk "ORA" 0x19 3 4 .ABSOLUTE_AND_Y (some .ORA)),
  (0x01, Instruction.mk "ORA" 0x01 2 6 .INDEXED_INDIRECT (some .ORA)),
  (0x11, Instruction.mk "ORA" 0x11 2 5 .INDIRECT_INDEXED (some .ORA)),
  (0x85, Instruction.mk "STA" 0x85 2 3 .ZERO_PAGE (some .STA)),
  (0x95, Instruction.mk "STA" 0x95 2 4 .ZERO_PAGE_AND_X (some .STA)),
  (0x8D, Instruction.mk "STA" 0x8D 3 4 .ABSOLUTE (some .STA)),
  (0x9D, Instruction.mk "STA" 0x9D 3 5 .ABSOLUTE_AND_X (some .STA)),
  (0x99, Instruction.mk "STA" 0x99 3 5 .ABSOLUTE_AND_Y (some .STA)),
  (0x81, Instruction.mk "STA" 0x81 2 6 .INDEXED_INDIRECT (some .STA)),
  (0x91, Instruction.mk "STA" 0x91 2 6 .INDIRECT_INDEXED (some .STA)),
  (0x69, Instruction.mk "ADC" 0x69 2 2 .IMMEDIATE (some .ADC)),
  (0x65, Instruction.mk "ADC" 0x65 2 3 .ZERO_PAGE (some .ADC)),
  (0x75, Instruction.mk "ADC" 0x75 2 4 .ZERO_PAGE_AND_X (some .ADC)),
  (0x6D, Instruction.mk "ADC" 0x6D 3 4 .ABSOLUTE (some .ADC)),
  (0x7D, Instruction.mk "ADC" 0x7D 3 4 .ABSOLUTE_AND_X (some .ADC)),
  (0x79, Instruction.mk "ADC" 0x79 3 4 .ABSOLUTE_AND_Y (some .ADC)),
  (0x61, Instruction.mk "ADC" 0x61 2 6 .INDEXED_INDIRECT (some .ADC)),
  (0x71, Instruction.mk "ADC" 0x71 2 5 .INDIRECT_INDEXED (some .ADC)),
  (0xE9, Instruction.mk "SBC" 0xE9 2 2 .IMMEDIATE (some .SBC)),
  (0xE5, Instruction.mk "SBC" 0xE5 2 3 .ZERO_PAGE (some .SBC)),
  (0xF5, Instruction.mk "SBC" 0xF5 2 4 .ZERO_PAGE_AND_X (some .SBC)),
  (0xED, Instruction.mk "SBC" 0xED 3 4 .ABSOLUTE (some .SBC)),
  (0xFD, Instruction.mk "SBC" 0xFD 3 4 .ABSOLUTE_AND_X (some .SBC)),
  (0xF9, Instruction.mk "SBC" 0xF9 3 4 .ABSOLUTE_AND_Y (some .SBC)),
  (0xE1, Instruction.mk "SBC" 0xE1 2 6 .INDEXED_INDIRECT (some .SBC)),
  (0xF1, Instruction.mk "SBC" 0xF1 2 5 .INDIRECT_INDEXED (some .SBC)),
  (0xAA, Instruction.mk "TAX" 0xAA 1 2 .IMPLICIT (some .TAX)),
  (0x8A, Instruction.mk "TXA" 0x8A 1 2 .IMPLICIT (some .TXA)),
  (0xA8, Instruction.mk "TAY" 0xA8 1 2 .IMPLICIT (some .TAY)),
  (0x98, Instruction.mk "TYA" 0x98 1 2 .IMPLICIT (some .TYA)),
  (0x0A, Instruction.mk "ASL" 0x0A 1 2 .ACCUMULATOR (some .ASL)),
  (0x06, Instruction.mk "ASL" 0x06 2 5 .ZERO_PAGE (some .ASL)),
  (0x16, Instruction.mk "ASL" 0x16 2 6 .ZERO_PAGE_AND_X (some .ASL)),
  (0x0E, Instruction.mk "ASL" 0x0E 3 6 .ABSOLUTE (some .ASL)),
  (0x1E, Instruction.mk "ASL" 0x1E 3 7 .ABSOLUTE_AND_X (some .ASL)),
  (0x2A, Instruction.mk "ROL" 0x2A 1 2 .ACCUMULATOR (some .ROL)),
  (0x26, Instruction.mk "ROL" 0x26 2 5 .ZERO_PAGE (some .ROL)),
  (0x36, Instruction.mk "ROL" 0x36 2 6 .ZERO_PAGE_AND_X (some .ROL)),
  (0x2E, Instruction.mk "ROL" 0x2E 3 6 .ABSOLUTE (some .ROL)),
  (0x3E, Instruction.mk "ROL" 0x3E 3 7 .ABSOLUTE_AND_X (some .ROL)),
  (0x6A, Instruction.mk "ROR" 0x6A 1 2 .ACCUMULATOR (some .ROR)),
  (0x66, Instruction.mk "ROR" 0x66 2 5 .ZERO_PAGE (some .ROR)),
  (0x76, Instruction.mk "ROR" 0x76 2 6 .ZERO_PAGE_AND_X (some .ROR)),
  (0x6E, Instruction.mk "ROR" 0x6E 3 6 .ABSOLUTE (some .ROR)),
  (0x7E, Instruction.mk "ROR" 0x7E 3 7 .ABSOLUTE_AND_X (some .ROR)),
  (0x18, Instruction.mk "CLC" 0x18 1 2 .IMPLICIT (some .CLC)),
  (0xD8, Instruction.mk "CLD" 0xD8 1 2 .IMPLICIT (some .CLD)),
  (0x58, Instruction.mk "CLI" 0x58 1 2 .IMPLICIT (some .CLI)),
  (0xB8, Instruction.mk "CLV" 0xB8 1 2 .IMPLICIT (some .CLV)),
  (0x38, Instruction.mk "SEC" 0x38 1 2 .IMPLICIT (some .SEC)),
  (0xF8, Instruction.mk "SED" 0xF8 1 2 .IMPLICIT (some .SED)),
  (0x29, Instruction.mk "AND" 0x29 2 2 .IMMEDIATE (some .AND)),
  (0x25, Instruction.mk "AND" 0x25 2 3 .ZERO_PAGE (some .AND)),
  (0x35, Instruction.mk "AND" 0x35 2 4 .ZERO_PAGE_AND_X (some .AND)),
  (0x2D, Instruction.mk "AND" 0x2D 3 4 .ABSOLUTE (some .AND)),
  (0x3D, Instruction.mk "AND" 0x3D 3 4 .ABSOLUTE_AND_X (some .AND)),
  (0x39, Instruction.mk "AND" 0x39 3 4 .ABSOLUTE_AND_Y (some .AND)),
  (0x21, Instruction.mk "AND" 0x21 2 6 .INDEXED_INDIRECT (some .AND)),
  (0x31, Instruction.mk "AND" 0x31 2 5 .INDIRECT_INDEXED (some .AND)),
  (0x24, Instruction.mk "BIT" 0x24 2 3 .ZERO_PAGE (some .BIT)),
  (0x2C, Instruction.mk "BIT" 0x2C 3 4 .ABSOLUTE (some .BIT)),
  (0x90, Instruction.mk "BCC" 0x90 2 2 .RELATIVE (some .BCC)),
  (0xB0, Instruction.mk "BCS" 0xB0 2 2 .RELATIVE (some .BCS)),
  (0xF0, Instruction.mk "BEQ" 0xF0 2 2 .RELATIVE (some .BEQ)),
  (0x30, Instruction.mk "BMI" 0x30 2 2 .RELATIVE (some .BMI)),
  (0xD0, Instruction.mk "BNE" 0xD0 2 2 .RELATIVE (some .BNE)),
  (0x10, Instruction.mk "BPL" 0x10 2 2 .RELATIVE (some .BPL)),
  (0x50, Instruction.mk "BVC" 0x50 2 2 .RELATIVE (some .BVC)),
  (0xC6, Instruction.mk "DEC" 0xC6 2 5 .ZERO_PAGE (some .DEC)),
  (0xD6, Instruction.mk "DEC" 0xD6 2 6 .ZERO_PAGE_AND_X (some .DEC)),
  (0xCE, Instruction.mk "DEC" 0xCE 3 6 .ABSOLUTE (some .DEC)),
  (0xDE, Instruction.mk "DEC" 0xDE 3 7 .ABSOLUTE_AND_X (some .DEC)),
  (0xE6, Instruction.mk "INC" 0xE6 2 5 .ZERO_PAGE (some .INC)),
  (0xF6, Instruction.mk "INC" 0xF6 2 6 .ZERO_PAGE_AND_X (some .INC)),
  (0xEE, Instruction.mk "INC" 0xEE 3 6 .ABSOLUTE (some .INC)),
  (0xFE, Instruction.mk "INC" 0xFE 3 7 .ABSOLUTE_AND_X (some .INC)),
  (0x40, Instruction.mk "RTI" 0x40 1 6 .IMPLICIT (some .RTI)),
  (0x60, Instruction.mk "RTS" 0x60 1 6 .IMPLICIT (some .RTS)),
  (0x86, Instruction.mk "STX" 0x86 2 3 .ZERO_PAGE (some .STX)),
  (0x96, Instruction.mk "STX" 0x96 2 4 .ZERO_PAGE_AND_Y (some .STX)),
  (0x8E, Instruction.mk "STX" 0x8E 3 4 .ABSOLUTE (some .STX)),
  (0x84, Instruction.mk "STY" 0x84 2 3 .ZERO_PAGE (some .STY)),
  (0x94, Instruction.mk "STY" 0x94 2 4 .ZERO_PAGE_AND_X (some .STY)),
  (0x8C, Instruction.mk "STY" 0x8C 3 4 .ABSOLUTE (some .STY)),
  (0xBA, Instruction.mk "TSX" 0xBA 1 2 .IMPLICIT (some .TSX)),
  (0x9A, Instruction.mk "TXS" 0x9A 1 2 .IMPLICIT (some .TXS)),
  (0x48, Instruction.mk "PHA" 0x48 1 3 .IMPLICIT (some .PHA)),
  (0x08, Instruction.mk "PHP" 0x08 1 3 .IMPLICIT (some .PHP)),
  (0x68, Instruction.mk "PLA" 0x68 1 4 .IMPLICIT (some .PLA)),
  (0x28, Instruction.mk "PLP" 0x28 1 4 .IMPLICIT (some .PLP)),
  (0x78, Instruction.mk "SEI" 0x78 1 2 .IMPLICIT (some .SEI)),
  (0x02, Instruction.mk "DONE" 0xFE 1 1 .IMPLICIT (some .EMPTY_LAMBDA))]

/-- The function `Emulator::initInstructionMap`: every slot is filled with the `"DONE"`
entry, then the assignments are carried out in order. The result is the table. -/
def initInstructionMap : Nat → Instruction :=
  assignments.foldl (fun table p => fun i => if i = p.1 then p.2 else table i)
    (fun _ => doneEntry)

/-- The member `instruction_map`, read after `initInstructionMap` has run. -/
def instruction_map (opcode : Nat) : Instruction := initInstructionMap opcode

namespace Emulator

open MOS_6502

/-- The assignment `cpu.accumulator = v`. -/
def setA (e : Emulator) (v : Nat) : Emulator := { e with cpu := { e.cpu with accumulator := v } }

/-- The assignment `cpu.X = v`. -/
def setX (e : Emulator) (v : Nat) : Emulator := { e with cpu := { e.cpu with X := v } }

/-- The assignment `cpu.Y = v`. -/
def setY (e : Emulator) (v : Nat) : Emulator := { e with cpu := { e.cpu with Y := v } }

/-- The assignment `cpu.S = v`. -/
def setS (e : Emulator) (v : Nat) : Emulator := { e with cpu := { e.cpu with S := v } }

/-- The assignment `cpu.program_counter = v`. -/
def setPC (e : Emulator) (v : Nat) : Emulator :=
  { e with cpu := { e.cpu with program_counter := v } }

/-- The assignment `cpu.P = v`. -/
def setP (e : Emulator) (v : Nat) : Emulator := { e with cpu := { e.cpu with P := v } }

/-- The replacement of the address space after a store. -/
def setMem (e : Emulator) (m : Memory) : Emulator := { e with mem := m }

/-- The statement `cpu.P |= flag`. -/
def orP (e : Emulator) (flag : Nat) : Emulator := e.setP ((e.cpu.P ||| flag) % 256)

/-- The statement `cpu.P &= ~flag`: the complement is taken at `int` width and the
result is truncated to the byte `cpu.P`. -/
def andNotP (e : Emulator) (flag : Nat) : Emulator := e.setP ((e.cpu.P &&& bitNot flag) % 256)

/-- The pre-increment `++cpu.program_counter` on the 16-bit counter. -/
def incPC (e : Emulator) : Emulator := e.setPC ((e.cpu.program_counter + 1) % 65536)

/-- One call of `delayMicros(CLOCK_uS)`. -/
def delay (e : Emulator) : Emulator := { e with elapsed := e.elapsed + 1 }

/-- The read `*p`; reading through `nullptr` is undefined. -/
def deref (e : Emulator) : BytePtr → Option Nat
  | .memory addr => some (e.mem.memory addr)
  | .accumulator => some e.cpu.accumulator
  | .null => none

/-- The write `*p = v`; writing through `nullptr` is undefined. -/
def assign (e : Emulator) : BytePtr → Nat → Option Emulator
  | .memory addr, v => some (e.setMem (e.mem.writeByte addr v))
  | .accumulator, v => some (e.setA v)
  | .null, _ => none

/-- The pointer difference `p - mem.memory`, defined only for pointers into `mem.memory`. -/
def offsetOf : BytePtr → Option Nat
  | .memory addr => some addr
  | .accumulator => none
  | .null => none

/-- The function `Emulator::handleArithmeticFlagChanges`. -/
def handleArithmeticFlagChanges (e : Emulator) (value : Nat) : Emulator :=
  let e := e.andNotP P_ZERO
  let e := e.andNotP P_NEGATIVE
  let e := if value = 0 then e.orP P_ZERO else e
  let e := if IS_BIT_ON value 7 then e.orP P_NEGATIVE else e
  e

/-- The function `Emulator::accumulator`. -/
def accumulator (e : Emulator) : Emulator × BytePtr := (e, .accumulator)

/-- The function `Emulator::immediate`. -/
def immediate (e : Emulator) : Emulator × BytePtr :=
  let e := e.incPC
  let addr : Nat := e.cpu.program_counter
  (e, .memory addr)

/-- The function `Emulator::zeroPage`. -/
def zeroPage (e : Emulator) : Emulator × BytePtr :=
  let e := e.incPC
  let offset : Nat := e.mem.readByte e.cpu.program_counter
  (e, .memory offset)

/-- The function `Emulator::zeroPageX`. -/
def zeroPageX (e : Emulator) : Emulator × BytePtr :=
  let e := e.incPC
  let page_offset : Nat := e.mem.readByte e.cpu.program_counter
  let offset : Nat := e.cpu.X
  (e, .memory (((page_offset + offset) &&& 0xFF) % 65536))

/-- The function `Emulator::zeroPageY`. -/
def zeroPageY (e : Emulator) : Emulator × BytePtr :=
  let e := e.incPC
  let page_offset : Nat := e.mem.readByte e.cpu.program_counter
  let offset : Nat := e.cpu.Y
  (e, .memory (((page_offset + offset) &&& 0xFF) % 65536))

/-- The function `Emulator::relative`: the signed offset is added to the counter as it
stands after the pre-increment. -/
def relative (e : Emulator) : Emulator × BytePtr :=
  let e := e.incPC
  let offset : Int := toSignedByte (e.mem.readByte e.cpu.program_counter)
  (e, .memory (wordOfInt ((e.cpu.program_counter : Int) + offset)))

/-- The function `Emulator::absolute`. -/
def absolute (e : Emulator) : Emulator × BytePtr :=
  let e := e.incPC
  let low : Nat := e.mem.readByte e.cpu.program_counter
  let e := e.incPC
  let high : Nat := e.mem.readByte e.cpu.program_counter
  let addr : Nat := (low ||| (high <<< 8)) % 65536
  (e, .memory (addr &&& 0xFFFF))

/-- The function `Emulator::absoluteX`; the page penalty is paid whatever `testing` is. -/
def absoluteX (e : Emulator) : Emulator × BytePtr :=
  let offset : Nat := e.cpu.X
  let e := e.incPC
  let low : Nat := e.mem.readByte e.cpu.program_counter
  let e := e.incPC
  let high : Nat := e.mem.readByte e.cpu.program_counter
  let addr : Nat := (low ||| (high <<< 8)) % 65536
  let e := if (addr &&& 0xFF00) ≠ ((addr + offset) &&& 0xFF00) then e.delay else e
  (e, .memory ((addr + offset) % 65536))

/-- The function `Emulator::absoluteY`; the page penalty is paid whatever `testing` is. -/
def absoluteY (e : Emulator) : Emulator × BytePtr :=
  let offset : Nat := e.cpu.Y
  let e := e.incPC
  let low : Nat := e.mem.readByte e.cpu.program_counter
  let e := e.incPC
  let high : Nat := e.mem.readByte e.cpu.program_counter
  let addr : Nat := (low ||| (high <<< 8)) % 65536
  let e := if (addr &&& 0xFF00) ≠ ((addr + offset) &&& 0xFF00) then e.delay else e
  (e, .memory ((addr + offset) % 65536))

/-- The function `Emulator::indirect`, with the page-wrap of the high pointer byte. -/
def indirect (e : Emulator) : Emulator × BytePtr :=
  let e := e.incPC
  let lower_byte : Nat := e.mem.readByte e.cpu.program_counter
  let e := e.incPC
  let higher_byte : Nat := e.mem.readByte e.cpu.program_counter
  let location : Nat := ((higher_byte <<< 8) ||| lower_byte) % 65536
  let pointer_low : Nat := e.mem.readByte location
  let pointer_high : Nat :=
    if ((location + 1) &&& 0xFF00) ≠ (location &&& 0xFF00) then
      e.mem.readByte (location &&& 0xFF00)
    else
      e.mem.readByte (location + 1)
  let actual_location : Nat := ((pointer_high <<< 8) ||| pointer_low) % 65536
  (e, .memory actual_location)

/-- The function `Emulator::indexedIndirect`, the mode `(zp,X)`. -/
def indexedIndirect (e : Emulator) : Emulator × BytePtr :=
  let offset : Nat := e.cpu.X
  let e := e.incPC
  let location : Nat := e.mem.readByte e.cpu.program_counter
  let zp_address : Nat := (offset + location) % 256
  let lower_byte : Nat := e.mem.readByte zp_address
  let higher_byte : Nat := e.mem.readByte ((zp_address + 1) % 256)
  let target_address : Nat := (lower_byte ||| (higher_byte <<< 8)) % 65536
  (e, .memory target_address)

/-- The function `Emulator::indirectIndexed`, the mode `(zp),Y`; here the page penalty is
paid only when `testing` is off. -/
def indirectIndexed (e : Emulator) : Emulator × BytePtr :=
  let offset : Nat := e.cpu.Y
  let e := e.incPC
  let location : Nat := e.mem.readByte e.cpu.program_counter
  let lower_byte : Nat := e.mem.readByte location
  let higher_byte : Nat := e.mem.readByte ((location + 1) % 256)
  let target_address : Nat := (lower_byte ||| ((higher_byte <<< 8) % 65536)) % 65536
  let e :=
    if (target_address &&& 0xFF00) ≠ ((target_address + offset) &&& 0xFF00) then
      (if !e.testing then e.delay else e)
    else e
  (e, .memory ((target_address + offset) % 65536))

/-- The function `Emulator::handleAddressing`: the resolver of the opcode's mode. -/
def handleAddressing (e : Emulator) (opcode : Nat) : Emulator × BytePtr :=
  match (instruction_map opcode).addressing_mode with
  | .IMMEDIATE => e.immediate
  | .ZERO_PAGE => e.zeroPage
  | .ZERO_PAGE_AND_X => e.zeroPageX
  | .ZERO_PAGE_AND_Y => e.zeroPageY
  | .ABSOLUTE => e.absolute
  | .ABSOLUTE_AND_X => e.absoluteX
  | .ABSOLUTE_AND_Y => e.absoluteY
  | .INDIRECT => e.indirect
  | .INDEXED_INDIRECT => e.indexedIndirect
  | .INDIRECT_INDEXED => e.indirectIndexed
  | .ACCUMULATOR => e.accumulator
  | .IMPLICIT => (e, .null)
  | .RELATIVE => e.relative

/-- The function `Emulator::NOP`. -/
def NOP (e : Emulator) (opcode : Nat) : Option Emulator := some e

/-- The function `Emulator::ORA`. -/
def ORA (e : Emulator) (opcode : Nat) : Option Emulator := do
  let (e, addr) := e.handleAddressing opcode
  let v ← e.deref addr
  let e := e.setA ((e.cpu.accumulator ||| v) % 256)
  some (e.handleArithmeticFlagChanges e.cpu.accumulator)

/-- The function `Emulator::INX`. -/
def INX (e : Emulator) (opcode : Nat) : Option Emulator :=
  let e := e.setX ((e.cpu.X + 1) % 256)
  some (e.handleArithmeticFlagChanges e.cpu.X)

/-- The function `Emulator::INY`. -/
def INY (e : Emulator) (opcode : Nat) : Option Emulator :=
  let e := e.setY ((e.cpu.Y + 1) % 256)
  some (e.handleArithmeticFlagChanges e.cpu.Y)

/-- The function `Emulator::DEX`. -/
def DEX (e : Emulator) (opcode : Nat) : Option Emulator :=
  let e := e.setX ((e.cpu.X + 255) % 256)
  some (e.handleArithmeticFlagChanges e.cpu.X)

/-- The function `Emulator::DEY`. -/
def DEY (e : Emulator) (opcode : Nat) : Option Emulator :=
  let e := e.setY ((e.cpu.Y + 255) % 256)
  some (e.handleArithmeticFlagChanges e.cpu.Y)

/-- The function `Emulator::INC`. -/
def INC (e : Emulator) (opcode : Nat) : Option Emulator := do
  let (e, location) := e.handleAddressing opcode
  let v ← e.deref location
  let e ← e.assign location ((v + 1) % 256)
  let v ← e.deref location
  some (e.handleArithmeticFlagChanges v)

/-- The function `Emulator::DEC`. -/
def DEC (e : Emulator) (opcode : Nat) : Option Emulator := do
  let (e, location) := e.handleAddressing opcode
  let v ← e.deref location
  let e ← e.assign location ((v + 255) % 256)
  let v ← e.deref location
  some (e.handleArithmeticFlagChanges v)

/-- The function `Emulator::BRK`. -/
def BRK (e : Emulator) (opcode : Nat) : Option Emulator :=
  let e := e.setPC ((e.cpu.program_counter + 1) % 65536)
  let r := e.mem.stackPushWord e.cpu.S ((e.cpu.program_counter + 1) % 65536)
  let e := (e.setMem r.1).setS r.2
  let r := e.mem.stackPushByte e.cpu.S ((e.cpu.P ||| P_BREAK ||| P_UNUSED) % 256)
  let e := (e.setMem r.1).setS r.2
  let e := e.orP P_INT_DISABLE
  let low : Nat := e.mem.readByte 0xFFFE
  let high : Nat := e.mem.readByte 0xFFFF
  some (e.setPC ((((high <<< 8) ||| low) + 65535) % 65536))

/-- The function `Emulator::TXA`. -/
def TXA (e : Emulator) (opcode : Nat) : Option Emulator :=
  let e := e.setA e.cpu.X
  some (e.handleArithmeticFlagChanges e.cpu.accumulator)

/-- The function `Emulator::TAY`. -/
def TAY (e : Emulator) (opcode : Nat) : Option Emulator :=
  let e := e.setY e.cpu.accumulator
  some (e.handleArithmeticFlagChanges e.cpu.Y)

/-- The function `Emulator::TSX`. -/
def TSX (e : Emulator) (opcode : Nat) : Option Emulator :=
  let e := e.setX e.cpu.S
  some (e.handleArithmeticFlagChanges e.cpu.X)

/-- The function `Emulator::TXS`. -/
def TXS (e : Emulator) (opcode : Nat) : Option Emulator :=
  some (e.setS e.cpu.X)

/-- The function `Emulator::TYA`. -/
def TYA (e : Emulator) (opcode : Nat) : Option Emulator :=
  let e := e.setA e.cpu.Y
  some (e.handleArithmeticFlagChanges e.cpu.accumulator)

/-- The function `Emulator::TAX`. -/
def TAX (e : Emulator) (opcode : Nat) : Option Emulator :=
  let e := e.setX e.cpu.accumulator
  some (e.handleArithmeticFlagChanges e.cpu.X)

/-- The function `Emulator::LDA`. -/
def LDA (e : Emulator) (opcode : Nat) : Option Emulator := do
  let (e, addr) := e.handleAddressing opcode
  let v ← e.deref addr
  let e := e.setA v
  some (e.handleArithmeticFlagChanges e.cpu.accumulator)

/-- The function `Emulator::LDX`. -/
def LDX (e : Emulator) (opcode : Nat) : Option Emulator := do
  let (e, addr) := e.handleAddressing opcode
  let v ← e.deref addr
  let e := e.setX v
  some (e.handleArithmeticFlagChanges e.cpu.X)

/-- The function `Emulator::LDY`. -/
def LDY (e : Emulator) (opcode : Nat) : Option Emulator := do
  let (e, addr) := e.handleAddressing opcode
  let v ← e.deref addr
  let e := e.setY v
  some (e.handleArithmeticFlagChanges e.cpu.Y)

/-- The function `Emulator::STA`. -/
def STA (e : Emulator) (opcode : Nat) : Option Emulator := do
  let (e, addr) := e.handleAddressing opcode
  e.assign addr e.cpu.accumulator

/-- The function `Emulator::STX`. -/
def STX (e : Emulator) (opcode : Nat) : Option Emulator := do
  let (e, addr) := e.handleAddressing opcode
  e.assign addr e.cpu.X

/-- The function `Emulator::STY`. -/
def STY (e : Emulator) (opcode : Nat) : Option Emulator := do
  let (e, addr) := e.handleAddressing opcode
  e.assign addr e.cpu.Y

/-- The function `Emulator::JMP`: the counter is set to one less than the target. -/
def JMP (e : Emulator) (opcode : Nat) : Option Emulator := do
  let (e, location) := e.handleAddressing opcode
  let off ← offsetOf location
  some (e.setPC ((off + 65535) % 65536))

/-- The function `Emulator::JSR`. -/
def JSR (e : Emulator) (opcode : Nat) : Option Emulator := do
  let (e, location) := e.handleAddressing opcode
  let r := e.mem.stackPushWord e.cpu.S e.cpu.program_counter
  let e := (e.setMem r.1).setS r.2
  let off ← offsetOf location
  some (e.setPC ((off + 65535) % 65536))

/-- The function `Emulator::RTS`. -/
def RTS (e : Emulator) (opcode : Nat) : Option Emulator :=
  let r := e.mem.stackPullWord e.cpu.S
  let return_address : Nat := r.1
  let e := e.setS r.2
  some (e.setPC return_address)

/-- The function `Emulator::PHA`. -/
def PHA (e : Emulator) (opcode : Nat) : Option Emulator :=
  let r := e.mem.stackPushByte e.cpu.S e.cpu.accumulator
  some ((e.setMem r.1).setS r.2)

/-- The function `Emulator::PLA`. -/
def PLA (e : Emulator) (opcode : Nat) : Option Emulator :=
  let r := e.mem.stackPullByte e.cpu.S
  let e := (e.setS r.2).setA r.1
  some (e.handleArithmeticFlagChanges e.cpu.accumulator)

/-- The function `Emulator::PHP`. -/
def PHP (e : Emulator) (opcode : Nat) : Option Emulator :=
  let r := e.mem.stackPushByte e.cpu.S ((e.cpu.P ||| P_BREAK ||| P_UNUSED) % 256)
  some ((e.setMem r.1).setS r.2)

/-- The function `Emulator::PLP`. -/
def PLP (e : Emulator) (opcode : Nat) : Option Emulator :=
  let r := e.mem.stackPullByte e.cpu.S
  let e := (e.setS r.2).setP r.1
  let e := e.andNotP P_BREAK
  let e := e.orP P_UNUSED
  some e

/-- The function `Emulator::AND`. -/
def AND (e : Emulator) (opcode : Nat) : Option Emulator := do
  let (e, addr) := e.handleAddressing opcode
  let v ← e.deref addr
  let e := e.setA ((e.cpu.accumulator &&& v) % 256)
  some (e.handleArithmeticFlagChanges e.cpu.accumulator)

/-- The function `Emulator::EOR`. -/
def EOR (e : Emulator) (opcode : Nat) : Option Emulator := do
  let (e, addr) := e.handleAddressing opcode
  let v ← e.deref addr
  let e := e.setA ((e.cpu.accumulator ^^^ v) % 256)
  some (e.handleArithmeticFlagChanges e.cpu.accumulator)

/-- The function `Emulator::CLC`. -/
def CLC (e : Emulator) (opcode : Nat) : Option Emulator := some (e.andNotP P_CARRY)

/-- The function `Emulator::CLD`. -/
def CLD (e : Emulator) (opcode : Nat) : Option Emulator := some (e.andNotP P_DECIMAL)

/-- The function `Emulator::CLI`. -/
def CLI (e : Emulator) (opcode : Nat) : Option Emulator := some (e.andNotP P_INT_DISABLE)

/-- The function `Emulator::CLV`. -/
def CLV (e : Emulator) (opcode : Nat) : Option Emulator := some (e.andNotP P_OVERFLOW)

/-- The function `Emulator::SEC`. -/
def SEC (e : Emulator) (opcode : Nat) : Option Emulator := some (e.orP P_CARRY)

/-- The function `Emulator::SED`. -/
def SED (e : Emulator) (opcode : Nat) : Option Emulator := some (e.orP P_DECIMAL)

/-- The function `Emulator::SEI`. -/
def SEI (e : Emulator) (opcode : Nat) : Option Emulator := some (e.orP P_INT_DISABLE)

/-- The function `Emulator::RTI`. -/
def RTI (e : Emulator) (opcode : Nat) : Option Emulator :=
  let r := e.mem.stackPullByte e.cpu.S
  let e := (e.setS r.2).setP r.1
  let e := e.andNotP P_BREAK
  let e := e.orP P_UNUSED
  let r := e.mem.stackPullWord e.cpu.S
  let e := e.setS r.2
  some (e.setPC ((r.1 + 65535) % 65536))

/-- The function `Emulator::ADC`. -/
def ADC (e : Emulator) (opcode : Nat) : Option Emulator := do
  let (e, addr) := e.handleAddressing opcode
  let carry : Nat := if e.cpu.P &&& P_CARRY ≠ 0 then 1 else 0
  let result : Nat := (e.cpu.accumulator + (← e.deref addr) + carry) % 65536
  let result8 : Nat := (result &&& 0xFF) % 256
  let is_overflow : Nat :=
    (bitNot (e.cpu.accumulator ^^^ (← e.deref addr)) &&& (e.cpu.accumulator ^^^ result)) &&& 0x80
  let e := e.setA result8
  let e := if result ≥ 0x100 then e.orP P_CARRY else e.andNotP P_CARRY
  let e := if is_overflow ≠ 0 then e.orP P_OVERFLOW else e.andNotP P_OVERFLOW
  some (e.handleArithmeticFlagChanges result8)

/-- The function `Emulator::SBC`: the difference is formed in `int` and stored in a `Word`. -/
def SBC (e : Emulator) (opcode : Nat) : Option Emulator := do
  let (e, addr) := e.handleAddressing opcode
  let carry : Nat := if e.cpu.P &&& P_CARRY ≠ 0 then 1 else 0
  let result : Nat :=
    wordOfInt ((e.cpu.accumulator : Int) - ((← e.deref addr) : Nat) - (1 - (carry : Int)))
  let result8 : Nat := (result &&& 0xFF) % 256
  let is_overflow : Nat :=
    ((e.cpu.accumulator ^^^ (← e.deref addr)) &&& (e.cpu.accumulator ^^^ (result % 256))) &&& 0x80
  let e := e.setA result8
  let e := if result < 0x100 then e.orP P_CARRY else e.andNotP P_CARRY
  let e := if is_overflow ≠ 0 then e.orP P_OVERFLOW else e.andNotP P_OVERFLOW
  some (e.handleArithmeticFlagChanges result8)

/-- The function `Emulator::ASL`. -/
def ASL (e : Emulator) (opcode : Nat) : Option Emulator := do
  let (e, addr) := e.handleAddressing opcode
  let should_carry : Nat := (0x80 &&& (← e.deref addr)) % 256
  let e ← e.assign addr ((((← e.deref addr) <<< 1) &&& 0xFF) % 256)
  let e := if should_carry ≠ 0 then e.orP P_CARRY else e.andNotP P_CARRY
  some (e.handleArithmeticFlagChanges (← e.deref addr))

/-- The function `Emulator::LSR`. -/
def LSR (e : Emulator) (opcode : Nat) : Option Emulator := do
  let (e, addr) := e.handleAddressing opcode
  let should_carry : Nat := ((← e.deref addr) &&& 1) % 256
  let e ← e.assign addr ((((← e.deref addr) >>> 1) &&& 0xFF) % 256)
  let e := if should_carry ≠ 0 then e.orP P_CARRY else e.andNotP P_CARRY
  some (e.handleArithmeticFlagChanges (← e.deref addr))

/-- The function `Emulator::ROL`. -/
def ROL (e : Emulator) (opcode : Nat) : Option Emulator := do
  let (e, addr) := e.handleAddressing opcode
  let should_carry : Nat := ((← e.deref addr) &&& 0x80) % 256
  let _0_bit_val : Nat := if e.cpu.P &&& P_CARRY ≠ 0 then 1 else 0
  let e ← e.assign addr ((((← e.deref addr) <<< 1) ||| _0_bit_val) % 256)
  let e := if should_carry ≠ 0 then e.orP P_CARRY else e.andNotP P_CARRY
  some (e.handleArithmeticFlagChanges (← e.deref addr))

/-- The function `Emulator::ROR`. -/
def ROR (e : Emulator) (opcode : Nat) : Option Emulator := do
  let (e, addr) := e.handleAddressing opcode
  let original_bit0 : Nat := ((← e.deref addr) &&& 0x01) % 256
  let carry_in : Nat := if e.cpu.P &&& P_CARRY ≠ 0 then 0x80 else 0
  let e ← e.assign addr ((((← e.deref addr) >>> 1) ||| carry_in) % 256)
  let e := if original_bit0 ≠ 0 then e.orP P_CARRY else e.andNotP P_CARRY
  some (e.handleArithmeticFlagChanges (← e.deref addr))

/-- The function `Emulator::CMP`. -/
def CMP (e : Emulator) (opcode : Nat) : Option Emulator := do
  let (e, addr) := e.handleAddressing opcode
  let A : Nat := e.cpu.accumulator
  let M : Nat ← e.deref addr
  let result : Nat := byteOfInt ((A : Int) - (M : Int))
  let e := if A = M then e.orP P_ZERO else e.andNotP P_ZERO
  let e := if A ≥ M then e.orP P_CARRY else e.andNotP P_CARRY
  let e := if result &&& 0x80 ≠ 0 then e.orP P_NEGATIVE else e.andNotP P_NEGATIVE
  some e

/-- The function `Emulator::CPX`. -/
def CPX (e : Emulator) (opcode : Nat) : Option Emulator := do
  let (e, addr) := e.handleAddressing opcode
  let X : Nat := e.cpu.X
  let M : Nat ← e.deref addr
  let result : Nat := byteOfInt ((X : Int) - (M : Int))
  let e := if X = M then e.orP P_ZERO else e.andNotP P_ZERO
  let e := if X ≥ M then e.orP P_CARRY else e.andNotP P_CARRY
  let e := if result &&& 0x80 ≠ 0 then e.orP P_NEGATIVE else e.andNotP P_NEGATIVE
  some e

/-- The function `Emulator::CPY`. -/
def CPY (e : Emulator) (opcode : Nat) : Option Emulator := do
  let (e, addr) := e.handleAddressing opcode
  let Y : Nat := e.cpu.Y
  let M : Nat ← e.deref addr
  let result : Nat := byteOfInt ((Y : Int) - (M : Int))
  let e := if Y = M then e.orP P_ZERO else e.andNotP P_ZERO
  let e := if Y ≥ M then e.orP P_CARRY else e.andNotP P_CARRY
  let e := if result &&& 0x80 ≠ 0 then e.orP P_NEGATIVE else e.andNotP P_NEGATIVE
  some e

/-- The function `Emulator::branchIf`. -/
def branchIf (e : Emulator) (condition : Bool) (to_ : BytePtr) : Option Emulator :=
  if condition then do
    let location ← offsetOf to_
    some (e.setPC (location % 65536))
  else some e

/-- The function `Emulator::BCC`. -/
def BCC (e : Emulator) (opcode : Nat) : Option Emulator :=
  let (e, offset) := e.handleAddressing opcode
  e.branchIf (e.cpu.P &&& P_CARRY == 0) offset

/-- The function `Emulator::BCS`. -/
def BCS (e : Emulator) (opcode : Nat) : Option Emulator :=
  let (e, offset) := e.handleAddressing opcode
  e.branchIf (e.cpu.P &&& P_CARRY != 0) offset

/-- The function `Emulator::BEQ`. -/
def BEQ (e : Emulator) (opcode : Nat) : Option Emulator :=
  let (e, offset) := e.handleAddressing opcode
  e.branchIf (e.cpu.P &&& P_ZERO != 0) offset

/-- The function `Emulator::BMI`. -/
def BMI (e : Emulator) (opcode : Nat) : Option Emulator :=
  let (e, offset) := e.handleAddressing opcode
  e.branchIf (e.cpu.P &&& P_NEGATIVE != 0) offset

/-- The function `Emulator::BNE`. -/
def BNE (e : Emulator) (opcode : Nat) : Option Emulator :=
  let (e, offset) := e.handleAddressing opcode
  e.branchIf (e.cpu.P &&& P_ZERO == 0) offset

/-- The function `Emulator::BPL`. -/
def BPL (e : Emulator) (opcode : Nat) : Option Emulator :=
  let (e, offset) := e.handleAddressing opcode
  e.branchIf (e.cpu.P &&& P_NEGATIVE == 0) offset

/-- The function `Emulator::BVC`. -/
def BVC (e : Emulator) (opcode : Nat) : Option Emulator :=
  let (e, offset) := e.handleAddressing opcode
  e.branchIf (e.cpu.P &&& P_OVERFLOW == 0) offset

/-- The function `Emulator::BVS`. -/
def BVS (e : Emulator) (opcode : Nat) : Option Emulator :=
  let (e, offset) := e.handleAddressing opcode
  e.branchIf (e.cpu.P &&& P_OVERFLOW != 0) offset

/-- The function `Emulator::BIT`. -/
def BIT (e : Emulator) (opcode : Nat) : Option Emulator := do
  let (e, addr) := e.handleAddressing opcode
  let value : Nat ← e.deref addr
  let result : Nat := (e.cpu.accumulator &&& value) % 256
  let e := if result = 0 then e.orP P_ZERO else e.andNotP P_ZERO
  let e := if value &&& 0x80 ≠ 0 then e.orP P_NEGATIVE else e.andNotP P_NEGATIVE
  let e := if value &&& 0x40 ≠ 0 then e.orP P_OVERFLOW else e.andNotP P_OVERFLOW
  some e

/-- The call `instruction.implementation(opcode)` for a non-empty behaviour. -/
def exec (e : Emulator) (opcode : Nat) : Behaviour → Option Emulator
  | .NOP => e.NOP opcode | .ORA => e.ORA opcode | .INX => e.INX opcode
  | .INY => e.INY opcode | .DEX => e.DEX opcode | .DEY => e.DEY opcode
  | .INC => e.INC opcode | .DEC => e.DEC opcode | .BRK => e.BRK opcode
  | .TXA => e.TXA opcode | .TAY => e.TAY opcode | .TSX => e.TSX opcode
  | .TXS => e.TXS opcode | .TYA => e.TYA opcode | .TAX => e.TAX opcode
  | .LDA => e.LDA opcode | .LDX => e.LDX opcode | .LDY => e.LDY opcode
  | .STA => e.STA opcode | .STX => e.STX opcode | .STY => e.STY opcode
  | .JMP => e.JMP opcode | .JSR => e.JSR opcode | .RTS => e.RTS opcode
  | .PHA => e.PHA opcode | .PLA => e.PLA opcode | .PHP => e.PHP opcode
  | .PLP => e.PLP opcode | .AND => e.AND opcode | .EOR => e.EOR opcode
  | .CLC => e.CLC opcode | .CLD => e.CLD opcode | .CLI => e.CLI opcode
  | .CLV => e.CLV opcode | .SEC => e.SEC opcode | .SED => e.SED opcode
  | .SEI => e.SEI opcode | .RTI => e.RTI opcode | .ADC => e.ADC opcode
  | .SBC => e.SBC opcode | .ASL => e.ASL opcode | .LSR => e.LSR opcode
  | .ROL => e.ROL opcode | .ROR => e.ROR opcode | .CMP => e.CMP opcode
  | .CPX => e.CPX opcode | .CPY => e.CPY opcode | .BCC => e.BCC opcode
  | .BCS => e.BCS opcode | .BEQ => e.BEQ opcode | .BMI => e.BMI opcode
  | .BNE => e.BNE opcode | .BPL => e.BPL opcode | .BVC => e.BVC opcode
  | .BVS => e.BVS opcode | .BIT => e.BIT opcode
  | .EMPTY_LAMBDA => some e

/-- The macro `DELAY_CYCLES(map, opcode)`: one wait per base cycle of the opcode. -/
def DELAY_CYCLES (e : Emulator) (opcode : Nat) : Emulator :=
  { e with elapsed := e.elapsed + (instruction_map opcode).cycles }

/-- The function `Emulator::cycle`: one fetch-decode-execute step. The result is the
returned boolean and the state after the call. -/
def cycle (e : Emulator) : Option (Bool × Emulator) :=
  let opcode : Nat := e.mem.readByte e.cpu.program_counter
  let instruction := instruction_map opcode
  if instruction.name = "DONE" ∨ (e.testing = false ∧ instruction.name = "BRK") then
    some (false, e)
  else do
    let behaviour ← instruction.implementation
    let e ← e.exec opcode behaviour
    let e := e.setPC ((e.cpu.program_counter + 1) % 65536)
    let e := if e.testing = false then e.DELAY_CYCLES opcode else e
    some (true, e)

/-- The function `Emulator::loadROM`. The constants `Memory::ROM_START` and
`Memory::ROM_END` belong to `mos6502.h`, which is not among the sources, and are parameters
here (with `ROM_START ≤ ROM_END`). The result is the list of messages written and the state
after the call. The size test writes its message and nothing else: no `return` follows it,
so the copy and the second message come in either case. The array `mem.memory` has 65536
bytes; a copy that runs past its end is undefined. -/
def loadROM (ROM_START ROM_END : Nat) (e : Emulator) (program : List Nat) :
    Option (List String × Emulator) :=
  let err : List String :=
    if ROM_END - ROM_START + 1 < program.length then ["Cannot install ROM, too big."] else []
  if ROM_START + program.length ≤ 65536 then
    some (err ++ ["Loaded ROM successfully."], e.setMem (e.mem.memcpy ROM_START program))
  else none

/-- The function `Emulator::run`, the loop `while (cpu.program_counter < ROM_END)`, run for at
most `fuel` iterations; `ROM_END` is a parameter as in `loadROM`. The result is the list of
the addresses at which `cycle()` was called, in order, and the state at the exit of the loop
(`none` when the iterations allowed do not reach the exit). -/
def run (ROM_END : Nat) : Nat → Emulator → List Nat × Option Emulator
  | 0, e => ([], if e.cpu.program_counter < ROM_END then none else some e)
  | fuel + 1, e =>
    if e.cpu.program_counter < ROM_END then
      match e.cycle with
      | some (true, e') =>
        ((e.cpu.program_counter :: (run ROM_END fuel e').1), (run ROM_END fuel e').2)
      | some (false, e') => ([e.cpu.program_counter], some e')
      | none => ([e.cpu.program_counter], none)
    else ([], some e)

end Emulator

/-! ## Vocabulary of the statements -/

/-- The status byte after `P |= mask` (when `b`) or `P &= ~mask` (when not `b`): the value
that the statement pair `if (b) cpu.P |= mask; else cpu.P &= ~mask;` stores in `cpu.P`. -/
def flagUpdate (P mask : Nat) (b : Bool) : Nat :=
  if b then (P ||| mask) % 256 else (P &&& bitNot mask) % 256

/-- The carry-in of an instruction: `(cpu.P & P_CARRY) ? 1 : 0`. -/
def carryIn (P : Nat) : Nat := if P &&& MOS_6502.P_CARRY ≠ 0 then 1 else 0

/-- An address space that holds the given bytes at the given addresses and zero elsewhere. -/
def Memory.ofList (l : List (Nat × Nat)) : Memory := ⟨fun a => (l.lookup a).getD 0⟩

/-- The behaviours that read or write through the operand pointer (`*addr`). -/
def Behaviour.dereferences : Behaviour → Bool
  | .ORA | .INC | .DEC | .LDA | .LDX | .LDY | .STA | .STX | .STY | .AND | .EOR
  | .ADC | .SBC | .ASL | .LSR | .ROL | .ROR | .CMP | .CPX | .CPY | .BIT => true
  | _ => false

/-- The behaviours that take the operand pointer's offset in `mem.memory`
(`location - mem.memory`). -/
def Behaviour.takesOffset : Behaviour → Bool
  | .JMP | .JSR | .BCC | .BCS | .BEQ | .BMI | .BNE | .BPL | .BVC | .BVS => true
  | _ => false

/-- A table entry is safe to dispatch: it has a behaviour, a behaviour that reads or writes
through the operand pointer is not paired with Implicit addressing, and one that takes the
pointer's offset is paired with a mode that resolves into the address space. -/
def Instruction.safe (i : Instruction) : Bool :=
  match i.implementation with
  | none => false
  | some b =>
    (!b.dereferences || i.addressing_mode != AddressMode.IMPLICIT) &&
    (!b.takesOffset ||
      (i.addressing_mode != AddressMode.IMPLICIT && i.addressing_mode != AddressMode.ACCUMULATOR))

/-- The number of operand bytes that follow the opcode under an addressing mode. -/
def AddressMode.operandBytes : AddressMode → Nat
  | .IMPLICIT | .ACCUMULATOR => 0
  | .IMMEDIATE | .ZERO_PAGE | .ZERO_PAGE_AND_X | .ZERO_PAGE_AND_Y | .RELATIVE
  | .INDEXED_INDIRECT | .INDIRECT_INDEXED => 1
  | .ABSOLUTE | .ABSOLUTE_AND_X | .ABSOLUTE_AND_Y | .INDIRECT => 2

/-- Whether an instruction redirects control when run with status byte `P`: `JMP`, `JSR`,
`RTS`, `RTI` and `BRK` always do, a conditional branch does when its flag condition holds. -/
def Behaviour.redirects (b : Behaviour) (P : Nat) : Bool :=
  match b with
  | .JMP | .JSR | .RTS | .RTI | .BRK => true
  | .BCC => P &&& MOS_6502.P_CARRY == 0
  | .BCS => P &&& MOS_6502.P_CARRY != 0
  | .BEQ => P &&& MOS_6502.P_ZERO != 0
  | .BMI => P &&& MOS_6502.P_NEGATIVE != 0
  | .BNE => P &&& MOS_6502.P_ZERO == 0
  | .BPL => P &&& MOS_6502.P_NEGATIVE == 0
  | .BVC => P &&& MOS_6502.P_OVERFLOW == 0
  | .BVS => P &&& MOS_6502.P_OVERFLOW != 0
  | _ => false

/-- The claim that `run` keeps to the program region: every address at which it calls
`cycle()` lies in `[ROM_START, ROM_END]`. -/
def runStaysInRegion (ROM_START ROM_END fuel : Nat) (e : Emulator) : Prop :=
  ∀ p ∈ (Emulator.run ROM_END fuel e).1, ROM_START ≤ p ∧ p ≤ ROM_END

/-- The assignment `Emulator::testing = t`, made by a harness before it steps the machine. -/
def Emulator.setTesting (e : Emulator) (t : Bool) : Emulator := { e with testing := t }

/-! ## States of the worked examples -/

/-- A state for the worked example of add-with-carry: `ADC #$50` at `0x0600` with the
accumulator at `0x50` and Carry clear. -/
def adcExample : Emulator :=
  ⟨⟨0x50, 0, 0, 0xFF, 0x0600, 0x20⟩, Memory.ofList [(0x0600, 0x69), (0x0601, 0x50)], true, 0⟩

/-- A state for the worked example of subtract-with-carry: `SBC #$01` at `0x0600` with the
accumulator at `0x00` and Carry set. -/
def sbcExample : Emulator :=
  ⟨⟨0x00, 0, 0, 0xFF, 0x0600, 0x21⟩, Memory.ofList [(0x0600, 0xE9), (0x0601, 0x01)], true, 0⟩

/-- A state for a compare: `CMP #$10` at `0x0600` with the accumulator at `0x10`. -/
def cmpExample : Emulator :=
  ⟨⟨0x10, 0, 0, 0xFF, 0x0600, 0x20⟩, Memory.ofList [(0x0600, 0xC9), (0x0601, 0x10)], true, 0⟩

/-- A state for a bit test: `BIT $10` at `0x0600` with the accumulator at `0x01` and the byte
`0xC0` at address `0x10`. -/
def bitExample : Emulator :=
  ⟨⟨0x01, 0, 0, 0xFF, 0x0600, 0x20⟩,
    Memory.ofList [(0x0600, 0x24), (0x0601, 0x10), (0x0010, 0xC0)], true, 0⟩

/-- A state for a rotate: `ROL A` at `0x0600` with the accumulator at `0x81` and Carry set. -/
def rolExample : Emulator :=
  ⟨⟨0x81, 0, 0, 0xFF, 0x0600, 0x21⟩, Memory.ofList [(0x0600, 0x2A)], true, 0⟩

/-- A state for a branch: `BNE` with offset byte `0xFC` (that is, -4) at `0x0600`, Zero
clear. -/
def bneExample : Emulator :=
  ⟨⟨0, 0, 0, 0xFF, 0x0600, 0x20⟩, Memory.ofList [(0x0600, 0xD0), (0x0601, 0xFC)], true, 0⟩

/-- A state for the page-wrap of the indirect jump: `JMP ($30FF)` at `0x0600`, with `0x80` at
`0x30FF`, `0x40` at `0x3000` and `0x50` at `0x3100`. -/
def jmpExample : Emulator :=
  ⟨⟨0, 0, 0, 0xFF, 0x0600, 0x20⟩,
    Memory.ofList [(0x0600, 0x6C), (0x0601, 0xFF), (0x0602, 0x30), (0x30FF, 0x80),
      (0x3000, 0x40), (0x3100, 0x50)], true, 0⟩

/-- A state for the zero-page wrap of `(zp,X)`: `LDA ($FF,X)` at `0x0600` with X at 1, the
pointer bytes `0x34`, `0x12` at `0x00`, `0x01`, and `0x56` at `0x0100`. -/
def indexedIndirectExample : Emulator :=
  ⟨⟨0, 1, 0, 0xFF, 0x0600, 0x20⟩,
    Memory.ofList [(0x0600, 0xA1), (0x0601, 0xFF), (0x0000, 0x34), (0x0001, 0x12),
      (0x0100, 0x56)], true, 0⟩

/-- A state for the zero-page wrap of `(zp),Y`: `LDA ($FF),Y` at `0x0600` with Y at `0x10`,
the pointer bytes `0xF8` at `0xFF` and `0xFF` at `0x00`, and `0x77` at `0x0100`. -/
def indirectIndexedExample : Emulator :=
  ⟨⟨0, 0, 0x10, 0xFF, 0x0600, 0x20⟩,
    Memory.ofList [(0x0600, 0xB1), (0x0601, 0xFF), (0x00FF, 0xF8), (0x0000, 0xFF),
      (0x0100, 0x77)], true, 0⟩

/-- A state for the zero-page modes: the operand byte `0xF0` at `0x0601`, X at `0x20`, Y at
`0x11`. -/
def zeroPageExample : Emulator :=
  ⟨⟨0, 0x20, 0x11, 0xFF, 0x0600, 0x20⟩, Memory.ofList [(0x0600, 0xB5), (0x0601, 0xF0)], true, 0⟩

/-- A state for the stack discipline: stack pointer `0x00`, accumulator `0xAB`, an address
space of zeros. -/
def stackExample : Emulator := ⟨⟨0xAB, 0, 0, 0x00, 0x0600, 0x20⟩, Memory.ofList [], true, 0⟩

/-- A state for call and return: `JSR $0700` at `0x0600` with `RTS` at `0x0700`, stack
pointer `0xFF`. -/
def jsrExample : Emulator :=
  ⟨⟨0x11, 0x22, 0x33, 0xFF, 0x0600, 0x20⟩,
    Memory.ofList [(0x0600, 0x20), (0x0601, 0x00), (0x0602, 0x07), (0x0700, 0x60)], true, 0⟩

/-- A state for software break and interrupt return: `BRK` at `0x0600` with the vector
`0x0700` at `0xFFFE`, `RTI` at `0x0700`, status byte `0x63`, stack pointer `0xFF`, `testing`
on. -/
def brkExample : Emulator :=
  ⟨⟨0x11, 0x22, 0x33, 0xFF, 0x0600, 0x63⟩,
    Memory.ofList [(0x0600, 0x00), (0xFFFE, 0x00), (0xFFFF, 0x07), (0x0700, 0x40)], true, 0⟩

/-- A state for interrupt return alone: `RTI` at `0x0700` with stack pointer `0xFC` and, above
it on the stack, the status byte `0x73` and the two-byte value `0x0602`. -/
def rtiExample : Emulator :=
  ⟨⟨0x11, 0x22, 0x33, 0xFC, 0x0700, 0x24⟩,
    Memory.ofList [(0x0700, 0x40), (0x01FD, 0x73), (0x01FE, 0x02), (0x01FF, 0x06)], true, 0⟩

/-- A state for the run loop: `NOP` at address `0x0000`, where the program counter stands,
and zeros elsewhere. -/
def nopExample : Emulator :=
  ⟨⟨0, 0, 0, 0xFF, 0x0000, 0x20⟩, Memory.ofList [(0x0000, 0xEA)], true, 0⟩

/-- A state for add-with-carry of a complemented operand: `ADC #$FE` at `0x0600` with the
accumulator at `0x00` and Carry set, the counterpart of the `SBC #$01` of `sbcExample`. -/
def adcComplementExample : Emulator :=
  ⟨⟨0x00, 0, 0, 0xFF, 0x0600, 0x21⟩, Memory.ofList [(0x0600, 0x69), (0x0601, 0xFE)], true, 0⟩

/-- A state for a rotate and its inverse: `ROL A` at `0x0600` and `ROR A` at `0x0601`, with
the accumulator at `0x81` and Carry set. -/
def rolRorExample : Emulator :=
  ⟨⟨0x81, 0, 0, 0xFF, 0x0600, 0x21⟩, Memory.ofList [(0x0600, 0x2A), (0x0601, 0x6A)], true, 0⟩

/-! ## Bit-level facts -/

section BitFacts

open Emulator MOS_6502

theorem testBit_mod_256 (x i : Nat) : (x % 256).testBit i = (decide (i < 8) && x.testBit i) :=
  Nat.testBit_mod_two_pow x 8 i

theorem testBit_bitNot (n i : Nat) : (bitNot n).testBit i = (n.testBit i ^^ decide (i < 32)) := by
  unfold bitNot
  rw [Nat.testBit_xor]
  congr 1
  exact Nat.testBit_two_pow_sub_one 32 i

theorem land_two_pow_ne_zero (x i : Nat) : x &&& 2 ^ i ≠ 0 ↔ x.testBit i = true := by
  rw [Nat.and_two_pow]
  cases x.testBit i <;> simp

theorem land_two_pow_congr {x y : Nat} (i : Nat) (h : x.testBit i = y.testBit i) :
    x &&& 2 ^ i = y &&& 2 ^ i := by
  rw [Nat.and_two_pow, Nat.and_two_pow, h]

theorem IS_BIT_ON_eq (n i : Nat) : IS_BIT_ON n i = n.testBit i := by
  unfold IS_BIT_ON
  rw [Nat.one_shiftLeft, Nat.and_two_pow]
  cases n.testBit i <;> simp
  exact (Nat.two_pow_pos i).ne

/-- Bit 7 of a number is bit 7 of its low byte, read arithmetically. -/
theorem testBit_seven (x : Nat) : x.testBit 7 = decide (128 ≤ x % 256) := by
  rw [Nat.testBit_to_div_mod]
  have h : (x / 2 ^ 7 % 2 = 1) ↔ 128 ≤ x % 256 := by
    norm_num
    omega
  exact decide_eq_decide.mpr h

theorem land_255 (x : Nat) : x &&& 0xFF = x % 256 := Nat.and_pow_two_sub_one_eq_mod x 8

/-- Bits of the status byte after `cpu.P |= 2 ^ k`. -/
theorem testBit_or_flag (P k i : Nat) :
    ((P ||| 2 ^ k) % 256).testBit i = (decide (i < 8) && (P.testBit i || decide (i = k))) := by
  rw [testBit_mod_256, Nat.testBit_lor, Nat.testBit_two_pow]
  simp only [eq_comm]

/-- Bits of the status byte after `cpu.P &= ~(2 ^ k)`. -/
theorem testBit_andNot_flag (P k i : Nat) :
    ((P &&& bitNot (2 ^ k)) % 256).testBit i =
      (decide (i < 8) && (P.testBit i && !decide (i = k))) := by
  rw [testBit_mod_256, Nat.testBit_land, testBit_bitNot, Nat.testBit_two_pow]
  by_cases h8 : i < 8
  · have h32 : i < 32 := by omega
    simp [h8, h32, eq_comm]
  · simp [h8]

/-- Bit `i` of the status byte after flag `k` has been given the value `b`. -/
theorem testBit_flagUpdate (P k i : Nat) (b : Bool) :
    (flagUpdate P (2 ^ k) b).testBit i =
      (decide (i < 8) && if i = k then b else P.testBit i) := by
  unfold flagUpdate
  cases b <;> by_cases hk : i = k <;>
    simp [hk, testBit_or_flag, testBit_andNot_flag]

@[simp] theorem testBit_flagUpdate_CARRY (P i : Nat) (b : Bool) :
    (flagUpdate P P_CARRY b).testBit i = (decide (i < 8) && if i = 0 then b else P.testBit i) :=
  testBit_flagUpdate P 0 i b

@[simp] theorem testBit_flagUpdate_ZERO (P i : Nat) (b : Bool) :
    (flagUpdate P P_ZERO b).testBit i = (decide (i < 8) && if i = 1 then b else P.testBit i) :=
  testBit_flagUpdate P 1 i b

@[simp] theorem testBit_flagUpdate_INT_DISABLE (P i : Nat) (b : Bool) :
    (flagUpdate P P_INT_DISABLE b).testBit i =
      (decide (i < 8) && if i = 2 then b else P.testBit i) :=
  testBit_flagUpdate P 2 i b

@[simp] theorem testBit_flagUpdate_DECIMAL (P i : Nat) (b : Bool) :
    (flagUpdate P P_DECIMAL b).testBit i = (decide (i < 8) && if i = 3 then b else P.testBit i) :=
  testBit_flagUpdate P 3 i b

@[simp] theorem testBit_flagUpdate_BREAK (P i : Nat) (b : Bool) :
    (flagUpdate P P_BREAK b).testBit i = (decide (i < 8) && if i = 4 then b else P.testBit i) :=
  testBit_flagUpdate P 4 i b

@[simp] theorem testBit_flagUpdate_UNUSED (P i : Nat) (b : Bool) :
    (flagUpdate P P_UNUSED b).testBit i = (decide (i < 8) && if i = 5 then b else P.testBit i) :=
  testBit_flagUpdate P 5 i b

@[simp] theorem testBit_flagUpdate_OVERFLOW (P i : Nat) (b : Bool) :
    (flagUpdate P P_OVERFLOW b).testBit i = (decide (i < 8) && if i = 6 then b else P.testBit i) :=
  testBit_flagUpdate P 6 i b

@[simp] theorem testBit_flagUpdate_NEGATIVE (P i : Nat) (b : Bool) :
    (flagUpdate P P_NEGATIVE b).testBit i = (decide (i < 8) && if i = 7 then b else P.testBit i) :=
  testBit_flagUpdate P 7 i b

/-- A test `P & mask` of the source, read as a bit of the status byte. -/
theorem flag_iff_testBit (P : Nat) :
    (P &&& P_CARRY ≠ 0 ↔ P.testBit 0 = true) ∧ (P &&& P_ZERO ≠ 0 ↔ P.testBit 1 = true) ∧
    (P &&& P_INT_DISABLE ≠ 0 ↔ P.testBit 2 = true) ∧ (P &&& P_DECIMAL ≠ 0 ↔ P.testBit 3 = true) ∧
    (P &&& P_BREAK ≠ 0 ↔ P.testBit 4 = true) ∧ (P &&& P_UNUSED ≠ 0 ↔ P.testBit 5 = true) ∧
    (P &&& P_OVERFLOW ≠ 0 ↔ P.testBit 6 = true) ∧ (P &&& P_NEGATIVE ≠ 0 ↔ P.testBit 7 = true) :=
  ⟨land_two_pow_ne_zero P 0, land_two_pow_ne_zero P 1, land_two_pow_ne_zero P 2,
   land_two_pow_ne_zero P 3, land_two_pow_ne_zero P 4, land_two_pow_ne_zero P 5,
   land_two_pow_ne_zero P 6, land_two_pow_ne_zero P 7⟩

end BitFacts

/-! ## How the flag statements act on the state -/

namespace Emulator

open MOS_6502

/-- The pattern `if (c) cpu.P |= f; else cpu.P &= ~f;` only writes `cpu.P`. -/
theorem ite_orP_andNotP (e : Emulator) (c : Prop) [Decidable c] (f : Nat) :
    (if c then e.orP f else e.andNotP f) = e.setP (flagUpdate e.cpu.P f (decide c)) := by
  by_cases hc : c <;> simp [hc, flagUpdate, orP, andNotP]

theorem orP_eq (e : Emulator) (f : Nat) : e.orP f = e.setP (flagUpdate e.cpu.P f true) := rfl

theorem andNotP_eq (e : Emulator) (f : Nat) : e.andNotP f = e.setP (flagUpdate e.cpu.P f false) :=
  rfl

/-- The shared flag rule writes nothing but `cpu.P`, where it gives Zero and Negative their
new values. -/
theorem hAFC_eq (e : Emulator) (v : Nat) : e.handleArithmeticFlagChanges v =
    e.setP (flagUpdate (flagUpdate e.cpu.P P_ZERO (decide (v = 0))) P_NEGATIVE (v.testBit 7)) := by
  have hP : (e.handleArithmeticFlagChanges v).cpu.P =
      flagUpdate (flagUpdate e.cpu.P P_ZERO (decide (v = 0))) P_NEGATIVE (v.testBit 7) := by
    apply Nat.eq_of_testBit_eq
    intro i
    unfold handleArithmeticFlagChanges
    simp only [IS_BIT_ON_eq, orP_eq, andNotP_eq]
    by_cases hz : v = 0 <;> cases hn : v.testBit 7 <;> by_cases h1 : i = 1 <;>
      by_cases h7 : i = 7 <;> simp [hz, hn, h1, h7, setP]
  have hrest : e.handleArithmeticFlagChanges v =
      e.setP (e.handleArithmeticFlagChanges v).cpu.P := by
    unfold handleArithmeticFlagChanges
    simp only [orP_eq, andNotP_eq]
    split_ifs <;> rfl
  rw [hrest, hP]

/-! ## The addressing-mode resolver -/


/-- The resolver changes only the program counter and the count of waits. -/
theorem handleAddressing_frame (e : Emulator) (opcode : Nat) :
    (e.handleAddressing opcode).1.cpu.accumulator = e.cpu.accumulator ∧
    (e.handleAddressing opcode).1.cpu.X = e.cpu.X ∧
    (e.handleAddressing opcode).1.cpu.Y = e.cpu.Y ∧
    (e.handleAddressing opcode).1.cpu.S = e.cpu.S ∧
    (e.handleAddressing opcode).1.cpu.P = e.cpu.P ∧
    (e.handleAddressing opcode).1.mem = e.mem ∧
    (e.handleAddressing opcode).1.testing = e.testing := by
  unfold handleAddressing
  split <;>
    simp only [immediate, zeroPage, zeroPageX, zeroPageY, absolute, absoluteX, absoluteY, indirect,
      indexedIndirect, indirectIndexed, accumulator, relative, incPC, setPC, delay] <;>
    (try split_ifs) <;> simp

/-- Every mode except Implicit and Accumulator resolves to a location in the address space. -/
theorem handleAddressing_memory (e : Emulator) (opcode : Nat)
    (h1 : (instruction_map opcode).addressing_mode ≠ .IMPLICIT)
    (h2 : (instruction_map opcode).addressing_mode ≠ .ACCUMULATOR) :
    ∃ addr, (e.handleAddressing opcode).2 = BytePtr.memory addr := by
  unfold handleAddressing
  split <;>
    simp only [immediate, zeroPage, zeroPageX, zeroPageY, absolute, absoluteX, absoluteY, indirect,
      indexedIndirect, indirectIndexed, accumulator, relative] <;>
    first
      | exact ⟨_, rfl⟩
      | (rename_i h; exact absurd h h1)
      | (rename_i h; exact absurd h h2)

/-! ## One step of the engine -/


/-- A step whose opcode is neither a halt entry nor `BRK` runs the behaviour of the table
entry, then moves the counter on by one; registers other than the counter, the status byte
and the address space are those the behaviour left. -/
theorem cycle_of_exec (e e1 : Emulator) (b : Behaviour)
    (hb : (instruction_map (e.mem.readByte e.cpu.program_counter)).implementation = some b)
    (hn1 : (instruction_map (e.mem.readByte e.cpu.program_counter)).name ≠ "DONE")
    (hn2 : (instruction_map (e.mem.readByte e.cpu.program_counter)).name ≠ "BRK")
    (hx : e.exec (e.mem.readByte e.cpu.program_counter) b = some e1) :
    ∃ e2, e.cycle = some (true, e2) ∧
      e2.cpu = { e1.cpu with program_counter := (e1.cpu.program_counter + 1) % 65536 } ∧
      e2.mem = e1.mem ∧ e2.testing = e1.testing := by
  unfold cycle
  simp only [hn1, hn2, and_false, or_self, if_false, hb, Option.bind_eq_bind, Option.some_bind, hx,
    Option.pure_def, setPC]
  split_ifs <;> exact ⟨_, rfl, rfl, rfl, rfl⟩

/-! ## Add and subtract with carry -/

theorem adc_overflow_bit (a m r : Nat) :
    ((bitNot (a ^^^ m) &&& (a ^^^ r)) &&& 128 ≠ 0) ↔
      (a.testBit 7 = m.testBit 7 ∧ r.testBit 7 ≠ a.testBit 7) := by
  rw [show (128 : Nat) = 2 ^ 7 from rfl, land_two_pow_ne_zero, Nat.testBit_land, testBit_bitNot,
    Nat.testBit_xor, Nat.testBit_xor]
  cases a.testBit 7 <;> cases m.testBit 7 <;> cases r.testBit 7 <;> simp

theorem testBit_seven_mod_word (x : Nat) : (x % 65536).testBit 7 = x.testBit 7 := by
  rw [testBit_seven, testBit_seven x]
  congr 1
  have : x % 65536 % 256 = x % 256 := by omega
  rw [this]

theorem testBit_seven_mod_byte (x : Nat) : (x % 256).testBit 7 = x.testBit 7 := by
  rw [testBit_seven, testBit_seven x, Nat.mod_mod]

/-- What `ADC` does once its operand has been resolved to a location in the address space. -/
theorem ADC_behaviour (e : Emulator) (opcode addr : Nat)
    (hptr : (e.handleAddressing opcode).2 = BytePtr.memory addr)
    (hA : e.cpu.accumulator < 256) (hm : e.mem.memory addr < 256) :
    ∃ e1, e.ADC opcode = some e1 ∧
      e1.cpu.accumulator =
        (e.cpu.accumulator + e.mem.memory addr + (if e.cpu.P &&& P_CARRY ≠ 0 then 1 else 0)) % 256 ∧
      (e1.cpu.P.testBit 0 = decide (256 ≤
        e.cpu.accumulator + e.mem.memory addr + (if e.cpu.P &&& P_CARRY ≠ 0 then 1 else 0))) ∧
      (e1.cpu.P.testBit 6 = decide (e.cpu.accumulator.testBit 7 = (e.mem.memory addr).testBit 7 ∧
        ((e.cpu.accumulator + e.mem.memory addr +
          (if e.cpu.P &&& P_CARRY ≠ 0 then 1 else 0)) % 256).testBit 7 ≠
            e.cpu.accumulator.testBit 7)) ∧
      (e1.cpu.P.testBit 1 = decide ((e.cpu.accumulator + e.mem.memory addr +
          (if e.cpu.P &&& P_CARRY ≠ 0 then 1 else 0)) % 256 = 0)) ∧
      (e1.cpu.P.testBit 7 = ((e.cpu.accumulator + e.mem.memory addr +
          (if e.cpu.P &&& P_CARRY ≠ 0 then 1 else 0)) % 256).testBit 7) ∧
      (∀ i, i = 2 ∨ i = 3 ∨ i = 4 ∨ i = 5 → e1.cpu.P.testBit i = e.cpu.P.testBit i) ∧
      e1.cpu.X = e.cpu.X ∧ e1.cpu.Y = e.cpu.Y ∧ e1.cpu.S = e.cpu.S ∧ e1.mem = e.mem := by
  have hfr := handleAddressing_frame e opcode
  unfold ADC
  revert hfr hptr
  generalize e.handleAddressing opcode = r
  obtain ⟨e1, ptr⟩ := r
  rintro hptr ⟨hA', hX, hY, hS, hP, hM, hT⟩
  simp only at hptr hA' hX hY hS hP hM hT
  subst hptr
  simp only [deref, Option.bind_eq_bind, Option.some_bind, Option.pure_def, hA', hP, hM,
    ite_orP_andNotP, hAFC_eq, adc_overflow_bit, land_255, testBit_seven_mod_word]
  have h8 : ∀ x : Nat, x % 65536 % 256 = x % 256 := fun x => by omega
  refine ⟨_, rfl, ?_, ?_, ?_, ?_, ?_, ?_, ?_, ?_, ?_, ?_⟩
  · simp [setP, setA, h8]
  · simp only [setP, setA, testBit_flagUpdate_NEGATIVE, testBit_flagUpdate_ZERO,
      testBit_flagUpdate_OVERFLOW, testBit_flagUpdate_CARRY, hP]
    simp only [Nat.mod_mod]
    have : e.cpu.accumulator + e.mem.memory addr + (if e.cpu.P &&& P_CARRY ≠ 0 then 1 else 0)
        < 65536 := by split <;> omega
    rw [Nat.mod_eq_of_lt this]
    simp
  · simp [-Nat.testBit_zero, setP, setA, h8, hP, testBit_seven_mod_byte]
  · simp [-Nat.testBit_zero, setP, setA, h8, hP]
  · simp [-Nat.testBit_zero, setP, setA, h8, hP]
  · rintro i (rfl | rfl | rfl | rfl) <;> simp [-Nat.testBit_zero, setP, setA, hP]
  · simpa [setP, setA] using hX
  · simpa [setP, setA] using hY
  · simpa [setP, setA] using hS
  · simpa [setP, setA] using hM

theorem sbc_overflow_bit (a m r : Nat) :
    (((a ^^^ m) &&& (a ^^^ r)) &&& 128 ≠ 0) ↔
      (a.testBit 7 ≠ m.testBit 7 ∧ r.testBit 7 ≠ a.testBit 7) := by
  rw [show (128 : Nat) = 2 ^ 7 from rfl, land_two_pow_ne_zero, Nat.testBit_land,
    Nat.testBit_xor, Nat.testBit_xor]
  cases a.testBit 7 <;> cases m.testBit 7 <;> cases r.testBit 7 <;> simp

theorem wordOfInt_mod_256 (i : Int) : wordOfInt i % 256 = byteOfInt i := by
  unfold wordOfInt byteOfInt
  omega

theorem byteOfInt_lt (i : Int) : byteOfInt i < 256 := by
  unfold byteOfInt
  omega

@[simp] theorem byteOfInt_mod (i : Int) : byteOfInt i % 256 = byteOfInt i :=
  Nat.mod_eq_of_lt (byteOfInt_lt i)

theorem wordOfInt_lt_256_iff (i : Int) (h1 : -256 ≤ i) (h2 : i < 256) :
    wordOfInt i < 256 ↔ 0 ≤ i := by
  unfold wordOfInt
  omega

/-- What `SBC` does once its operand has been resolved to a location in the address space. -/
theorem SBC_behaviour (e : Emulator) (opcode addr : Nat)
    (hptr : (e.handleAddressing opcode).2 = BytePtr.memory addr)
    (hA : e.cpu.accumulator < 256) (hm : e.mem.memory addr < 256) :
    ∃ e1, e.SBC opcode = some e1 ∧
      e1.cpu.accumulator =
        byteOfInt ((e.cpu.accumulator : Int) - (e.mem.memory addr : Nat) -
          (1 - ((carryIn e.cpu.P : Nat) : Int))) ∧
      (e1.cpu.P.testBit 0 = decide (0 ≤ (e.cpu.accumulator : Int) - (e.mem.memory addr : Nat) -
          (1 - ((carryIn e.cpu.P : Nat) : Int)))) ∧
      (e1.cpu.P.testBit 6 = decide (e.cpu.accumulator.testBit 7 ≠ (e.mem.memory addr).testBit 7 ∧
        e1.cpu.accumulator.testBit 7 ≠ e.cpu.accumulator.testBit 7)) ∧
      (e1.cpu.P.testBit 1 = decide (e1.cpu.accumulator = 0)) ∧
      (e1.cpu.P.testBit 7 = e1.cpu.accumulator.testBit 7) ∧
      (∀ i, i = 2 ∨ i = 3 ∨ i = 4 ∨ i = 5 → e1.cpu.P.testBit i = e.cpu.P.testBit i) ∧
      e1.cpu.X = e.cpu.X ∧ e1.cpu.Y = e.cpu.Y ∧ e1.cpu.S = e.cpu.S ∧ e1.mem = e.mem := by
  have hfr := handleAddressing_frame e opcode
  unfold SBC
  revert hfr hptr
  generalize e.handleAddressing opcode = r
  obtain ⟨e1, ptr⟩ := r
  rintro hptr ⟨hA', hX, hY, hS, hP, hM, hT⟩
  simp only at hptr hA' hX hY hS hP hM hT
  subst hptr
  have hc : (if e.cpu.P &&& P_CARRY ≠ 0 then 1 else 0) = carryIn e.cpu.P := rfl
  simp only [deref, Option.bind_eq_bind, Option.some_bind, Option.pure_def, hA', hP, hM,
    ite_orP_andNotP, hAFC_eq, sbc_overflow_bit, land_255, testBit_seven_mod_byte, hc,
    wordOfInt_mod_256, Nat.mod_mod]
  have hcle : carryIn e.cpu.P ≤ 1 := by unfold carryIn; split <;> omega
  refine ⟨_, rfl, ?_, ?_, ?_, ?_, ?_, ?_, ?_, ?_, ?_, ?_⟩
  · simp [setP, setA]
  · simp only [setP, setA, testBit_flagUpdate_NEGATIVE, testBit_flagUpdate_ZERO,
      testBit_flagUpdate_OVERFLOW, testBit_flagUpdate_CARRY, hP]
    simp
    rw [wordOfInt_lt_256_iff _ (by omega) (by omega)]
    omega
  · simp [-Nat.testBit_zero, setP, setA, hP]
  · simp [-Nat.testBit_zero, setP, setA, hP]
  · simp [-Nat.testBit_zero, setP, setA, hP]
  · rintro i (rfl | rfl | rfl | rfl) <;> simp [-Nat.testBit_zero, setP, setA, hP]
  · simpa [setP, setA] using hX
  · simpa [setP, setA] using hY
  · simpa [setP, setA] using hS
  · simpa [setP, setA] using hM

/-! ## Example address spaces -/

/-- Bytes listed below 256 give an address space of bytes. -/
theorem ofList_bytes (l : List (Nat × Nat)) (h : ∀ p ∈ l, p.2 < 256) :
    ∀ a, (Memory.ofList l).memory a < 256 := by
  intro a
  induction l with
  | nil => simp [Memory.ofList, List.lookup]
  | cons p t ih =>
    obtain ⟨k, v⟩ := p
    have hv : v < 256 := h (k, v) (List.mem_cons_self _ _)
    have ht : ∀ p ∈ t, p.2 < 256 := fun p hp => h p (List.mem_cons_of_mem _ hp)
    have ih1 := ih ht
    simp only [Memory.ofList, List.lookup] at ih1 ⊢
    split
    · simpa using hv
    · exact ih1

/-! ## Compare and bit test -/

theorem land_128_ne_zero (x : Nat) : x &&& 0x80 ≠ 0 ↔ x.testBit 7 = true :=
  land_two_pow_ne_zero x 7

theorem land_64_ne_zero (x : Nat) : x &&& 0x40 ≠ 0 ↔ x.testBit 6 = true :=
  land_two_pow_ne_zero x 6

/-- What `CMP` does once its operand has been resolved to a location in the address space. -/
theorem CMP_behaviour (e : Emulator) (opcode addr : Nat)
    (hptr : (e.handleAddressing opcode).2 = BytePtr.memory addr) :
    ∃ e1, e.CMP opcode = some e1 ∧
      e1.cpu.P.testBit 1 = decide (e.cpu.accumulator = e.mem.memory addr) ∧
      e1.cpu.P.testBit 0 = decide (e.mem.memory addr ≤ e.cpu.accumulator) ∧
      e1.cpu.P.testBit 7 =
        (byteOfInt ((e.cpu.accumulator : Int) - (e.mem.memory addr : Nat))).testBit 7 ∧
      (∀ i, i = 2 ∨ i = 3 ∨ i = 4 ∨ i = 5 ∨ i = 6 → e1.cpu.P.testBit i = e.cpu.P.testBit i) ∧
      e1.cpu.accumulator = e.cpu.accumulator ∧ e1.cpu.X = e.cpu.X ∧ e1.cpu.Y = e.cpu.Y ∧
      e1.cpu.S = e.cpu.S ∧ e1.mem = e.mem := by
  have hfr := handleAddressing_frame e opcode
  unfold CMP
  revert hfr hptr
  generalize e.handleAddressing opcode = r
  obtain ⟨e1, ptr⟩ := r
  rintro hptr ⟨hA', hX, hY, hS, hP, hM, hT⟩
  simp only at hptr hA' hX hY hS hP hM hT
  subst hptr
  simp only [deref, Option.bind_eq_bind, Option.some_bind, Option.pure_def, hA', hX, hY, hP, hM,
    ite_orP_andNotP, land_128_ne_zero]
  refine ⟨_, rfl, ?_, ?_, ?_, ?_, ?_, ?_, ?_, ?_, ?_⟩
  · simp [-Nat.testBit_zero, setP, hP]
  · simp [-Nat.testBit_zero, setP, hP]
  · simp [-Nat.testBit_zero, setP, hP]
  · rintro i (rfl | rfl | rfl | rfl | rfl) <;> simp [-Nat.testBit_zero, setP, hP]
  · simpa [setP] using hA'
  · simpa [setP] using hX
  · simpa [setP] using hY
  · simpa [setP] using hS
  · simpa [setP] using hM

/-- What `CPX` does once its operand has been resolved to a location in the address space. -/
theorem CPX_behaviour (e : Emulator) (opcode addr : Nat)
    (hptr : (e.handleAddressing opcode).2 = BytePtr.memory addr) :
    ∃ e1, e.CPX opcode = some e1 ∧
      e1.cpu.P.testBit 1 = decide (e.cpu.X = e.mem.memory addr) ∧
      e1.cpu.P.testBit 0 = decide (e.mem.memory addr ≤ e.cpu.X) ∧
      e1.cpu.P.testBit 7 =
        (byteOfInt ((e.cpu.X : Int) - (e.mem.memory addr : Nat))).testBit 7 ∧
      (∀ i, i = 2 ∨ i = 3 ∨ i = 4 ∨ i = 5 ∨ i = 6 → e1.cpu.P.testBit i = e.cpu.P.testBit i) ∧
      e1.cpu.accumulator = e.cpu.accumulator ∧ e1.cpu.X = e.cpu.X ∧ e1.cpu.Y = e.cpu.Y ∧
      e1.cpu.S = e.cpu.S ∧ e1.mem = e.mem := by
  have hfr := handleAddressing_frame e opcode
  unfold CPX
  revert hfr hptr
  generalize e.handleAddressing opcode = r
  obtain ⟨e1, ptr⟩ := r
  rintro hptr ⟨hA', hX, hY, hS, hP, hM, hT⟩
  simp only at hptr hA' hX hY hS hP hM hT
  subst hptr
  simp only [deref, Option.bind_eq_bind, Option.some_bind, Option.pure_def, hA', hX, hY, hP, hM,
    ite_orP_andNotP, land_128_ne_zero]
  refine ⟨_, rfl, ?_, ?_, ?_, ?_, ?_, ?_, ?_, ?_, ?_⟩
  · simp [-Nat.testBit_zero, setP, hP]
  · simp [-Nat.testBit_zero, setP, hP]
  · simp [-Nat.testBit_zero, setP, hP]
  · rintro i (rfl | rfl | rfl | rfl | rfl) <;> simp [-Nat.testBit_zero, setP, hP]
  · simpa [setP] using hA'
  · simpa [setP] using hX
  · simpa [setP] using hY
  · simpa [setP] using hS
  · simpa [setP] using hM

/-- What `CPY` does once its operand has been resolved to a location in the address space. -/
theorem CPY_behaviour (e : Emulator) (opcode addr : Nat)
    (hptr : (e.handleAddressing opcode).2 = BytePtr.memory addr) :
    ∃ e1, e.CPY opcode = some e1 ∧
      e1.cpu.P.testBit 1 = decide (e.cpu.Y = e.mem.memory addr) ∧
      e1.cpu.P.testBit 0 = decide (e.mem.memory addr ≤ e.cpu.Y) ∧
      e1.cpu.P.testBit 7 =
        (byteOfInt ((e.cpu.Y : Int) - (e.mem.memory addr : Nat))).testBit 7 ∧
      (∀ i, i = 2 ∨ i = 3 ∨ i = 4 ∨ i = 5 ∨ i = 6 → e1.cpu.P.testBit i = e.cpu.P.testBit i) ∧
      e1.cpu.accumulator = e.cpu.accumulator ∧ e1.cpu.X = e.cpu.X ∧ e1.cpu.Y = e.cpu.Y ∧
      e1.cpu.S = e.cpu.S ∧ e1.mem = e.mem := by
  have hfr := handleAddressing_frame e opcode
  unfold CPY
  revert hfr hptr
  generalize e.handleAddressing opcode = r
  obtain ⟨e1, ptr⟩ := r
  rintro hptr ⟨hA', hX, hY, hS, hP, hM, hT⟩
  simp only at hptr hA' hX hY hS hP hM hT
  subst hptr
  simp only [deref, Option.bind_eq_bind, Option.some_bind, Option.pure_def, hA', hX, hY, hP, hM,
    ite_orP_andNotP, land_128_ne_zero]
  refine ⟨_, rfl, ?_, ?_, ?_, ?_, ?_, ?_, ?_, ?_, ?_⟩
  · simp [-Nat.testBit_zero, setP, hP]
  · simp [-Nat.testBit_zero, setP, hP]
  · simp [-Nat.testBit_zero, setP, hP]
  · rintro i (rfl | rfl | rfl | rfl | rfl) <;> simp [-Nat.testBit_zero, setP, hP]
  · simpa [setP] using hA'
  · simpa [setP] using hX
  · simpa [setP] using hY
  · simpa [setP] using hS
  · simpa [setP] using hM

/-- What `BIT` does once its operand has been resolved to a location in the address space. -/
theorem BIT_behaviour (e : Emulator) (opcode addr : Nat)
    (hptr : (e.handleAddressing opcode).2 = BytePtr.memory addr) :
    ∃ e1, e.BIT opcode = some e1 ∧
      e1.cpu.P.testBit 1 = decide ((e.cpu.accumulator &&& e.mem.memory addr) % 256 = 0) ∧
      e1.cpu.P.testBit 7 = (e.mem.memory addr).testBit 7 ∧
      e1.cpu.P.testBit 6 = (e.mem.memory addr).testBit 6 ∧
      (∀ i, i = 0 ∨ i = 2 ∨ i = 3 ∨ i = 4 ∨ i = 5 → e1.cpu.P.testBit i = e.cpu.P.testBit i) ∧
      e1.cpu.accumulator = e.cpu.accumulator ∧ e1.cpu.X = e.cpu.X ∧ e1.cpu.Y = e.cpu.Y ∧
      e1.cpu.S = e.cpu.S ∧ e1.mem = e.mem := by
  have hfr := handleAddressing_frame e opcode
  unfold BIT
  revert hfr hptr
  generalize e.handleAddressing opcode = r
  obtain ⟨e1, ptr⟩ := r
  rintro hptr ⟨hA', hX, hY, hS, hP, hM, hT⟩
  simp only at hptr hA' hX hY hS hP hM hT
  subst hptr
  simp only [deref, Option.bind_eq_bind, Option.some_bind, Option.pure_def, hA', hX, hY, hP, hM,
    ite_orP_andNotP, land_128_ne_zero, land_64_ne_zero]
  refine ⟨_, rfl, ?_, ?_, ?_, ?_, ?_, ?_, ?_, ?_, ?_⟩
  · simp [-Nat.testBit_zero, setP, hP]
  · simp [-Nat.testBit_zero, setP, hP]
  · simp [-Nat.testBit_zero, setP, hP]
  · rintro i (rfl | rfl | rfl | rfl | rfl) <;> simp [-Nat.testBit_zero, setP, hP]
  · simpa [setP] using hA'
  · simpa [setP] using hX
  · simpa [setP] using hY
  · simpa [setP] using hS
  · simpa [setP] using hM

/-- Two status bytes that agree in a bit agree under the mask of that bit. -/
theorem flag_masks_eq (P Q : Nat) :
    (P.testBit 0 = Q.testBit 0 → P &&& P_CARRY = Q &&& P_CARRY) ∧
    (P.testBit 1 = Q.testBit 1 → P &&& P_ZERO = Q &&& P_ZERO) ∧
    (P.testBit 2 = Q.testBit 2 → P &&& P_INT_DISABLE = Q &&& P_INT_DISABLE) ∧
    (P.testBit 3 = Q.testBit 3 → P &&& P_DECIMAL = Q &&& P_DECIMAL) ∧
    (P.testBit 4 = Q.testBit 4 → P &&& P_BREAK = Q &&& P_BREAK) ∧
    (P.testBit 5 = Q.testBit 5 → P &&& P_UNUSED = Q &&& P_UNUSED) ∧
    (P.testBit 6 = Q.testBit 6 → P &&& P_OVERFLOW = Q &&& P_OVERFLOW) ∧
    (P.testBit 7 = Q.testBit 7 → P &&& P_NEGATIVE = Q &&& P_NEGATIVE) :=
  ⟨land_two_pow_congr 0, land_two_pow_congr 1, land_two_pow_congr 2, land_two_pow_congr 3,
   land_two_pow_congr 4, land_two_pow_congr 5, land_two_pow_congr 6, land_two_pow_congr 7⟩

/-! ## Shifts and rotates -/

set_option maxRecDepth 20000 in
/-- The arithmetic of the four shifts and rotates on a byte. -/
theorem shift_bytes : ∀ v < 256,
    ((v <<< 1) &&& 0xFF) % 256 = 2 * v % 256 ∧
    ((v >>> 1) &&& 0xFF) % 256 = v / 2 ∧
    ((v <<< 1) ||| 0) % 256 = 2 * v % 256 ∧
    ((v <<< 1) ||| 1) % 256 = 2 * v % 256 + 1 ∧
    ((v >>> 1) ||| 0) % 256 = v / 2 ∧
    ((v >>> 1) ||| 0x80) % 256 = v / 2 + 128 ∧
    (((0x80 &&& v) % 256 ≠ 0) ↔ v.testBit 7 = true) ∧
    (((v &&& 0x80) % 256 ≠ 0) ↔ v.testBit 7 = true) ∧
    (((v &&& 1) % 256 ≠ 0) ↔ v.testBit 0 = true) := by
  decide



/-- The resolver leaves the operand as it was: it writes neither the accumulator nor the
address space. -/
theorem deref_handleAddressing (e : Emulator) (opcode : Nat) (p : BytePtr) :
    (e.handleAddressing opcode).1.deref p = e.deref p := by
  obtain ⟨hA, -, -, -, -, hM, -⟩ := handleAddressing_frame e opcode
  cases p <;> simp [deref, hA, hM]

/-- What `ASL` does to its operand, in memory or in the accumulator. -/
theorem ASL_behaviour (e : Emulator) (opcode v : Nat) (hv : v < 256)
    (hd : e.deref (e.handleAddressing opcode).2 = some v) :
    ∃ e1, e.ASL opcode = some e1 ∧
      e1.deref (e.handleAddressing opcode).2 = some (2 * v % 256) ∧
      e1.cpu.P.testBit 0 = v.testBit 7 ∧
      e1.cpu.P.testBit 1 = decide (2 * v % 256 = 0) ∧
      e1.cpu.P.testBit 7 = (2 * v % 256).testBit 7 ∧
      (∀ i, i = 2 ∨ i = 3 ∨ i = 4 ∨ i = 5 ∨ i = 6 → e1.cpu.P.testBit i = e.cpu.P.testBit i) ∧
      e1.cpu.X = e.cpu.X ∧ e1.cpu.Y = e.cpu.Y ∧ e1.cpu.S = e.cpu.S ∧
      (∀ a, (e.handleAddressing opcode).2 ≠ BytePtr.memory a →
        e1.mem.memory a = e.mem.memory a) ∧
      ((e.handleAddressing opcode).2 ≠ BytePtr.accumulator →
        e1.cpu.accumulator = e.cpu.accumulator) := by
  have hfr := handleAddressing_frame e opcode
  have hd1 := deref_handleAddressing e opcode (e.handleAddressing opcode).2
  rw [hd] at hd1
  obtain ⟨s1, s2, s3, s4, s5, s6, s7, s8, s9⟩ := shift_bytes v hv
  have hres : ((v <<< 1) &&& 0xFF) % 256 = 2 * v % 256 := by
    exact s1
  have hcar : (0x80 &&& v) % 256 ≠ 0 ↔ v.testBit 7 = true := s7
  unfold ASL
  revert hfr hd1
  generalize e.handleAddressing opcode = r
  obtain ⟨e1, ptr⟩ := r
  rintro ⟨hA', hX, hY, hS, hP, hM, hT⟩ hd1
  simp only at hd1 hA' hX hY hS hP hM hT
  cases ptr with
  | null => simp [deref] at hd1
  | memory addr =>
    simp only [deref, Option.some.injEq] at hd1
    simp only [deref, assign, Option.bind_eq_bind, Option.some_bind, Option.pure_def, hP,
      ite_orP_andNotP, hAFC_eq, hd1, hres, hcar, setMem, Memory.writeByte, if_true]
    refine ⟨_, rfl, ?_, ?_, ?_, ?_, ?_, ?_, ?_, ?_, ?_, ?_⟩
    · simp [setP]
    · simp [-Nat.testBit_zero, setP, hP]
    · simp [-Nat.testBit_zero, setP, hP]
    · simp [-Nat.testBit_zero, setP, hP]
    · rintro i (rfl | rfl | rfl | rfl | rfl) <;> simp [-Nat.testBit_zero, setP, hP]
    · simpa [setP] using hX
    · simpa [setP] using hY
    · simpa [setP] using hS
    · intro a ha
      have : a ≠ addr := fun h => ha (by rw [h])
      simp [setP, this, hM]
    · intro _
      simpa [setP] using hA'
  | accumulator =>
    simp only [deref, Option.some.injEq] at hd1
    simp only [deref, assign, Option.bind_eq_bind, Option.some_bind, Option.pure_def, hP,
      ite_orP_andNotP, hAFC_eq, hd1, hres, hcar, setA]
    refine ⟨_, rfl, ?_, ?_, ?_, ?_, ?_, ?_, ?_, ?_, ?_, ?_⟩
    · simp [setP]
    · simp [-Nat.testBit_zero, setP, hP]
    · simp [-Nat.testBit_zero, setP, hP]
    · simp [-Nat.testBit_zero, setP, hP]
    · rintro i (rfl | rfl | rfl | rfl | rfl) <;> simp [-Nat.testBit_zero, setP, hP]
    · simpa [setP] using hX
    · simpa [setP] using hY
    · simpa [setP] using hS
    · intro a _
      simp [setP, hM]
    · intro h
      exact absurd rfl h

/-- What `LSR` does to its operand, in memory or in the accumulator. -/
theorem LSR_behaviour (e : Emulator) (opcode v : Nat) (hv : v < 256)
    (hd : e.deref (e.handleAddressing opcode).2 = some v) :
    ∃ e1, e.LSR opcode = some e1 ∧
      e1.deref (e.handleAddressing opcode).2 = some (v / 2) ∧
      e1.cpu.P.testBit 0 = v.testBit 0 ∧
      e1.cpu.P.testBit 1 = decide (v / 2 = 0) ∧
      e1.cpu.P.testBit 7 = (v / 2).testBit 7 ∧
      (∀ i, i = 2 ∨ i = 3 ∨ i = 4 ∨ i = 5 ∨ i = 6 → e1.cpu.P.testBit i = e.cpu.P.testBit i) ∧
      e1.cpu.X = e.cpu.X ∧ e1.cpu.Y = e.cpu.Y ∧ e1.cpu.S = e.cpu.S ∧
      (∀ a, (e.handleAddressing opcode).2 ≠ BytePtr.memory a →
        e1.mem.memory a = e.mem.memory a) ∧
      ((e.handleAddressing opcode).2 ≠ BytePtr.accumulator →
        e1.cpu.accumulator = e.cpu.accumulator) := by
  have hfr := handleAddressing_frame e opcode
  have hd1 := deref_handleAddressing e opcode (e.handleAddressing opcode).2
  rw [hd] at hd1
  obtain ⟨s1, s2, s3, s4, s5, s6, s7, s8, s9⟩ := shift_bytes v hv
  have hres : ((v >>> 1) &&& 0xFF) % 256 = v / 2 := by
    exact s2
  have hcar : (v &&& 1) % 256 ≠ 0 ↔ v.testBit 0 = true := s9
  unfold LSR
  revert hfr hd1
  generalize e.handleAddressing opcode = r
  obtain ⟨e1, ptr⟩ := r
  rintro ⟨hA', hX, hY, hS, hP, hM, hT⟩ hd1
  simp only at hd1 hA' hX hY hS hP hM hT
  cases ptr with
  | null => simp [deref] at hd1
  | memory addr =>
    simp only [deref, Option.some.injEq] at hd1
    simp only [deref, assign, Option.bind_eq_bind, Option.some_bind, Option.pure_def, hP,
      ite_orP_andNotP, hAFC_eq, hd1, hres, hcar, setMem, Memory.writeByte, if_true]
    refine ⟨_, rfl, ?_, ?_, ?_, ?_, ?_, ?_, ?_, ?_, ?_, ?_⟩
    · simp [setP]
    · simp [-Nat.testBit_zero, setP, hP]
    · simp [-Nat.testBit_zero, setP, hP]
    · simp [-Nat.testBit_zero, setP, hP]
    · rintro i (rfl | rfl | rfl | rfl | rfl) <;> simp [-Nat.testBit_zero, setP, hP]
    · simpa [setP] using hX
    · simpa [setP] using hY
    · simpa [setP] using hS
    · intro a ha
      have : a ≠ addr := fun h => ha (by rw [h])
      simp [setP, this, hM]
    · intro _
      simpa [setP] using hA'
  | accumulator =>
    simp only [deref, Option.some.injEq] at hd1
    simp only [deref, assign, Option.bind_eq_bind, Option.some_bind, Option.pure_def, hP,
      ite_orP_andNotP, hAFC_eq, hd1, hres, hcar, setA]
    refine ⟨_, rfl, ?_, ?_, ?_, ?_, ?_, ?_, ?_, ?_, ?_, ?_⟩
    · simp [setP]
    · simp [-Nat.testBit_zero, setP, hP]
    · simp [-Nat.testBit_zero, setP, hP]
    · simp [-Nat.testBit_zero, setP, hP]
    · rintro i (rfl | rfl | rfl | rfl | rfl) <;> simp [-Nat.testBit_zero, setP, hP]
    · simpa [setP] using hX
    · simpa [setP] using hY
    · simpa [setP] using hS
    · intro a _
      simp [setP, hM]
    · intro h
      exact absurd rfl h

/-- What `ROL` does to its operand, in memory or in the accumulator. -/
theorem ROL_behaviour (e : Emulator) (opcode v : Nat) (hv : v < 256)
    (hd : e.deref (e.handleAddressing opcode).2 = some v) :
    ∃ e1, e.ROL opcode = some e1 ∧
      e1.deref (e.handleAddressing opcode).2 = some (2 * v % 256 + carryIn e.cpu.P) ∧
      e1.cpu.P.testBit 0 = v.testBit 7 ∧
      e1.cpu.P.testBit 1 = decide (2 * v % 256 + carryIn e.cpu.P = 0) ∧
      e1.cpu.P.testBit 7 = (2 * v % 256 + carryIn e.cpu.P).testBit 7 ∧
      (∀ i, i = 2 ∨ i = 3 ∨ i = 4 ∨ i = 5 ∨ i = 6 → e1.cpu.P.testBit i = e.cpu.P.testBit i) ∧
      e1.cpu.X = e.cpu.X ∧ e1.cpu.Y = e.cpu.Y ∧ e1.cpu.S = e.cpu.S ∧
      (∀ a, (e.handleAddressing opcode).2 ≠ BytePtr.memory a →
        e1.mem.memory a = e.mem.memory a) ∧
      ((e.handleAddressing opcode).2 ≠ BytePtr.accumulator →
        e1.cpu.accumulator = e.cpu.accumulator) := by
  have hfr := handleAddressing_frame e opcode
  have hd1 := deref_handleAddressing e opcode (e.handleAddressing opcode).2
  rw [hd] at hd1
  obtain ⟨s1, s2, s3, s4, s5, s6, s7, s8, s9⟩ := shift_bytes v hv
  have hres : ((v <<< 1) ||| (if e.cpu.P &&& P_CARRY ≠ 0 then 1 else 0)) % 256 = 2 * v % 256 + carryIn e.cpu.P := by
    unfold carryIn
    split
    · exact s4
    · exact s3
  have hcar : (v &&& 0x80) % 256 ≠ 0 ↔ v.testBit 7 = true := s8
  unfold ROL
  revert hfr hd1
  generalize e.handleAddressing opcode = r
  obtain ⟨e1, ptr⟩ := r
  rintro ⟨hA', hX, hY, hS, hP, hM, hT⟩ hd1
  simp only at hd1 hA' hX hY hS hP hM hT
  cases ptr with
  | null => simp [deref] at hd1
  | memory addr =>
    simp only [deref, Option.some.injEq] at hd1
    simp only [deref, assign, Option.bind_eq_bind, Option.some_bind, Option.pure_def, hP,
      ite_orP_andNotP, hAFC_eq, hd1, hres, hcar, setMem, Memory.writeByte, if_true]
    refine ⟨_, rfl, ?_, ?_, ?_, ?_, ?_, ?_, ?_, ?_, ?_, ?_⟩
    · simp [setP]
    · simp [-Nat.testBit_zero, setP, hP]
    · simp [-Nat.testBit_zero, setP, hP]
    · simp [-Nat.testBit_zero, setP, hP]
    · rintro i (rfl | rfl | rfl | rfl | rfl) <;> simp [-Nat.testBit_zero, setP, hP]
    · simpa [setP] using hX
    · simpa [setP] using hY
    · simpa [setP] using hS
    · intro a ha
      have : a ≠ addr := fun h => ha (by rw [h])
      simp [setP, this, hM]
    · intro _
      simpa [setP] using hA'
  | accumulator =>
    simp only [deref, Option.some.injEq] at hd1
    simp only [deref, assign, Option.bind_eq_bind, Option.some_bind, Option.pure_def, hP,
      ite_orP_andNotP, hAFC_eq, hd1, hres, hcar, setA]
    refine ⟨_, rfl, ?_, ?_, ?_, ?_, ?_, ?_, ?_, ?_, ?_, ?_⟩
    · simp [setP]
    · simp [-Nat.testBit_zero, setP, hP]
    · simp [-Nat.testBit_zero, setP, hP]
    · simp [-Nat.testBit_zero, setP, hP]
    · rintro i (rfl | rfl | rfl | rfl | rfl) <;> simp [-Nat.testBit_zero, setP, hP]
    · simpa [setP] using hX
    · simpa [setP] using hY
    · simpa [setP] using hS
    · intro a _
      simp [setP, hM]
    · intro h
      exact absurd rfl h

/-- What `ROR` does to its operand, in memory or in the accumulator. -/
theorem ROR_behaviour (e : Emulator) (opcode v : Nat) (hv : v < 256)
    (hd : e.deref (e.handleAddressing opcode).2 = some v) :
    ∃ e1, e.ROR opcode = some e1 ∧
      e1.deref (e.handleAddressing opcode).2 = some (v / 2 + 128 * carryIn e.cpu.P) ∧
      e1.cpu.P.testBit 0 = v.testBit 0 ∧
      e1.cpu.P.testBit 1 = decide (v / 2 + 128 * carryIn e.cpu.P = 0) ∧
      e1.cpu.P.testBit 7 = (v / 2 + 128 * carryIn e.cpu.P).testBit 7 ∧
      (∀ i, i = 2 ∨ i = 3 ∨ i = 4 ∨ i = 5 ∨ i = 6 → e1.cpu.P.testBit i = e.cpu.P.testBit i) ∧
      e1.cpu.X = e.cpu.X ∧ e1.cpu.Y = e.cpu.Y ∧ e1.cpu.S = e.cpu.S ∧
      (∀ a, (e.handleAddressing opcode).2 ≠ BytePtr.memory a →
        e1.mem.memory a = e.mem.memory a) ∧
      ((e.handleAddressing opcode).2 ≠ BytePtr.accumulator →
        e1.cpu.accumulator = e.cpu.accumulator) := by
  have hfr := handleAddressing_frame e opcode
  have hd1 := deref_handleAddressing e opcode (e.handleAddressing opcode).2
  rw [hd] at hd1
  obtain ⟨s1, s2, s3, s4, s5, s6, s7, s8, s9⟩ := shift_bytes v hv
  have hres : ((v >>> 1) ||| (if e.cpu.P &&& P_CARRY ≠ 0 then 0x80 else 0)) % 256 = v / 2 + 128 * carryIn e.cpu.P := by
    unfold carryIn
    split
    · exact s6
    · exact s5
  have hcar : (v &&& 0x01) % 256 ≠ 0 ↔ v.testBit 0 = true := s9
  unfold ROR
  revert hfr hd1
  generalize e.handleAddressing opcode = r
  obtain ⟨e1, ptr⟩ := r
  rintro ⟨hA', hX, hY, hS, hP, hM, hT⟩ hd1
  simp only at hd1 hA' hX hY hS hP hM hT
  cases ptr with
  | null => simp [deref] at hd1
  | memory addr =>
    simp only [deref, Option.some.injEq] at hd1
    simp only [deref, assign, Option.bind_eq_bind, Option.some_bind, Option.pure_def, hP,
      ite_orP_andNotP, hAFC_eq, hd1, hres, hcar, setMem, Memory.writeByte, if_true]
    refine ⟨_, rfl, ?_, ?_, ?_, ?_, ?_, ?_, ?_, ?_, ?_, ?_⟩
    · simp [setP]
    · simp [-Nat.testBit_zero, setP, hP]
    · simp [-Nat.testBit_zero, setP, hP]
    · simp [-Nat.testBit_zero, setP, hP]
    · rintro i (rfl | rfl | rfl | rfl | rfl) <;> simp [-Nat.testBit_zero, setP, hP]
    · simpa [setP] using hX
    · simpa [setP] using hY
    · simpa [setP] using hS
    · intro a ha
      have : a ≠ addr := fun h => ha (by rw [h])
      simp [setP, this, hM]
    · intro _
      simpa [setP] using hA'
  | accumulator =>
    simp only [deref, Option.some.injEq] at hd1
    simp only [deref, assign, Option.bind_eq_bind, Option.some_bind, Option.pure_def, hP,
      ite_orP_andNotP, hAFC_eq, hd1, hres, hcar, setA]
    refine ⟨_, rfl, ?_, ?_, ?_, ?_, ?_, ?_, ?_, ?_, ?_, ?_⟩
    · simp [setP]
    · simp [-Nat.testBit_zero, setP, hP]
    · simp [-Nat.testBit_zero, setP, hP]
    · simp [-Nat.testBit_zero, setP, hP]
    · rintro i (rfl | rfl | rfl | rfl | rfl) <;> simp [-Nat.testBit_zero, setP, hP]
    · simpa [setP] using hX
    · simpa [setP] using hY
    · simpa [setP] using hS
    · intro a _
      simp [setP, hM]
    · intro h
      exact absurd rfl h

/-- The Accumulator mode resolves to the accumulator register. -/
theorem handleAddressing_accumulator (e : Emulator) (opcode : Nat)
    (h : (instruction_map opcode).addressing_mode = .ACCUMULATOR) :
    (e.handleAddressing opcode).2 = BytePtr.accumulator := by
  unfold handleAddressing
  rw [h]
  rfl

/-- A step leaves the operand that the behaviour left: the end of the step writes only
the program counter and the count of waits. -/
theorem deref_of_cycle (e1 e2 : Emulator) (p : BytePtr)
    (hcpu : e2.cpu = { e1.cpu with program_counter := (e1.cpu.program_counter + 1) % 65536 })
    (hmem : e2.mem = e1.mem) : e2.deref p = e1.deref p := by
  cases p <;> simp [deref, hcpu, hmem]

/-! ## The instruction table and dispatch -/

/-- A behaviour returns whenever the operand pointer it uses is one it may use. -/
theorem exec_some (e : Emulator) (opcode : Nat) (b : Behaviour)
    (h1 : b.dereferences = true → (e.handleAddressing opcode).2 ≠ BytePtr.null)
    (h2 : b.takesOffset = true → ∃ a, (e.handleAddressing opcode).2 = BytePtr.memory a) :
    ∃ e1, e.exec opcode b = some e1 := by
  cases b <;> simp only [exec] <;>
    first
      | exact ⟨_, rfl⟩
      | (have h := h1 rfl
         simp only [ORA, INC, DEC, LDA, LDX, LDY, STA, STX, STY, AND, EOR, ADC, SBC, ASL, LSR,
           ROL, ROR, CMP, CPX, CPY, BIT]
         revert h
         generalize e.handleAddressing opcode = r
         obtain ⟨e1, ptr⟩ := r
         intro h
         cases ptr <;> simp [deref, assign] at h ⊢)
      | (obtain ⟨a, ha⟩ := h2 rfl
         simp only [JMP, JSR, BCC, BCS, BEQ, BMI, BNE, BPL, BVC, BVS, branchIf]
         revert ha
         generalize e.handleAddressing opcode = r
         obtain ⟨e1, ptr⟩ := r
         intro ha
         simp only at ha
         subst ha
         simp only [offsetOf, Option.bind_eq_bind, Option.some_bind, Option.pure_def]
         first
           | exact ⟨_, rfl⟩
           | (split <;> exact ⟨_, rfl⟩))

set_option maxRecDepth 20000 in
/-- Every entry of the table that is not a halt entry is safe to dispatch; only index 0 is
named `BRK`. -/
theorem table_safe : ∀ op < 256,
    ((instruction_map op).name ≠ "DONE" → (instruction_map op).safe = true) ∧
    ((instruction_map op).name = "BRK" ↔ op = 0) := by
  decide



set_option maxRecDepth 20000 in
theorem assignments_lt : ∀ p ∈ assignments, p.1 < 256 := by
  decide

/-- Assignments at other indices leave a slot as it was. -/
theorem foldl_assign_other (l : List (Nat × Instruction)) (t : Nat → Instruction) (op : Nat)
    (h : ∀ p ∈ l, p.1 ≠ op) :
    l.foldl (fun table p => fun i => if i = p.1 then p.2 else table i) t op = t op := by
  induction l generalizing t with
  | nil => rfl
  | cons p l ih =>
    rw [List.foldl_cons, ih _ (fun q hq => h q (List.mem_cons_of_mem _ hq))]
    have : op ≠ p.1 := fun h' => h p (List.mem_cons_self _ _) h'.symm
    simp [this]

/-- Indices outside the table range read as the entry of the fill loop. -/
theorem instruction_map_ge (op : Nat) (h : 256 ≤ op) : instruction_map op = doneEntry := by
  unfold instruction_map initInstructionMap
  rw [foldl_assign_other]
  intro p hp
  have := assignments_lt p hp
  omega

/-- Every mode except Implicit resolves to an operand. -/
theorem handleAddressing_nonnull (e : Emulator) (opcode : Nat)
    (h1 : (instruction_map opcode).addressing_mode ≠ .IMPLICIT) :
    (e.handleAddressing opcode).2 ≠ BytePtr.null := by
  by_cases h2 : (instruction_map opcode).addressing_mode = .ACCUMULATOR
  · rw [handleAddressing_accumulator e opcode h2]
    exact fun h => BytePtr.noConfusion h
  · obtain ⟨addr, haddr⟩ := handleAddressing_memory e opcode h1 h2
    rw [haddr]
    exact fun h => BytePtr.noConfusion h

/-- A step that does not halt runs the behaviour of the table entry and returns `true`. -/
theorem cycle_of_not_halt (e e1 : Emulator) (b : Behaviour)
    (hb : (instruction_map (e.mem.readByte e.cpu.program_counter)).implementation = some b)
    (hh : ¬ ((instruction_map (e.mem.readByte e.cpu.program_counter)).name = "DONE" ∨
      (e.testing = false ∧
        (instruction_map (e.mem.readByte e.cpu.program_counter)).name = "BRK")))
    (hx : e.exec (e.mem.readByte e.cpu.program_counter) b = some e1) :
    ∃ e2, e.cycle = some (true, e2) ∧
      e2.cpu = { e1.cpu with program_counter := (e1.cpu.program_counter + 1) % 65536 } ∧
      e2.mem = e1.mem ∧ e2.testing = e1.testing := by
  unfold cycle
  simp only [hh, if_false, hb, Option.bind_eq_bind, Option.some_bind, hx, Option.pure_def, setPC]
  split_ifs <;> exact ⟨_, rfl, rfl, rfl, rfl⟩

/-! ## Pointers read from the address space -/

/-- Two bytes joined into a word, high byte shifted and or-ed in. -/
theorem word_of_bytes (lo hi : Nat) (hlo : lo < 256) (hhi : hi < 256) :
    ((hi <<< 8) ||| lo) % 65536 = lo + 256 * hi ∧
    (lo ||| (hi <<< 8)) % 65536 = lo + 256 * hi := by
  have h := Nat.mul_add_lt_is_or (show lo < 2 ^ 8 from hlo) hi
  have h1 : (hi <<< 8) ||| lo = lo + 256 * hi := by
    rw [Nat.shiftLeft_eq, Nat.mul_comm hi (2 ^ 8), ← h]
    omega
  constructor
  · rw [h1]; omega
  · rw [Nat.lor_comm, h1]; omega

/-- The mask `0xFF00` keeps the second byte of a number. -/
theorem land_ff00 (x : Nat) : x &&& 0xFF00 = (x / 256 % 256) * 256 := by
  apply Nat.eq_of_testBit_eq
  intro i
  have h1 : (0xFF00 : Nat) = (2 ^ 8 - 1) <<< 8 := by decide
  have h2 : (x / 256 % 256) * 256 = ((x >>> 8) % 2 ^ 8) <<< 8 := by
    rw [Nat.shiftLeft_eq, Nat.shiftRight_eq_div_pow]
    norm_num
  rw [h2, Nat.testBit_land, h1, Nat.testBit_shiftLeft, Nat.testBit_shiftLeft,
    Nat.testBit_two_pow_sub_one, Nat.testBit_mod_two_pow, Nat.testBit_shiftRight]
  by_cases h8 : i ≥ 8
  · have : 8 + (i - 8) = i := by omega
    simp [h8, this, Bool.and_comm]
  · simp [h8]

/-- The Indirect resolver, with its pointer address `L` and the page-wrap of the high
pointer byte. -/
theorem indirect_eq (e : Emulator) (L : Nat) (hM : ∀ a, e.mem.memory a < 256)
    (hL : L = e.mem.memory ((e.cpu.program_counter + 1) % 65536) +
      256 * e.mem.memory ((e.cpu.program_counter + 2) % 65536)) :
    e.indirect = (e.setPC ((e.cpu.program_counter + 2) % 65536),
      BytePtr.memory (e.mem.memory L +
        256 * e.mem.memory (if L % 256 = 0xFF then L &&& 0xFF00 else L + 1))) := by
  have hpc : ((e.cpu.program_counter + 1) % 65536 + 1) % 65536 =
      (e.cpu.program_counter + 2) % 65536 := by omega
  have h1 := hM ((e.cpu.program_counter + 1) % 65536)
  have h2 := hM ((e.cpu.program_counter + 2) % 65536)
  have hloc := (word_of_bytes _ _ h1 h2).1
  have hcond : ((L + 1) &&& 0xFF00) ≠ (L &&& 0xFF00) ↔ L % 256 = 0xFF := by
    rw [land_ff00, land_ff00]
    omega
  simp only [indirect, incPC, setPC, Memory.readByte, hpc, hloc, ← hL, hcond]
  by_cases hw : L % 256 = 0xFF
  · simp only [hw, if_true]
    rw [(word_of_bytes _ _ (hM L) (hM _)).1]
  · simp only [hw, if_false]
    rw [(word_of_bytes _ _ (hM L) (hM _)).1]

end Emulator

/-! ## The stack -/

namespace Memory

/-- A byte pushed is the byte pulled next, and the stack pointer is back where it was. -/
theorem stackPullByte_stackPushByte (m : Memory) (s v : Nat) (hs : s < 256) :
    (m.stackPushByte s v).1.stackPullByte (m.stackPushByte s v).2 = (v % 256, s) := by
  have h1 : ((s + 255) % 256 + 1) % 256 = s := by omega
  have h2 : s % 256 = s := by omega
  simp [stackPushByte, stackPullByte, readByte, writeByte, h1, h2]

/-- A two-byte value pushed is the value pulled next, and the stack pointer is back where it
was. -/
theorem stackPullWord_stackPushWord (m : Memory) (s w : Nat) (hs : s < 256) (hw : w < 65536) :
    (m.stackPushWord s w).1.stackPullWord (m.stackPushWord s w).2 = (w, s) := by
  have h1 : ((s + 255) % 256 + 255) % 256 = (s + 254) % 256 := by omega
  have h2 : ((s + 254) % 256 + 1) % 256 = (s + 255) % 256 := by omega
  have h3 : ((s + 255) % 256 + 1) % 256 = s := by omega
  have h4 : s % 256 = s := by omega
  have h5 : (s + 255) % 256 % 256 = (s + 255) % 256 := by omega
  have h6 : STACK_START + s ≠ STACK_START + (s + 255) % 256 := by omega
  have h7 : w % 65536 / 256 % 256 * 256 + w % 65536 % 256 % 256 = w := by omega
  simp only [stackPushWord, stackPushByte, stackPullWord, stackPullByte, readByte, writeByte,
    h1, h2, h3, h4, h5, h6, if_true, if_false, h7]

/-- A push writes one byte of the stack page and nothing else. -/
theorem stackPushByte_memory (m : Memory) (s v a : Nat) :
    (m.stackPushByte s v).1.memory a =
      if a = STACK_START + s % 256 then v % 256 else m.memory a := rfl

/-- Outside the stack page a two-byte push changes nothing. -/
theorem stackPushWord_outside (m : Memory) (s w a : Nat)
    (ha : a < STACK_START ∨ STACK_START + 255 < a) :
    (m.stackPushWord s w).1.memory a = m.memory a := by
  have h1 : a ≠ STACK_START + s % 256 := by omega
  have h2 : a ≠ STACK_START + (s + 255) % 256 % 256 := by omega
  simp only [stackPushWord, stackPushByte, writeByte, h1, h2, if_false]

end Memory

/-! ## Call, return and software break -/

namespace Emulator
open MOS_6502

/-- A byte or-ed under a shifted byte is added to it. -/
theorem lor_shift_byte (lo hi : Nat) (hlo : lo < 256) :
    (hi <<< 8) ||| lo = lo + 256 * hi := by
  have h := Nat.mul_add_lt_is_or (show lo < 2 ^ 8 from hlo) hi
  rw [Nat.shiftLeft_eq, Nat.mul_comm hi (2 ^ 8), ← h]
  omega

/-- The Absolute resolver: two operand bytes, low byte first. -/
theorem absolute_eq (e : Emulator) (hM : ∀ a, e.mem.memory a < 256) :
    e.absolute = (e.setPC ((e.cpu.program_counter + 2) % 65536),
      BytePtr.memory (e.mem.memory ((e.cpu.program_counter + 1) % 65536) +
        256 * e.mem.memory ((e.cpu.program_counter + 2) % 65536))) := by
  have hpc : ((e.cpu.program_counter + 1) % 65536 + 1) % 65536 =
      (e.cpu.program_counter + 2) % 65536 := by omega
  have h1 := hM ((e.cpu.program_counter + 1) % 65536)
  have h2 := hM ((e.cpu.program_counter + 2) % 65536)
  have hw := (word_of_bytes _ _ h1 h2).2
  have hand : ∀ x : Nat, x &&& 0xFFFF = x % 65536 :=
    fun x => Nat.and_pow_two_sub_one_eq_mod x 16
  simp only [absolute, incPC, setPC, Memory.readByte, hpc, hw, hand]
  congr 2
  omega

theorem call_return_entries :
    (instruction_map 0x20).implementation = some Behaviour.JSR ∧
    (instruction_map 0x20).name ≠ "DONE" ∧ (instruction_map 0x20).name ≠ "BRK" ∧
    (instruction_map 0x20).addressing_mode = AddressMode.ABSOLUTE ∧
    (instruction_map 0x60).implementation = some Behaviour.RTS ∧
    (instruction_map 0x60).name ≠ "DONE" ∧ (instruction_map 0x60).name ≠ "BRK" ∧
    (instruction_map 0x40).implementation = some Behaviour.RTI ∧
    (instruction_map 0x40).name ≠ "DONE" ∧ (instruction_map 0x40).name ≠ "BRK" ∧
    (instruction_map 0x00).implementation = some Behaviour.BRK ∧
    (instruction_map 0x00).name ≠ "DONE" := by
  decide

/-- One step on `JSR`: the counter of the last operand byte is pushed and the counter ends
on the target. -/
theorem JSR_effect (e : Emulator) (hfetch : e.mem.readByte e.cpu.program_counter = 0x20)
    (hM : ∀ a, e.mem.memory a < 256) :
    ∃ e1, e.cycle = some (true, e1) ∧
      e1.cpu = { e.cpu with
        program_counter := e.mem.memory ((e.cpu.program_counter + 1) % 65536) +
          256 * e.mem.memory ((e.cpu.program_counter + 2) % 65536),
        S := (e.mem.stackPushWord e.cpu.S ((e.cpu.program_counter + 2) % 65536)).2 } ∧
      e1.mem = (e.mem.stackPushWord e.cpu.S ((e.cpu.program_counter + 2) % 65536)).1 ∧
      e1.testing = e.testing := by
  obtain ⟨hb, hn1, hn2, hmode, -⟩ := call_return_entries
  have hha : e.handleAddressing 0x20 = e.absolute := by
    unfold handleAddressing
    rw [hmode]
  have hx : e.exec 0x20 Behaviour.JSR = some
      ((((e.setPC ((e.cpu.program_counter + 2) % 65536)).setMem
        (e.mem.stackPushWord e.cpu.S ((e.cpu.program_counter + 2) % 65536)).1).setS
        (e.mem.stackPushWord e.cpu.S ((e.cpu.program_counter + 2) % 65536)).2).setPC
        ((e.mem.memory ((e.cpu.program_counter + 1) % 65536) +
          256 * e.mem.memory ((e.cpu.program_counter + 2) % 65536) + 65535) % 65536)) := by
    show e.JSR 0x20 = _
    unfold JSR
    rw [hha, absolute_eq e hM]
    simp only [offsetOf, Option.bind_eq_bind, Option.some_bind, Option.pure_def, setPC, setS,
      setMem]
  rw [← hfetch] at hb hn1 hn2 hx
  obtain ⟨e2, hcyc, hcpu, hmem, htest⟩ := cycle_of_exec e _ Behaviour.JSR hb hn1 hn2 hx
  refine ⟨e2, hcyc, ?_, ?_, ?_⟩
  · have h1 := hM ((e.cpu.program_counter + 1) % 65536)
    have h2 := hM ((e.cpu.program_counter + 2) % 65536)
    have h3 : ((e.mem.memory ((e.cpu.program_counter + 1) % 65536) +
        256 * e.mem.memory ((e.cpu.program_counter + 2) % 65536) + 65535) % 65536 + 1) % 65536 =
        e.mem.memory ((e.cpu.program_counter + 1) % 65536) +
          256 * e.mem.memory ((e.cpu.program_counter + 2) % 65536) := by omega
    rw [hcpu]
    simp only [setPC, setS, setMem, h3]
  · rw [hmem]; simp only [setPC, setS, setMem]
  · rw [htest]; simp only [setPC, setS, setMem]

/-- One step on `RTS`: a two-byte value is pulled and the counter ends one past it. -/
theorem RTS_effect (e : Emulator) (hfetch : e.mem.readByte e.cpu.program_counter = 0x60) :
    ∃ e1, e.cycle = some (true, e1) ∧
      e1.cpu = { e.cpu with
        program_counter := ((e.mem.stackPullWord e.cpu.S).1 + 1) % 65536,
        S := (e.mem.stackPullWord e.cpu.S).2 } ∧
      e1.mem = e.mem ∧ e1.testing = e.testing := by
  obtain ⟨-, -, -, -, hb, hn1, hn2, -⟩ := call_return_entries
  have hx : e.exec 0x60 Behaviour.RTS = some ((e.setS (e.mem.stackPullWord e.cpu.S).2).setPC
      (e.mem.stackPullWord e.cpu.S).1) := rfl
  rw [← hfetch] at hb hn1 hn2 hx
  obtain ⟨e2, hcyc, hcpu, hmem, htest⟩ := cycle_of_exec e _ Behaviour.RTS hb hn1 hn2 hx
  exact ⟨e2, hcyc, by rw [hcpu]; simp only [setPC, setS], by rw [hmem]; simp only [setPC, setS],
    by rw [htest]; simp only [setPC, setS]⟩

/-- The address space after the two pushes of `BRK`: the return address, then the status
byte with Break and Unused set. -/
theorem BRK_exec (e : Emulator) :
    e.BRK 0x00 = some
      (((((e.setPC ((e.cpu.program_counter + 1) % 65536)).setMem
        ((e.mem.stackPushWord e.cpu.S ((e.cpu.program_counter + 2) % 65536)).1.stackPushByte
          (e.mem.stackPushWord e.cpu.S ((e.cpu.program_counter + 2) % 65536)).2
          ((e.cpu.P ||| P_BREAK ||| P_UNUSED) % 256)).1).setS
        ((e.mem.stackPushWord e.cpu.S ((e.cpu.program_counter + 2) % 65536)).1.stackPushByte
          (e.mem.stackPushWord e.cpu.S ((e.cpu.program_counter + 2) % 65536)).2
          ((e.cpu.P ||| P_BREAK ||| P_UNUSED) % 256)).2).setP
        (flagUpdate e.cpu.P P_INT_DISABLE true)).setPC
        ((((e.mem.memory 0xFFFF <<< 8) ||| e.mem.memory 0xFFFE) + 65535) % 65536)) := by
  have hpc : ((e.cpu.program_counter + 1) % 65536 + 1) % 65536 =
      (e.cpu.program_counter + 2) % 65536 := by omega
  have hout : ∀ a, Memory.STACK_START + 255 < a →
      ((e.mem.stackPushWord e.cpu.S ((e.cpu.program_counter + 2) % 65536)).1.stackPushByte
        (e.mem.stackPushWord e.cpu.S ((e.cpu.program_counter + 2) % 65536)).2
        ((e.cpu.P ||| P_BREAK ||| P_UNUSED) % 256)).1.memory a = e.mem.memory a := by
    intro a ha
    rw [Memory.stackPushByte_memory]
    have h1 : a ≠ Memory.STACK_START +
        (e.mem.stackPushWord e.cpu.S ((e.cpu.program_counter + 2) % 65536)).2 % 256 := by
      omega
    rw [if_neg h1]
    exact Memory.stackPushWord_outside _ _ _ _ (Or.inr ha)
  have hlo := hout 0xFFFE (by decide)
  have hhi := hout 0xFFFF (by decide)
  simp only [BRK, setPC, setMem, setS, orP_eq, setP, hpc, Memory.readByte, hlo, hhi]

/-- One step on `BRK` with `testing` on. -/
theorem BRK_effect (e : Emulator) (hfetch : e.mem.readByte e.cpu.program_counter = 0x00)
    (ht : e.testing = true) (hM : ∀ a, e.mem.memory a < 256) :
    ∃ e1, e.cycle = some (true, e1) ∧
      e1.cpu = { e.cpu with
        program_counter := e.mem.memory 0xFFFE + 256 * e.mem.memory 0xFFFF,
        S := ((e.mem.stackPushWord e.cpu.S ((e.cpu.program_counter + 2) % 65536)).1.stackPushByte
          (e.mem.stackPushWord e.cpu.S ((e.cpu.program_counter + 2) % 65536)).2
          ((e.cpu.P ||| P_BREAK ||| P_UNUSED) % 256)).2,
        P := flagUpdate e.cpu.P P_INT_DISABLE true } ∧
      e1.mem =
        ((e.mem.stackPushWord e.cpu.S ((e.cpu.program_counter + 2) % 65536)).1.stackPushByte
          (e.mem.stackPushWord e.cpu.S ((e.cpu.program_counter + 2) % 65536)).2
          ((e.cpu.P ||| P_BREAK ||| P_UNUSED) % 256)).1 ∧
      e1.testing = e.testing := by
  obtain ⟨-, -, -, -, -, -, -, -, -, -, hb, hn1⟩ := call_return_entries
  have hx : e.exec 0x00 Behaviour.BRK = _ := BRK_exec e
  rw [← hfetch] at hb hn1 hx
  have hh : ¬ ((instruction_map (e.mem.readByte e.cpu.program_counter)).name = "DONE" ∨
      (e.testing = false ∧
        (instruction_map (e.mem.readByte e.cpu.program_counter)).name = "BRK")) := by
    rintro (h | ⟨h, -⟩)
    · exact hn1 h
    · rw [ht] at h; exact absurd h (by decide)
  obtain ⟨e2, hcyc, hcpu, hmem, htest⟩ := cycle_of_not_halt e _ Behaviour.BRK hb hh hx
  have h1 := hM 0xFFFE
  have h2 := hM 0xFFFF
  have h3 : (((e.mem.memory 0xFFFF <<< 8) ||| e.mem.memory 0xFFFE) + 65535) % 65536 =
      (e.mem.memory 0xFFFE + 256 * e.mem.memory 0xFFFF + 65535) % 65536 := by
    rw [lor_shift_byte _ _ h1]
  have h4 : ((e.mem.memory 0xFFFE + 256 * e.mem.memory 0xFFFF + 65535) % 65536 + 1) % 65536 =
      e.mem.memory 0xFFFE + 256 * e.mem.memory 0xFFFF := by omega
  refine ⟨e2, hcyc, ?_, ?_, ?_⟩
  · rw [hcpu]
    simp only [setPC, setS, setMem, setP, h3, h4]
  · rw [hmem]; simp only [setPC, setS, setMem, setP]
  · rw [htest]; simp only [setPC, setS, setMem, setP]

end Emulator

/-! ## Return from interrupt -/

namespace Memory

/-- A two-byte value pushed under a byte is still the value pulled once the byte is gone. -/
theorem stackPullWord_under_byte (m : Memory) (s w v : Nat) (hs : s < 256) (hw : w < 65536) :
    ((m.stackPushWord s w).1.stackPushByte (m.stackPushWord s w).2 v).1.stackPullWord
      (m.stackPushWord s w).2 = (w, s) := by
  have h1 : ((s + 255) % 256 + 255) % 256 = (s + 254) % 256 := by omega
  have h2 : ((s + 254) % 256 + 1) % 256 = (s + 255) % 256 := by omega
  have h3 : ((s + 255) % 256 + 1) % 256 = s := by omega
  have h4 : s % 256 = s := by omega
  have h5 : (s + 255) % 256 % 256 = (s + 255) % 256 := by omega
  have h5' : (s + 254) % 256 % 256 = (s + 254) % 256 := by omega
  have h6 : STACK_START + s ≠ STACK_START + (s + 255) % 256 := by omega
  have h8 : STACK_START + s ≠ STACK_START + (s + 254) % 256 := by omega
  have h9 : STACK_START + (s + 255) % 256 ≠ STACK_START + (s + 254) % 256 := by omega
  have h7 : w % 65536 / 256 % 256 * 256 + w % 65536 % 256 % 256 = w := by omega
  simp only [stackPushWord, stackPushByte, stackPullWord, stackPullByte, readByte, writeByte,
    h1, h2, h3, h4, h5, h5', h6, h8, h9, if_true, if_false, h7]

end Memory

namespace Emulator
open MOS_6502

/-- One step on `RTI`: the status byte is pulled, then a two-byte value, on which the
counter ends. -/
theorem RTI_effect (e : Emulator) (hfetch : e.mem.readByte e.cpu.program_counter = 0x40)
    (hw : (e.mem.stackPullWord (e.mem.stackPullByte e.cpu.S).2).1 < 65536) :
    ∃ e1, e.cycle = some (true, e1) ∧
      e1.cpu = { e.cpu with
        program_counter := (e.mem.stackPullWord (e.mem.stackPullByte e.cpu.S).2).1,
        S := (e.mem.stackPullWord (e.mem.stackPullByte e.cpu.S).2).2,
        P := flagUpdate (flagUpdate (e.mem.stackPullByte e.cpu.S).1 P_BREAK false)
          P_UNUSED true } ∧
      e1.mem = e.mem ∧ e1.testing = e.testing := by
  obtain ⟨-, -, -, -, -, -, -, hb, hn1, hn2, -⟩ := call_return_entries
  have hx : e.exec 0x40 Behaviour.RTI = some
      (((((e.setS (e.mem.stackPullByte e.cpu.S).2).setP (e.mem.stackPullByte e.cpu.S).1).setP
        (flagUpdate (flagUpdate (e.mem.stackPullByte e.cpu.S).1 P_BREAK false)
          P_UNUSED true)).setS (e.mem.stackPullWord (e.mem.stackPullByte e.cpu.S).2).2).setPC
        (((e.mem.stackPullWord (e.mem.stackPullByte e.cpu.S).2).1 + 65535) % 65536)) := by
    show e.RTI 0x40 = _
    simp only [RTI, orP_eq, andNotP_eq, setS, setP, setPC]
  rw [← hfetch] at hb hn1 hn2 hx
  obtain ⟨e2, hcyc, hcpu, hmem, htest⟩ := cycle_of_exec e _ Behaviour.RTI hb hn1 hn2 hx
  have h4 : (((e.mem.stackPullWord (e.mem.stackPullByte e.cpu.S).2).1 + 65535) % 65536 + 1) %
      65536 = (e.mem.stackPullWord (e.mem.stackPullByte e.cpu.S).2).1 := by omega
  refine ⟨e2, hcyc, ?_, ?_, ?_⟩
  · rw [hcpu]
    simp only [setPC, setS, setP, h4]
  · rw [hmem]; simp only [setPC, setS, setP]
  · rw [htest]; simp only [setPC, setS, setP]

/-- A two-byte value pulled from an address space of bytes is a 16-bit value. -/
theorem stackPullWord_lt (m : Memory) (s : Nat) (hM : ∀ a, m.memory a < 256) :
    (m.stackPullWord s).1 < 65536 := by
  simp only [Memory.stackPullWord, Memory.stackPullByte, Memory.readByte]
  have h1 := hM (Memory.STACK_START + (s + 1) % 256)
  have h2 := hM (Memory.STACK_START + ((s + 1) % 256 + 1) % 256)
  omega

/-- Bits of a status byte restored by `PLP` or `RTI`: Break cleared, Unused set. -/
theorem testBit_restored (q i : Nat) :
    (flagUpdate (flagUpdate q P_BREAK false) P_UNUSED true).testBit i =
      (decide (i < 8) && if i = 5 then true else if i = 4 then false else q.testBit i) := by
  rw [testBit_flagUpdate_UNUSED, testBit_flagUpdate_BREAK]
  by_cases h8 : i < 8 <;> by_cases h5 : i = 5 <;> by_cases h4 : i = 4 <;> simp [h8, h5, h4]

end Emulator

/-! ## The encoded length and the program counter -/

namespace Emulator
open MOS_6502

/-- The resolver moves the program counter on by the operand bytes of the mode. -/
theorem handleAddressing_pc (e : Emulator) (opcode : Nat)
    (hpc : e.cpu.program_counter < 65536) :
    (e.handleAddressing opcode).1.cpu.program_counter =
      (e.cpu.program_counter + (instruction_map opcode).addressing_mode.operandBytes) %
        65536 := by
  unfold handleAddressing
  split <;> rename_i h <;> rw [h] <;>
    simp only [immediate, zeroPage, zeroPageX, zeroPageY, absolute, absoluteX, absoluteY, indirect,
      indexedIndirect, indirectIndexed, accumulator, relative, incPC, setPC, delay,
      AddressMode.operandBytes] <;>
    (try split_ifs) <;> (try simp only []) <;> omega

set_option maxRecDepth 20000 in
/-- The encoded length of every entry that is not a halt entry is one more than the operand
bytes of its mode, and a behaviour that does not call the resolver is paired with a mode
without operand bytes. -/
theorem table_lengths : ∀ op < 256, (instruction_map op).name ≠ "DONE" →
    (instruction_map op).bytes = (instruction_map op).addressing_mode.operandBytes + 1 ∧
    ∀ b, (instruction_map op).implementation = some b →
      (b.dereferences || b.takesOffset) = false →
      (instruction_map op).addressing_mode.operandBytes = 0 := by
  have h : ∀ op < 256, (instruction_map op).name ≠ "DONE" →
      (instruction_map op).bytes = (instruction_map op).addressing_mode.operandBytes + 1 ∧
      (instruction_map op).implementation.all (fun b =>
        b.dereferences || b.takesOffset ||
          decide ((instruction_map op).addressing_mode.operandBytes = 0)) = true := by
    decide
  intro op hop hn
  refine ⟨(h op hop hn).1, ?_⟩
  intro b hb hc
  have := (h op hop hn).2
  rw [hb] at this
  simpa [hc] using this

/-- A behaviour that does not redirect control leaves the program counter where the
resolver put it, or where it was when it does not call the resolver. -/
theorem exec_pc (e e1 : Emulator) (opcode : Nat) (b : Behaviour)
    (hr : b.redirects e.cpu.P = false) (hx : e.exec opcode b = some e1) :
    e1.cpu.program_counter =
      if (b.dereferences || b.takesOffset) = true then
        (e.handleAddressing opcode).1.cpu.program_counter
      else e.cpu.program_counter := by
  have hfr := (handleAddressing_frame e opcode).2.2.2.2.1
  cases b <;>
    simp only [Behaviour.redirects, Behaviour.dereferences, Behaviour.takesOffset, Bool.or_false,
      Bool.or_true, Bool.or_self, if_true, if_false, Bool.false_eq_true] at hr ⊢ <;>
    first
      | exact absurd hr (by decide)
      | (simp only [exec, NOP, INX, INY, DEX, DEY, TXA, TAY, TSX, TXS, TYA, TAX, PHA, PLA, PHP,
          PLP, CLC, CLD, CLI, CLV, SEC, SED, SEI, hAFC_eq, orP_eq, andNotP_eq,
          Option.some.injEq] at hx
         subst hx
         rfl)
      | (simp only [exec, BCC, BCS, BEQ, BMI, BNE, BPL, BVC, BVS, branchIf] at hx
         rw [hfr] at hx
         simp only [hr, Bool.false_eq_true, if_false, Option.some.injEq] at hx
         rw [hx])
      | (simp only [exec, ORA, INC, DEC, LDA, LDX, LDY, STA, STX, STY, AND, EOR, ADC, SBC, ASL,
          LSR, ROL, ROR, CMP, CPX, CPY, BIT] at hx
         revert hx
         generalize e.handleAddressing opcode = r
         obtain ⟨e0, ptr⟩ := r
         intro hx
         cases ptr <;>
           simp only [deref, assign, Option.bind_eq_bind, Option.some_bind, Option.none_bind,
             Option.pure_def, ite_orP_andNotP, hAFC_eq, Option.some.injEq] at hx <;>
           first
             | (subst hx; rfl)
             | cases hx)

/-- The behaviour of a table entry that is not a halt entry returns, whatever the state. -/
theorem exec_of_table (e : Emulator) (opcode : Nat)
    (hnd : (instruction_map opcode).name ≠ "DONE") :
    ∃ b e1, (instruction_map opcode).implementation = some b ∧ e.exec opcode b = some e1 := by
  have hlt : opcode < 256 := by
    by_contra hge
    exact hnd (by rw [instruction_map_ge _ (by omega)]; rfl)
  have hsafe := (table_safe _ hlt).1 hnd
  unfold Instruction.safe at hsafe
  cases hb : (instruction_map opcode).implementation with
  | none => rw [hb] at hsafe; simp at hsafe
  | some b =>
    rw [hb] at hsafe
    simp only [Bool.and_eq_true, Bool.or_eq_true, Bool.not_eq_true', bne_iff_ne, ne_eq]
      at hsafe
    obtain ⟨hs1, hs2⟩ := hsafe
    have h1 : b.dereferences = true → (e.handleAddressing opcode).2 ≠ BytePtr.null := by
      intro hd
      rcases hs1 with hs1 | hs1
      · rw [hd] at hs1; exact absurd hs1 (by decide)
      · exact handleAddressing_nonnull e _ hs1
    have h2 : b.takesOffset = true →
        ∃ a, (e.handleAddressing opcode).2 = BytePtr.memory a := by
      intro hd
      rcases hs2 with hs2 | hs2
      · rw [hd] at hs2; exact absurd hs2 (by decide)
      · exact handleAddressing_memory e _ hs2.1 hs2.2
    obtain ⟨e1, hx⟩ := exec_some e _ b h1 h2
    exact ⟨b, e1, rfl, hx⟩

end Emulator

/-! ## Every step returns; the Unused and Break bits -/

namespace Emulator
open MOS_6502

/-- Every step returns: either the opcode halts and the state is returned as it is, or the
behaviour of the table entry runs to its end and the counter moves on by one. -/
theorem cycle_cases (e : Emulator) :
    (((instruction_map (e.mem.readByte e.cpu.program_counter)).name = "DONE" ∨
        (e.testing = false ∧
          (instruction_map (e.mem.readByte e.cpu.program_counter)).name = "BRK")) ∧
      e.cycle = some (false, e)) ∨
    (¬ ((instruction_map (e.mem.readByte e.cpu.program_counter)).name = "DONE" ∨
        (e.testing = false ∧
          (instruction_map (e.mem.readByte e.cpu.program_counter)).name = "BRK")) ∧
      ∃ b e1 e2,
        (instruction_map (e.mem.readByte e.cpu.program_counter)).implementation = some b ∧
        e.exec (e.mem.readByte e.cpu.program_counter) b = some e1 ∧
        e.cycle = some (true, e2) ∧
        e2.cpu = { e1.cpu with program_counter := (e1.cpu.program_counter + 1) % 65536 } ∧
        e2.mem = e1.mem ∧ e2.testing = e1.testing) := by
  by_cases h : ((instruction_map (e.mem.readByte e.cpu.program_counter)).name = "DONE" ∨
      (e.testing = false ∧
        (instruction_map (e.mem.readByte e.cpu.program_counter)).name = "BRK"))
  · left
    refine ⟨h, ?_⟩
    unfold cycle
    simp only [h, if_true]
  · right
    refine ⟨h, ?_⟩
    obtain ⟨b, e1, hb, hx⟩ := exec_of_table e _ (fun hd => h (Or.inl hd))
    obtain ⟨e2, hcyc, hcpu, hmem, ht⟩ := cycle_of_not_halt e e1 b hb h hx
    exact ⟨b, e1, e2, hb, hx, hcyc, hcpu, hmem, ht⟩

/-- No behaviour clears the Unused bit of the status byte or sets its Break bit. -/
theorem exec_flags (e e1 : Emulator) (opcode : Nat) (b : Behaviour)
    (hx : e.exec opcode b = some e1) :
    (e.cpu.P.testBit 5 = true → e1.cpu.P.testBit 5 = true) ∧
    (e.cpu.P.testBit 4 = false → e1.cpu.P.testBit 4 = false) := by
  have hfr := (handleAddressing_frame e opcode).2.2.2.2.1
  cases b <;>
    first
      | (simp only [exec, NOP, INX, INY, DEX, DEY, TXA, TAY, TSX, TXS, TYA, TAX, PHA, PLA, PHP,
          PLP, RTI, RTS, BRK, CLC, CLD, CLI, CLV, SEC, SED, SEI, hAFC_eq, orP_eq, andNotP_eq,
          Option.some.injEq] at hx
         subst hx
         simp [setP, setA, setX, setY, setS, setPC, setMem])
      | (simp only [exec, ORA, INC, DEC, LDA, LDX, LDY, STA, STX, STY, AND, EOR, ADC, SBC, ASL,
          LSR, ROL, ROR, CMP, CPX, CPY, BIT, JMP, JSR, BCC, BCS, BEQ, BMI, BNE, BPL, BVC, BVS,
          branchIf] at hx
         revert hfr
         revert hx
         generalize e.handleAddressing opcode = r
         obtain ⟨e0, ptr⟩ := r
         intro hx hfr
         simp only at hfr
         cases ptr <;>
           simp only [deref, assign, offsetOf, Option.bind_eq_bind, Option.some_bind,
             Option.none_bind, Option.pure_def, ite_orP_andNotP, hAFC_eq,
             Option.some.injEq] at hx <;>
           first
             | (subst hx
                simp [setP, setA, setX, setY, setS, setPC, setMem, hfr])
             | (split_ifs at hx <;>
                 first
                   | (simp only [Option.some.injEq] at hx
                      subst hx
                      simp [setP, setA, setX, setY, setS, setPC, setMem, hfr]))
             | cases hx)

theorem status_entries :
    (instruction_map 0x08).implementation = some Behaviour.PHP ∧
    (instruction_map 0x08).name ≠ "DONE" ∧ (instruction_map 0x08).name ≠ "BRK" ∧
    (instruction_map 0x28).implementation = some Behaviour.PLP ∧
    (instruction_map 0x28).name ≠ "DONE" ∧ (instruction_map 0x28).name ≠ "BRK" := by
  decide

/-- The two behaviours that overwrite the whole status byte, `PLP` and `RTI`, leave Unused set
and Break clear, whatever byte they pull. -/
theorem exec_restores (e e1 : Emulator) (opcode : Nat) (b : Behaviour)
    (hb : b = Behaviour.PLP ∨ b = Behaviour.RTI) (hx : e.exec opcode b = some e1) :
    e1.cpu.P.testBit 5 = true ∧ e1.cpu.P.testBit 4 = false := by
  rcases hb with hb | hb <;> subst hb <;>
    simp only [exec, PLP, RTI, orP_eq, andNotP_eq, Option.some.injEq] at hx <;>
    subst hx <;>
    simp [setP, setS, setPC]

/-- One step on `PLP` or `RTI` returns `true` with Unused set and Break clear. -/
theorem restore_step (e : Emulator)
    (hfetch : e.mem.readByte e.cpu.program_counter = 0x28 ∨
      e.mem.readByte e.cpu.program_counter = 0x40) :
    ∃ e', e.cycle = some (true, e') ∧ e'.cpu.P.testBit 5 = true ∧
      e'.cpu.P.testBit 4 = false := by
  obtain ⟨-, -, -, hplp, hp1, hp2⟩ := status_entries
  obtain ⟨-, -, -, -, -, -, -, hrti, hr1, hr2, -⟩ := call_return_entries
  rcases hfetch with hf | hf
  · rw [← hf] at hplp hp1 hp2
    have hx : ∃ e1, e.exec (e.mem.readByte e.cpu.program_counter) Behaviour.PLP = some e1 :=
      ⟨_, rfl⟩
    obtain ⟨e1, hx⟩ := hx
    obtain ⟨e2, hcyc, hcpu, -⟩ := cycle_of_exec e e1 _ hplp hp1 hp2 hx
    obtain ⟨h5, h4⟩ := exec_restores e e1 _ _ (Or.inl rfl) hx
    refine ⟨e2, hcyc, ?_, ?_⟩
    · rw [hcpu]; exact h5
    · rw [hcpu]; exact h4
  · rw [← hf] at hrti hr1 hr2
    have hx : ∃ e1, e.exec (e.mem.readByte e.cpu.program_counter) Behaviour.RTI = some e1 :=
      ⟨_, rfl⟩
    obtain ⟨e1, hx⟩ := hx
    obtain ⟨e2, hcyc, hcpu, -⟩ := cycle_of_exec e e1 _ hrti hr1 hr2 hx
    obtain ⟨h5, h4⟩ := exec_restores e e1 _ _ (Or.inr rfl) hx
    refine ⟨e2, hcyc, ?_, ?_⟩
    · rw [hcpu]; exact h5
    · rw [hcpu]; exact h4

/-- One step on `PHP` stores the status byte with Break and Unused set at the stack pointer
and leaves the live status byte as it was. -/
theorem PHP_effect (e : Emulator) (hfetch : e.mem.readByte e.cpu.program_counter = 0x08) :
    ∃ e', e.cycle = some (true, e') ∧
      e'.mem = (e.mem.stackPushByte e.cpu.S ((e.cpu.P ||| P_BREAK ||| P_UNUSED) % 256)).1 ∧
      e'.cpu.P = e.cpu.P := by
  obtain ⟨hphp, hp1, hp2, -⟩ := status_entries
  rw [← hfetch] at hphp hp1 hp2
  have hx : e.exec (e.mem.readByte e.cpu.program_counter) Behaviour.PHP = some
      ((e.setMem (e.mem.stackPushByte e.cpu.S ((e.cpu.P ||| P_BREAK ||| P_UNUSED) % 256)).1).setS
        (e.mem.stackPushByte e.cpu.S ((e.cpu.P ||| P_BREAK ||| P_UNUSED) % 256)).2) := rfl
  obtain ⟨e2, hcyc, hcpu, hmem, -⟩ := cycle_of_exec e _ _ hphp hp1 hp2 hx
  refine ⟨e2, hcyc, ?_, ?_⟩
  · rw [hmem]; rfl
  · rw [hcpu]; rfl

/-- Bits of the status byte as `PHP` and `BRK` push it. -/
theorem testBit_pushed (P i : Nat) :
    ((P ||| P_BREAK ||| P_UNUSED) % 256 % 256).testBit i =
      (decide (i < 8) && (P.testBit i || decide (i = 4) || decide (i = 5))) := by
  rw [Nat.mod_mod, testBit_mod_256, Nat.testBit_lor, Nat.testBit_lor,
    show P_BREAK = 2 ^ 4 from rfl, show P_UNUSED = 2 ^ 5 from rfl, Nat.testBit_two_pow,
    Nat.testBit_two_pow]
  simp only [eq_comm]

end Emulator

/-! ## Add and subtract, one step -/

namespace Emulator
open MOS_6502

theorem arith_entries :
    (∀ op ∈ [0x69, 0x65, 0x75, 0x6D, 0x7D, 0x79, 0x61, 0x71],
      (instruction_map op).implementation = some Behaviour.ADC ∧
      (instruction_map op).name ≠ "DONE" ∧ (instruction_map op).name ≠ "BRK" ∧
      (instruction_map op).addressing_mode ≠ AddressMode.IMPLICIT ∧
      (instruction_map op).addressing_mode ≠ AddressMode.ACCUMULATOR) ∧
    (∀ op ∈ [0xE9, 0xE5, 0xF5, 0xED, 0xFD, 0xF9, 0xE1, 0xF1],
      (instruction_map op).implementation = some Behaviour.SBC ∧
      (instruction_map op).name ≠ "DONE" ∧ (instruction_map op).name ≠ "BRK" ∧
      (instruction_map op).addressing_mode ≠ AddressMode.IMPLICIT ∧
      (instruction_map op).addressing_mode ≠ AddressMode.ACCUMULATOR) := by
  decide

/-- The resolver does not read the status byte: with another status byte it resolves to the
same location and leaves the same state, the status byte apart. -/
theorem handleAddressing_setP (e : Emulator) (opcode q : Nat) :
    (e.setP q).handleAddressing opcode =
      ((e.handleAddressing opcode).1.setP q, (e.handleAddressing opcode).2) := by
  unfold handleAddressing
  split <;>
    simp only [immediate, zeroPage, zeroPageX, zeroPageY, absolute, absoluteX, absoluteY, indirect,
      indexedIndirect, indirectIndexed, accumulator, relative, incPC, setPC, delay, setP] <;>
    (try split_ifs) <;> rfl

/-- One step on an `ADC` opcode, in terms of the bits of the status byte. -/
theorem ADC_cycle (e : Emulator) (opcode : Nat)
    (hop : opcode ∈ [0x69, 0x65, 0x75, 0x6D, 0x7D, 0x79, 0x61, 0x71])
    (hfetch : e.mem.readByte e.cpu.program_counter = opcode)
    (hA : e.cpu.accumulator < 256) (hM : ∀ a, e.mem.memory a < 256) :
    ∃ addr e', (e.handleAddressing opcode).2 = BytePtr.memory addr ∧
      e.cycle = some (true, e') ∧
      e'.cpu.accumulator = (e.cpu.accumulator + e.mem.memory addr + carryIn e.cpu.P) % 256 ∧
      (e'.cpu.P.testBit 0 =
        decide (256 ≤ e.cpu.accumulator + e.mem.memory addr + carryIn e.cpu.P)) ∧
      (e'.cpu.P.testBit 6 = decide (e.cpu.accumulator.testBit 7 = (e.mem.memory addr).testBit 7 ∧
        ((e.cpu.accumulator + e.mem.memory addr + carryIn e.cpu.P) % 256).testBit 7 ≠
          e.cpu.accumulator.testBit 7)) ∧
      (e'.cpu.P.testBit 1 =
        decide ((e.cpu.accumulator + e.mem.memory addr + carryIn e.cpu.P) % 256 = 0)) ∧
      (e'.cpu.P.testBit 7 =
        ((e.cpu.accumulator + e.mem.memory addr + carryIn e.cpu.P) % 256).testBit 7) ∧
      (∀ i, i = 2 ∨ i = 3 ∨ i = 4 ∨ i = 5 → e'.cpu.P.testBit i = e.cpu.P.testBit i) := by
  obtain ⟨hb, hn1, hn2, hm1, hm2⟩ := arith_entries.1 opcode hop
  obtain ⟨addr, hptr⟩ := handleAddressing_memory e opcode hm1 hm2
  obtain ⟨e1, hadc, hacc, hc, hv, hz, hn, hrest, -⟩ :=
    ADC_behaviour e opcode addr hptr hA (hM addr)
  subst hfetch
  obtain ⟨e2, hcyc, hcpu, -⟩ := cycle_of_exec e e1 Behaviour.ADC hb hn1 hn2 hadc
  have hP2 : e2.cpu.P = e1.cpu.P := by rw [hcpu]
  have hA2 : e2.cpu.accumulator = e1.cpu.accumulator := by rw [hcpu]
  refine ⟨addr, e2, hptr, hcyc, ?_, ?_, ?_, ?_, ?_, ?_⟩
  · rw [hA2, hacc]; rfl
  · rw [hP2, hc]; rfl
  · rw [hP2, hv]; rfl
  · rw [hP2, hz]; rfl
  · rw [hP2, hn]; rfl
  · intro i hi
    rw [hP2]
    exact hrest i hi

/-- One step on an `SBC` opcode, in terms of the bits of the status byte. -/
theorem SBC_cycle (e : Emulator) (opcode : Nat)
    (hop : opcode ∈ [0xE9, 0xE5, 0xF5, 0xED, 0xFD, 0xF9, 0xE1, 0xF1])
    (hfetch : e.mem.readByte e.cpu.program_counter = opcode)
    (hA : e.cpu.accumulator < 256) (hM : ∀ a, e.mem.memory a < 256) :
    ∃ addr e', (e.handleAddressing opcode).2 = BytePtr.memory addr ∧
      e.cycle = some (true, e') ∧
      e'.cpu.accumulator =
        byteOfInt ((e.cpu.accumulator : Int) - (e.mem.memory addr : Nat) -
          (1 - ((carryIn e.cpu.P : Nat) : Int))) ∧
      (e'.cpu.P.testBit 0 = decide (0 ≤ (e.cpu.accumulator : Int) - (e.mem.memory addr : Nat) -
          (1 - ((carryIn e.cpu.P : Nat) : Int)))) ∧
      (e'.cpu.P.testBit 6 = decide (e.cpu.accumulator.testBit 7 ≠ (e.mem.memory addr).testBit 7 ∧
        e'.cpu.accumulator.testBit 7 ≠ e.cpu.accumulator.testBit 7)) ∧
      (e'.cpu.P.testBit 1 = decide (e'.cpu.accumulator = 0)) ∧
      (e'.cpu.P.testBit 7 = e'.cpu.accumulator.testBit 7) ∧
      (∀ i, i = 2 ∨ i = 3 ∨ i = 4 ∨ i = 5 → e'.cpu.P.testBit i = e.cpu.P.testBit i) := by
  obtain ⟨hb, hn1, hn2, hm1, hm2⟩ := arith_entries.2 opcode hop
  obtain ⟨addr, hptr⟩ := handleAddressing_memory e opcode hm1 hm2
  obtain ⟨e1, hsbc, hacc, hc, hv, hz, hn, hrest, -⟩ :=
    SBC_behaviour e opcode addr hptr hA (hM addr)
  subst hfetch
  obtain ⟨e2, hcyc, hcpu, -⟩ := cycle_of_exec e e1 Behaviour.SBC hb hn1 hn2 hsbc
  have hP2 : e2.cpu.P = e1.cpu.P := by rw [hcpu]
  have hA2 : e2.cpu.accumulator = e1.cpu.accumulator := by rw [hcpu]
  refine ⟨addr, e2, hptr, hcyc, ?_, ?_, ?_, ?_, ?_, ?_⟩
  · rw [hA2, hacc]
  · rw [hP2, hc]
  · rw [hP2, hA2, hv]
  · rw [hP2, hA2, hz]
  · rw [hP2, hA2, hn]
  · intro i hi
    rw [hP2]
    exact hrest i hi

/-- The carry-in is bit 0 of the status byte. -/
theorem carryIn_eq (P : Nat) : carryIn P = if P.testBit 0 = true then 1 else 0 := by
  unfold carryIn
  by_cases h : P.testBit 0 = true
  · rw [if_pos h, if_pos ((flag_iff_testBit P).1.mpr h)]
  · rw [if_neg h, if_neg (fun hc => h ((flag_iff_testBit P).1.mp hc))]

end Emulator

/-! ## Rotates, one step -/

namespace Emulator
open MOS_6502

theorem rotate_entries :
    (∀ op ∈ [0x2A, 0x26, 0x36, 0x2E, 0x3E],
      (instruction_map op).implementation = some Behaviour.ROL) ∧
    (∀ op ∈ [0x6A, 0x66, 0x76, 0x6E, 0x7E],
      (instruction_map op).implementation = some Behaviour.ROR) ∧
    (∀ op ∈ [0x2A, 0x26, 0x36, 0x2E, 0x3E, 0x6A, 0x66, 0x76, 0x6E, 0x7E],
      (instruction_map op).name ≠ "DONE" ∧ (instruction_map op).name ≠ "BRK") := by
  decide

/-- One step on a rotate opcode: the byte stored and the bits of the status byte. -/
theorem rotate_cycle (e : Emulator) (opcode v : Nat) (hv : v < 256)
    (hfetch : e.mem.readByte e.cpu.program_counter = opcode)
    (hd : e.deref (e.handleAddressing opcode).2 = some v) :
    (opcode ∈ [0x2A, 0x26, 0x36, 0x2E, 0x3E] →
      ∃ e', e.cycle = some (true, e') ∧
        e'.deref (e.handleAddressing opcode).2 = some (2 * v % 256 + carryIn e.cpu.P) ∧
        e'.cpu.P.testBit 0 = v.testBit 7 ∧
        e'.cpu.P.testBit 1 = decide (2 * v % 256 + carryIn e.cpu.P = 0) ∧
        e'.cpu.P.testBit 7 = (2 * v % 256 + carryIn e.cpu.P).testBit 7) ∧
    (opcode ∈ [0x6A, 0x66, 0x76, 0x6E, 0x7E] →
      ∃ e', e.cycle = some (true, e') ∧
        e'.deref (e.handleAddressing opcode).2 = some (v / 2 + 128 * carryIn e.cpu.P) ∧
        e'.cpu.P.testBit 0 = v.testBit 0 ∧
        e'.cpu.P.testBit 1 = decide (v / 2 + 128 * carryIn e.cpu.P = 0) ∧
        e'.cpu.P.testBit 7 = (v / 2 + 128 * carryIn e.cpu.P).testBit 7) := by
  obtain ⟨hrol, hror, hall⟩ := rotate_entries
  subst hfetch
  constructor
  · intro hop
    obtain ⟨hn1, hn2⟩ := hall (e.mem.readByte e.cpu.program_counter)
      (by simp only [List.mem_cons] at hop ⊢; tauto)
    obtain ⟨e1, hx, hw, h0, h1, h7, -⟩ := ROL_behaviour e _ v hv hd
    obtain ⟨e2, hcyc, hcpu, hmem, -⟩ :=
      cycle_of_exec e e1 Behaviour.ROL (hrol _ hop) hn1 hn2 hx
    have hP2 : e2.cpu.P = e1.cpu.P := by rw [hcpu]
    refine ⟨e2, hcyc, ?_, ?_, ?_, ?_⟩
    · rw [deref_of_cycle e1 e2 _ hcpu hmem]; exact hw
    · rw [hP2]; exact h0
    · rw [hP2]; exact h1
    · rw [hP2]; exact h7
  · intro hop
    obtain ⟨hn1, hn2⟩ := hall (e.mem.readByte e.cpu.program_counter)
      (by simp only [List.mem_cons] at hop ⊢; tauto)
    obtain ⟨e1, hx, hw, h0, h1, h7, -⟩ := ROR_behaviour e _ v hv hd
    obtain ⟨e2, hcyc, hcpu, hmem, -⟩ :=
      cycle_of_exec e e1 Behaviour.ROR (hror _ hop) hn1 hn2 hx
    have hP2 : e2.cpu.P = e1.cpu.P := by rw [hcpu]
    refine ⟨e2, hcyc, ?_, ?_, ?_, ?_⟩
    · rw [deref_of_cycle e1 e2 _ hcpu hmem]; exact hw
    · rw [hP2]; exact h0
    · rw [hP2]; exact h1
    · rw [hP2]; exact h7

end Emulator

/-! ## The mode switch -/

namespace Emulator
open MOS_6502

/-- The resolver reads `testing` and the count of waits only to count a wait: from two states
with the same registers and address space it resolves to the same location and leaves the
same registers and address space. -/
theorem handleAddressing_core (e e' : Emulator) (opcode : Nat)
    (hc : e.cpu = e'.cpu) (hm : e.mem = e'.mem) :
    (e.handleAddressing opcode).1.cpu = (e'.handleAddressing opcode).1.cpu ∧
    (e.handleAddressing opcode).1.mem = (e'.handleAddressing opcode).1.mem ∧
    (e.handleAddressing opcode).2 = (e'.handleAddressing opcode).2 := by
  obtain ⟨cpu, mem, t, n⟩ := e
  obtain ⟨cpu', mem', t', n'⟩ := e'
  simp only at hc hm
  subst hc hm
  unfold handleAddressing
  split <;>
    simp only [immediate, zeroPage, zeroPageX, zeroPageY, absolute, absoluteX, absoluteY, indirect,
      indexedIndirect, indirectIndexed, accumulator, relative, incPC, setPC, delay] <;>
    (try split_ifs) <;> first | exact ⟨rfl, rfl, rfl⟩ | simp

/-- No behaviour reads `testing` or the count of waits except to count a wait: from two
states with the same registers and address space a behaviour returns in both or in neither,
with the same registers and address space. -/
theorem exec_core (e e' : Emulator) (opcode : Nat) (b : Behaviour)
    (hc : e.cpu = e'.cpu) (hm : e.mem = e'.mem) :
    (e.exec opcode b).map (fun r => (r.cpu, r.mem)) =
      (e'.exec opcode b).map (fun r => (r.cpu, r.mem)) := by
  have hha := handleAddressing_core e e' opcode hc hm
  cases b <;>
    first
      | (obtain ⟨cpu, mem, t, n⟩ := e
         obtain ⟨cpu', mem', t', n'⟩ := e'
         simp only at hc hm
         subst hc hm
         simp only [exec, NOP, INX, INY, DEX, DEY, TXA, TAY, TSX, TXS, TYA, TAX, PHA, PLA, PHP,
           PLP, RTI, RTS, BRK, CLC, CLD, CLI, CLV, SEC, SED, SEI, hAFC_eq, orP_eq, andNotP_eq,
           setP, setA, setX, setY, setS, setPC, setMem, Option.map_some']
         done)
      | (simp only [exec, ORA, INC, DEC, LDA, LDX, LDY, STA, STX, STY, AND, EOR, ADC, SBC, ASL,
           LSR, ROL, ROR, CMP, CPX, CPY, BIT, JMP, JSR, BCC, BCS, BEQ, BMI, BNE, BPL, BVC, BVS,
           branchIf]
         revert hha
         generalize e.handleAddressing opcode = r
         generalize e'.handleAddressing opcode = r'
         obtain ⟨⟨cpu, mem, t, n⟩, ptr⟩ := r
         obtain ⟨⟨cpu', mem', t', n'⟩, ptr'⟩ := r'
         rintro ⟨h1, h2, h3⟩
         simp only at h1 h2 h3
         subst h1 h2 h3
         cases ptr <;>
           simp only [deref, assign, offsetOf, Option.bind_eq_bind, Option.some_bind,
             Option.none_bind, Option.pure_def, ite_orP_andNotP, hAFC_eq, setP, setA, setX,
             setY, setS, setPC, setMem, Option.map_some', Option.map_none'] <;>
           (try split_ifs) <;> rfl)

end Emulator

/-! ## The claims -/

namespace Emulator

open MOS_6502

/-- C1: for every value `v` and every status byte, `handleArithmeticFlagChanges(v)` leaves
Zero set iff `v == 0` and Negative set iff bit 7 of `v` is 1, whatever they were before;
the other six status bits (Carry, Interrupt-Disable, Decimal, Break, Unused, Overflow) are
as they were, and nothing but `cpu.P` is written. -/
theorem handleArithmeticFlagChanges_zero_negative (e : Emulator) (v : Nat) :
    (((e.handleArithmeticFlagChanges v).cpu.P &&& P_ZERO ≠ 0) ↔ v = 0) ∧
    (((e.handleArithmeticFlagChanges v).cpu.P &&& P_NEGATIVE ≠ 0) ↔ v.testBit 7 = true) ∧
    (∀ f ∈ [P_CARRY, P_INT_DISABLE, P_DECIMAL, P_BREAK, P_UNUSED, P_OVERFLOW],
      (e.handleArithmeticFlagChanges v).cpu.P &&& f = e.cpu.P &&& f) ∧
    e.handleArithmeticFlagChanges v = e.setP (e.handleArithmeticFlagChanges v).cpu.P := by
  obtain ⟨-, hz, -, -, -, -, -, hn⟩ := flag_iff_testBit (e.handleArithmeticFlagChanges v).cpu.P
  rw [hz, hn]
  have hP : (e.handleArithmeticFlagChanges v).cpu.P =
      flagUpdate (flagUpdate e.cpu.P P_ZERO (decide (v = 0))) P_NEGATIVE (v.testBit 7) := by
    rw [hAFC_eq]; rfl
  refine ⟨by simp [hP], by simp [hP], ?_, ?_⟩
  · intro f hf
    simp only [List.mem_cons, List.mem_singleton, List.not_mem_nil, or_false] at hf
    rcases hf with h | h | h | h | h | h <;> subst h
    · exact land_two_pow_congr 0 (by simp [-Nat.testBit_zero, hP])
    · exact land_two_pow_congr 2 (by simp [hP])
    · exact land_two_pow_congr 3 (by simp [hP])
    · exact land_two_pow_congr 4 (by simp [hP])
    · exact land_two_pow_congr 5 (by simp [hP])
    · exact land_two_pow_congr 6 (by simp [hP])
  · conv => lhs; rw [hAFC_eq]
    rw [hP]

theorem ADC_entries : ∀ op ∈ [0x69, 0x65, 0x75, 0x6D, 0x7D, 0x79, 0x61, 0x71],
    (instruction_map op).implementation = some Behaviour.ADC ∧
    (instruction_map op).name ≠ "DONE" ∧ (instruction_map op).name ≠ "BRK" ∧
    (instruction_map op).addressing_mode ≠ AddressMode.IMPLICIT ∧
    (instruction_map op).addressing_mode ≠ AddressMode.ACCUMULATOR := by
  decide

/-- C2: one step on any of the eight `ADC` opcodes, with accumulator `a`, operand byte `m`
(the byte at the resolved location) and carry-in `c`: the accumulator becomes
`(a + m + c) mod 256`, Carry is set iff `a + m + c >= 256`, Overflow iff `a` and `m` agree in
bit 7 and the result differs from them there, Zero and Negative are those of the 8-bit
result; and `a = 0x50`, `m = 0x50`, `c = 0` give `0xA0` with Carry 0, Overflow 1,
Negative 1, Zero 0. -/
theorem ADC_step (e : Emulator) (opcode : Nat)
    (hop : opcode ∈ [0x69, 0x65, 0x75, 0x6D, 0x7D, 0x79, 0x61, 0x71])
    (hfetch : e.mem.readByte e.cpu.program_counter = opcode)
    (hA : e.cpu.accumulator < 256) (hM : ∀ a, e.mem.memory a < 256) :
    ∃ addr e', (e.handleAddressing opcode).2 = BytePtr.memory addr ∧
      e.cycle = some (true, e') ∧
      e'.cpu.accumulator = (e.cpu.accumulator + e.mem.memory addr + carryIn e.cpu.P) % 256 ∧
      (e'.cpu.P &&& P_CARRY ≠ 0 ↔
        256 ≤ e.cpu.accumulator + e.mem.memory addr + carryIn e.cpu.P) ∧
      (e'.cpu.P &&& P_OVERFLOW ≠ 0 ↔
        (e.cpu.accumulator.testBit 7 = (e.mem.memory addr).testBit 7 ∧
          ((e.cpu.accumulator + e.mem.memory addr + carryIn e.cpu.P) % 256).testBit 7 ≠
            e.cpu.accumulator.testBit 7)) ∧
      (e'.cpu.P &&& P_ZERO ≠ 0 ↔
        (e.cpu.accumulator + e.mem.memory addr + carryIn e.cpu.P) % 256 = 0) ∧
      (e'.cpu.P &&& P_NEGATIVE ≠ 0 ↔
        ((e.cpu.accumulator + e.mem.memory addr + carryIn e.cpu.P) % 256).testBit 7 = true) ∧
      (e.cpu.accumulator = 0x50 → e.mem.memory addr = 0x50 → carryIn e.cpu.P = 0 →
        e'.cpu.accumulator = 0xA0 ∧ e'.cpu.P &&& P_CARRY = 0 ∧ e'.cpu.P &&& P_OVERFLOW ≠ 0 ∧
          e'.cpu.P &&& P_NEGATIVE ≠ 0 ∧ e'.cpu.P &&& P_ZERO = 0) := by
  obtain ⟨hb, hn1, hn2, hm1, hm2⟩ := ADC_entries opcode hop
  obtain ⟨addr, hptr⟩ := handleAddressing_memory e opcode hm1 hm2
  obtain ⟨e1, hadc, hacc, hc, hv, hz, hn, -⟩ := ADC_behaviour e opcode addr hptr hA (hM addr)
  subst hfetch
  obtain ⟨e2, hcyc, hcpu, -⟩ := cycle_of_exec e e1 Behaviour.ADC hb hn1 hn2 hadc
  have hP2 : e2.cpu.P = e1.cpu.P := by rw [hcpu]
  have hA2 : e2.cpu.accumulator = e1.cpu.accumulator := by rw [hcpu]
  obtain ⟨fc, fz, -, -, -, -, fv, fn⟩ := flag_iff_testBit e2.cpu.P
  have hC : (e2.cpu.P &&& P_CARRY ≠ 0 ↔
      256 ≤ e.cpu.accumulator + e.mem.memory addr + carryIn e.cpu.P) := by
    rw [fc, hP2, hc]; simp [carryIn]
  have hV : (e2.cpu.P &&& P_OVERFLOW ≠ 0 ↔
      (e.cpu.accumulator.testBit 7 = (e.mem.memory addr).testBit 7 ∧
        ((e.cpu.accumulator + e.mem.memory addr + carryIn e.cpu.P) % 256).testBit 7 ≠
          e.cpu.accumulator.testBit 7)) := by
    rw [fv, hP2, hv]; simp [carryIn]
  have hZ : (e2.cpu.P &&& P_ZERO ≠ 0 ↔
      (e.cpu.accumulator + e.mem.memory addr + carryIn e.cpu.P) % 256 = 0) := by
    rw [fz, hP2, hz]; simp [carryIn]
  have hN : (e2.cpu.P &&& P_NEGATIVE ≠ 0 ↔
      ((e.cpu.accumulator + e.mem.memory addr + carryIn e.cpu.P) % 256).testBit 7 = true) := by
    rw [fn, hP2, hn]; simp [carryIn]
  have hAcc : e2.cpu.accumulator =
      (e.cpu.accumulator + e.mem.memory addr + carryIn e.cpu.P) % 256 := by
    rw [hA2, hacc]; simp [carryIn]
  refine ⟨addr, e2, hptr, hcyc, hAcc, hC, hV, hZ, hN, ?_⟩
  intro ha hm hc0
  rw [ha, hm, hc0] at hAcc hC hV hZ hN
  refine ⟨hAcc, ?_, ?_, ?_, ?_⟩
  · exact not_not.mp (fun h => absurd (hC.mp h) (by decide))
  · exact hV.mpr (by decide)
  · exact hN.mpr (by decide)
  · exact not_not.mp (fun h => absurd (hZ.mp h) (by decide))

/-- The worked example of C2: `ADC #$50` with accumulator `0x50` and Carry clear gives
`0xA0` with Carry 0, Overflow 1, Negative 1, Zero 0. -/
theorem ADC_step_witness :
    ∃ e', adcExample.cycle = some (true, e') ∧ e'.cpu.accumulator = 0xA0 ∧
      e'.cpu.P &&& P_CARRY = 0 ∧ e'.cpu.P &&& P_OVERFLOW ≠ 0 ∧
      e'.cpu.P &&& P_NEGATIVE ≠ 0 ∧ e'.cpu.P &&& P_ZERO = 0 := by
  obtain ⟨addr, e', hptr, hcyc, -, -, -, -, -, hex⟩ :=
    ADC_step adcExample 0x69 (by decide) (by decide) (by decide)
      (ofList_bytes _ (by decide))
  have haddr : addr = 0x0601 := by
    have : (adcExample.handleAddressing 0x69).2 = BytePtr.memory 0x0601 := by decide
    rw [this] at hptr
    exact (BytePtr.memory.inj hptr).symm
  subst haddr
  exact ⟨e', hcyc, hex (by decide) (by decide) (by decide)⟩


theorem SBC_entries : ∀ op ∈ [0xE9, 0xE5, 0xF5, 0xED, 0xFD, 0xF9, 0xE1, 0xF1],
    (instruction_map op).implementation = some Behaviour.SBC ∧
    (instruction_map op).name ≠ "DONE" ∧ (instruction_map op).name ≠ "BRK" ∧
    (instruction_map op).addressing_mode ≠ AddressMode.IMPLICIT ∧
    (instruction_map op).addressing_mode ≠ AddressMode.ACCUMULATOR := by
  decide

/-- C3: one step on any of the eight `SBC` opcodes, with accumulator `a`, operand byte `m`
and carry-in `c`: the accumulator becomes `(a - m - (1 - c)) mod 256`, Carry is set iff the
integer `a - m - (1 - c)` is not negative (no borrow) and cleared otherwise, Overflow iff `a`
and `m` differ in bit 7 and the result differs from `a` there, Zero and Negative are those of
the 8-bit result; and `a = 0x00`, `m = 0x01`, `c = 1` give `0xFF` with Carry 0 and
Negative 1. -/
theorem SBC_step (e : Emulator) (opcode : Nat)
    (hop : opcode ∈ [0xE9, 0xE5, 0xF5, 0xED, 0xFD, 0xF9, 0xE1, 0xF1])
    (hfetch : e.mem.readByte e.cpu.program_counter = opcode)
    (hA : e.cpu.accumulator < 256) (hM : ∀ a, e.mem.memory a < 256) :
    ∃ addr e', (e.handleAddressing opcode).2 = BytePtr.memory addr ∧
      e.cycle = some (true, e') ∧
      ((e'.cpu.accumulator : Nat) : Int) =
        ((e.cpu.accumulator : Int) - (e.mem.memory addr : Nat) -
          (1 - ((carryIn e.cpu.P : Nat) : Int))) % 256 ∧
      (e'.cpu.P &&& P_CARRY ≠ 0 ↔
        0 ≤ (e.cpu.accumulator : Int) - (e.mem.memory addr : Nat) -
          (1 - ((carryIn e.cpu.P : Nat) : Int))) ∧
      (e'.cpu.P &&& P_OVERFLOW ≠ 0 ↔
        (e.cpu.accumulator.testBit 7 ≠ (e.mem.memory addr).testBit 7 ∧
          e'.cpu.accumulator.testBit 7 ≠ e.cpu.accumulator.testBit 7)) ∧
      (e'.cpu.P &&& P_ZERO ≠ 0 ↔ e'.cpu.accumulator = 0) ∧
      (e'.cpu.P &&& P_NEGATIVE ≠ 0 ↔ e'.cpu.accumulator.testBit 7 = true) ∧
      (e.cpu.accumulator = 0x00 → e.mem.memory addr = 0x01 → carryIn e.cpu.P = 1 →
        e'.cpu.accumulator = 0xFF ∧ e'.cpu.P &&& P_CARRY = 0 ∧ e'.cpu.P &&& P_NEGATIVE ≠ 0) := by
  obtain ⟨hb, hn1, hn2, hm1, hm2⟩ := SBC_entries opcode hop
  obtain ⟨addr, hptr⟩ := handleAddressing_memory e opcode hm1 hm2
  obtain ⟨e1, hsbc, hacc, hc, hv, hz, hn, -⟩ := SBC_behaviour e opcode addr hptr hA (hM addr)
  subst hfetch
  obtain ⟨e2, hcyc, hcpu, -⟩ := cycle_of_exec e e1 Behaviour.SBC hb hn1 hn2 hsbc
  have hP2 : e2.cpu.P = e1.cpu.P := by rw [hcpu]
  have hA2 : e2.cpu.accumulator = e1.cpu.accumulator := by rw [hcpu]
  obtain ⟨fc, fz, -, -, -, -, fv, fn⟩ := flag_iff_testBit e2.cpu.P
  have hAcc : ((e2.cpu.accumulator : Nat) : Int) =
      ((e.cpu.accumulator : Int) - (e.mem.memory addr : Nat) -
        (1 - ((carryIn e.cpu.P : Nat) : Int))) % 256 := by
    rw [hA2, hacc]
    unfold byteOfInt
    omega
  have hC : (e2.cpu.P &&& P_CARRY ≠ 0 ↔
      0 ≤ (e.cpu.accumulator : Int) - (e.mem.memory addr : Nat) -
        (1 - ((carryIn e.cpu.P : Nat) : Int))) := by
    rw [fc, hP2, hc]; simp
  have hV : (e2.cpu.P &&& P_OVERFLOW ≠ 0 ↔
      (e.cpu.accumulator.testBit 7 ≠ (e.mem.memory addr).testBit 7 ∧
        e2.cpu.accumulator.testBit 7 ≠ e.cpu.accumulator.testBit 7)) := by
    rw [fv, hP2, hA2, hv]; simp
  have hZ : (e2.cpu.P &&& P_ZERO ≠ 0 ↔ e2.cpu.accumulator = 0) := by
    rw [fz, hP2, hA2, hz]; simp
  have hN : (e2.cpu.P &&& P_NEGATIVE ≠ 0 ↔ e2.cpu.accumulator.testBit 7 = true) := by
    rw [fn, hP2, hA2, hn]
  refine ⟨addr, e2, hptr, hcyc, hAcc, hC, hV, hZ, hN, ?_⟩
  intro ha hm hc1
  rw [ha, hm, hc1] at hAcc hC
  have h255 : e2.cpu.accumulator = 0xFF := by omega
  refine ⟨h255, ?_, ?_⟩
  · exact not_not.mp (fun h => absurd (hC.mp h) (by decide))
  · exact hN.mpr (by rw [h255]; decide)

/-- The worked example of C3: `SBC #$01` with accumulator `0x00` and Carry set gives `0xFF`
with Carry 0 (a borrow) and Negative 1. -/
theorem SBC_step_witness :
    ∃ e', sbcExample.cycle = some (true, e') ∧ e'.cpu.accumulator = 0xFF ∧
      e'.cpu.P &&& P_CARRY = 0 ∧ e'.cpu.P &&& P_NEGATIVE ≠ 0 := by
  obtain ⟨addr, e', hptr, hcyc, -, -, -, -, -, hex⟩ :=
    SBC_step sbcExample 0xE9 (by decide) (by decide) (by decide)
      (ofList_bytes _ (by decide))
  have haddr : addr = 0x0601 := by
    have : (sbcExample.handleAddressing 0xE9).2 = BytePtr.memory 0x0601 := by decide
    rw [this] at hptr
    exact (BytePtr.memory.inj hptr).symm
  subst haddr
  exact ⟨e', hcyc, hex (by decide) (by decide) (by decide)⟩


theorem compare_entries :
    (∀ op ∈ [0xC9, 0xC5, 0xD5, 0xCD, 0xDD, 0xD9, 0xC1, 0xD1],
      (instruction_map op).implementation = some Behaviour.CMP ∧
      (instruction_map op).name ≠ "DONE" ∧ (instruction_map op).name ≠ "BRK" ∧
      (instruction_map op).addressing_mode ≠ AddressMode.IMPLICIT ∧
      (instruction_map op).addressing_mode ≠ AddressMode.ACCUMULATOR) ∧
    (∀ op ∈ [0xE0, 0xE4, 0xEC],
      (instruction_map op).implementation = some Behaviour.CPX ∧
      (instruction_map op).name ≠ "DONE" ∧ (instruction_map op).name ≠ "BRK" ∧
      (instruction_map op).addressing_mode ≠ AddressMode.IMPLICIT ∧
      (instruction_map op).addressing_mode ≠ AddressMode.ACCUMULATOR) ∧
    (∀ op ∈ [0xC0, 0xC4, 0xCC],
      (instruction_map op).implementation = some Behaviour.CPY ∧
      (instruction_map op).name ≠ "DONE" ∧ (instruction_map op).name ≠ "BRK" ∧
      (instruction_map op).addressing_mode ≠ AddressMode.IMPLICIT ∧
      (instruction_map op).addressing_mode ≠ AddressMode.ACCUMULATOR) := by
  decide

/-- The outcome shared by the three compare instructions, from what the behaviour left. -/
theorem compare_finish (e e1 : Emulator) (b : Behaviour) (r m : Nat)
    (hb : (instruction_map (e.mem.readByte e.cpu.program_counter)).implementation = some b)
    (hn1 : (instruction_map (e.mem.readByte e.cpu.program_counter)).name ≠ "DONE")
    (hn2 : (instruction_map (e.mem.readByte e.cpu.program_counter)).name ≠ "BRK")
    (hx : e.exec (e.mem.readByte e.cpu.program_counter) b = some e1)
    (h1 : e1.cpu.P.testBit 1 = decide (r = m)) (h0 : e1.cpu.P.testBit 0 = decide (m ≤ r))
    (h7 : e1.cpu.P.testBit 7 = (byteOfInt ((r : Int) - (m : Nat))).testBit 7)
    (hrest : ∀ i, i = 2 ∨ i = 3 ∨ i = 4 ∨ i = 5 ∨ i = 6 →
      e1.cpu.P.testBit i = e.cpu.P.testBit i)
    (hA : e1.cpu.accumulator = e.cpu.accumulator) (hX : e1.cpu.X = e.cpu.X)
    (hY : e1.cpu.Y = e.cpu.Y) (hS : e1.cpu.S = e.cpu.S) (hM : e1.mem = e.mem) :
    ∃ e', e.cycle = some (true, e') ∧
      (e'.cpu.P &&& P_ZERO ≠ 0 ↔ r = m) ∧
      (e'.cpu.P &&& P_CARRY ≠ 0 ↔ m ≤ r) ∧
      (e'.cpu.P &&& P_NEGATIVE ≠ 0 ↔ (byteOfInt ((r : Int) - (m : Nat))).testBit 7 = true) ∧
      e'.cpu.accumulator = e.cpu.accumulator ∧ e'.cpu.X = e.cpu.X ∧ e'.cpu.Y = e.cpu.Y ∧
      e'.cpu.S = e.cpu.S ∧ e'.mem = e.mem ∧
      (∀ f ∈ [P_INT_DISABLE, P_DECIMAL, P_BREAK, P_UNUSED, P_OVERFLOW],
        e'.cpu.P &&& f = e.cpu.P &&& f) := by
  obtain ⟨e2, hcyc, hcpu, hmem, -⟩ := cycle_of_exec e e1 b hb hn1 hn2 hx
  have hP2 : e2.cpu.P = e1.cpu.P := by rw [hcpu]
  obtain ⟨fc, fz, -, -, -, -, -, fn⟩ := flag_iff_testBit e2.cpu.P
  obtain ⟨-, -, m2, m3, m4, m5, m6, -⟩ := flag_masks_eq e2.cpu.P e.cpu.P
  refine ⟨e2, hcyc, ?_, ?_, ?_, ?_, ?_, ?_, ?_, ?_, ?_⟩
  · rw [fz, hP2, h1]; simp
  · rw [fc, hP2, h0]; simp
  · rw [fn, hP2, h7]
  · rw [hcpu]; exact hA
  · rw [hcpu]; exact hX
  · rw [hcpu]; exact hY
  · rw [hcpu]; exact hS
  · rw [hmem]; exact hM
  · intro f hf
    simp only [List.mem_cons, List.mem_singleton, List.not_mem_nil, or_false] at hf
    rcases hf with h | h | h | h | h <;> subst h
    · exact m2 (by rw [hP2]; exact hrest 2 (by simp))
    · exact m3 (by rw [hP2]; exact hrest 3 (by simp))
    · exact m4 (by rw [hP2]; exact hrest 4 (by simp))
    · exact m5 (by rw [hP2]; exact hrest 5 (by simp))
    · exact m6 (by rw [hP2]; exact hrest 6 (by simp))

/-- C4: one step on any `CMP`, `CPX` or `CPY` opcode, with `r` the compared register
(accumulator, X or Y) and `m` the operand byte: Zero is set iff `r == m`, Carry iff `r >= m`,
Negative is bit 7 of `(r - m) mod 256`; the three registers, the stack pointer, the address
space and the five remaining flags (Overflow among them) are unchanged. -/
theorem compare_step (e : Emulator) (opcode r : Nat)
    (hfetch : e.mem.readByte e.cpu.program_counter = opcode)
    (hreg : (opcode ∈ [0xC9, 0xC5, 0xD5, 0xCD, 0xDD, 0xD9, 0xC1, 0xD1] ∧ r = e.cpu.accumulator) ∨
      (opcode ∈ [0xE0, 0xE4, 0xEC] ∧ r = e.cpu.X) ∨
      (opcode ∈ [0xC0, 0xC4, 0xCC] ∧ r = e.cpu.Y)) :
    ∃ addr e', (e.handleAddressing opcode).2 = BytePtr.memory addr ∧
      e.cycle = some (true, e') ∧
      (e'.cpu.P &&& P_ZERO ≠ 0 ↔ r = e.mem.memory addr) ∧
      (e'.cpu.P &&& P_CARRY ≠ 0 ↔ e.mem.memory addr ≤ r) ∧
      (e'.cpu.P &&& P_NEGATIVE ≠ 0 ↔
        (byteOfInt ((r : Int) - (e.mem.memory addr : Nat))).testBit 7 = true) ∧
      e'.cpu.accumulator = e.cpu.accumulator ∧ e'.cpu.X = e.cpu.X ∧ e'.cpu.Y = e.cpu.Y ∧
      e'.cpu.S = e.cpu.S ∧ e'.mem = e.mem ∧
      (∀ f ∈ [P_INT_DISABLE, P_DECIMAL, P_BREAK, P_UNUSED, P_OVERFLOW],
        e'.cpu.P &&& f = e.cpu.P &&& f) := by
  obtain ⟨hcmp, hcpx, hcpy⟩ := compare_entries
  subst hfetch
  rcases hreg with ⟨hop, hr⟩ | ⟨hop, hr⟩ | ⟨hop, hr⟩ <;> subst hr
  · obtain ⟨hb, hn1, hn2, hm1, hm2⟩ := hcmp _ hop
    obtain ⟨addr, hptr⟩ := handleAddressing_memory e _ hm1 hm2
    obtain ⟨e1, hx, h1, h0, h7, hrest, hA, hX, hY, hS, hM⟩ := CMP_behaviour e _ addr hptr
    obtain ⟨e', h⟩ := compare_finish e e1 Behaviour.CMP _ _ hb hn1 hn2 hx h1 h0 h7 hrest
      hA hX hY hS hM
    exact ⟨addr, e', hptr, h⟩
  · obtain ⟨hb, hn1, hn2, hm1, hm2⟩ := hcpx _ hop
    obtain ⟨addr, hptr⟩ := handleAddressing_memory e _ hm1 hm2
    obtain ⟨e1, hx, h1, h0, h7, hrest, hA, hX, hY, hS, hM⟩ := CPX_behaviour e _ addr hptr
    obtain ⟨e', h⟩ := compare_finish e e1 Behaviour.CPX _ _ hb hn1 hn2 hx h1 h0 h7 hrest
      hA hX hY hS hM
    exact ⟨addr, e', hptr, h⟩
  · obtain ⟨hb, hn1, hn2, hm1, hm2⟩ := hcpy _ hop
    obtain ⟨addr, hptr⟩ := handleAddressing_memory e _ hm1 hm2
    obtain ⟨e1, hx, h1, h0, h7, hrest, hA, hX, hY, hS, hM⟩ := CPY_behaviour e _ addr hptr
    obtain ⟨e', h⟩ := compare_finish e e1 Behaviour.CPY _ _ hb hn1 hn2 hx h1 h0 h7 hrest
      hA hX hY hS hM
    exact ⟨addr, e', hptr, h⟩

/-- An instance of C4: `CMP #$10` with the accumulator at `0x10` sets Zero and Carry, clears
Negative and leaves the accumulator alone. -/
theorem compare_step_witness :
    ∃ e', cmpExample.cycle = some (true, e') ∧ e'.cpu.P &&& P_ZERO ≠ 0 ∧
      e'.cpu.P &&& P_CARRY ≠ 0 ∧ ¬ (e'.cpu.P &&& P_NEGATIVE ≠ 0) ∧ e'.cpu.accumulator = 0x10 := by
  obtain ⟨addr, e', hptr, hcyc, hz, hc, hn, ha, -⟩ :=
    compare_step cmpExample 0xC9 0x10 (by decide) (Or.inl ⟨by decide, by decide⟩)
  have haddr : addr = 0x0601 := by
    have : (cmpExample.handleAddressing 0xC9).2 = BytePtr.memory 0x0601 := by decide
    rw [this] at hptr
    exact (BytePtr.memory.inj hptr).symm
  subst haddr
  exact ⟨e', hcyc, hz.mpr (by decide), hc.mpr (by decide),
    fun h => absurd (hn.mp h) (by decide), ha.trans (by decide)⟩

theorem BIT_entries : ∀ op ∈ [0x24, 0x2C],
    (instruction_map op).implementation = some Behaviour.BIT ∧
    (instruction_map op).name ≠ "DONE" ∧ (instruction_map op).name ≠ "BRK" ∧
    (instruction_map op).addressing_mode ≠ AddressMode.IMPLICIT ∧
    (instruction_map op).addressing_mode ≠ AddressMode.ACCUMULATOR := by
  decide

/-- C5: one step on either `BIT` opcode, with accumulator `a` and operand byte `m`: Zero is
set iff `(a AND m) == 0`, Negative is bit 7 of `m`, Overflow is bit 6 of `m`; the
accumulator, X, Y, the stack pointer, the address space and the flags Carry,
Interrupt-Disable, Decimal, Break and Unused are unchanged. -/
theorem BIT_step (e : Emulator) (opcode : Nat) (hop : opcode ∈ [0x24, 0x2C])
    (hfetch : e.mem.readByte e.cpu.program_counter = opcode)
    (hA : e.cpu.accumulator < 256) :
    ∃ addr e', (e.handleAddressing opcode).2 = BytePtr.memory addr ∧
      e.cycle = some (true, e') ∧
      (e'.cpu.P &&& P_ZERO ≠ 0 ↔ e.cpu.accumulator &&& e.mem.memory addr = 0) ∧
      (e'.cpu.P &&& P_NEGATIVE ≠ 0 ↔ (e.mem.memory addr).testBit 7 = true) ∧
      (e'.cpu.P &&& P_OVERFLOW ≠ 0 ↔ (e.mem.memory addr).testBit 6 = true) ∧
      e'.cpu.accumulator = e.cpu.accumulator ∧ e'.cpu.X = e.cpu.X ∧ e'.cpu.Y = e.cpu.Y ∧
      e'.cpu.S = e.cpu.S ∧ e'.mem = e.mem ∧
      (∀ f ∈ [P_CARRY, P_INT_DISABLE, P_DECIMAL, P_BREAK, P_UNUSED],
        e'.cpu.P &&& f = e.cpu.P &&& f) := by
  obtain ⟨hb, hn1, hn2, hm1, hm2⟩ := BIT_entries opcode hop
  obtain ⟨addr, hptr⟩ := handleAddressing_memory e opcode hm1 hm2
  obtain ⟨e1, hx, h1, h7, h6, hrest, hA1, hX, hY, hS, hM⟩ := BIT_behaviour e opcode addr hptr
  subst hfetch
  obtain ⟨e2, hcyc, hcpu, hmem, -⟩ := cycle_of_exec e e1 Behaviour.BIT hb hn1 hn2 hx
  have hP2 : e2.cpu.P = e1.cpu.P := by rw [hcpu]
  obtain ⟨-, fz, -, -, -, -, fv, fn⟩ := flag_iff_testBit e2.cpu.P
  obtain ⟨m0, -, m2, m3, m4, m5, -, -⟩ := flag_masks_eq e2.cpu.P e.cpu.P
  have hlt : e.cpu.accumulator &&& e.mem.memory addr < 256 :=
    lt_of_le_of_lt Nat.and_le_left hA
  refine ⟨addr, e2, hptr, hcyc, ?_, ?_, ?_, ?_, ?_, ?_, ?_, ?_, ?_⟩
  · rw [fz, hP2, h1, Nat.mod_eq_of_lt hlt]; simp
  · rw [fn, hP2, h7]
  · rw [fv, hP2, h6]
  · rw [hcpu]; exact hA1
  · rw [hcpu]; exact hX
  · rw [hcpu]; exact hY
  · rw [hcpu]; exact hS
  · rw [hmem]; exact hM
  · intro f hf
    simp only [List.mem_cons, List.mem_singleton, List.not_mem_nil, or_false] at hf
    rcases hf with h | h | h | h | h <;> subst h
    · exact m0 (by rw [hP2]; exact hrest 0 (by simp))
    · exact m2 (by rw [hP2]; exact hrest 2 (by simp))
    · exact m3 (by rw [hP2]; exact hrest 3 (by simp))
    · exact m4 (by rw [hP2]; exact hrest 4 (by simp))
    · exact m5 (by rw [hP2]; exact hrest 5 (by simp))

/-- An instance of C5: `BIT $10` with the accumulator at `0x01` and the byte `0xC0` at
address `0x10` sets Zero, Negative and Overflow and leaves the accumulator alone. -/
theorem BIT_step_witness :
    ∃ e', bitExample.cycle = some (true, e') ∧ e'.cpu.P &&& P_ZERO ≠ 0 ∧
      e'.cpu.P &&& P_NEGATIVE ≠ 0 ∧ e'.cpu.P &&& P_OVERFLOW ≠ 0 ∧ e'.cpu.accumulator = 0x01 := by
  obtain ⟨addr, e', hptr, hcyc, hz, hn, hv, ha, -⟩ :=
    BIT_step bitExample 0x24 (by decide) (by decide) (by decide)
  have haddr : addr = 0x0010 := by
    have : (bitExample.handleAddressing 0x24).2 = BytePtr.memory 0x0010 := by decide
    rw [this] at hptr
    exact (BytePtr.memory.inj hptr).symm
  subst haddr
  exact ⟨e', hcyc, hz.mpr (by decide), hn.mpr (by decide), hv.mpr (by decide),
    ha.trans (by decide)⟩


theorem shift_entries :
    (∀ op ∈ [0x0A, 0x06, 0x16, 0x0E, 0x1E],
      (instruction_map op).implementation = some Behaviour.ASL) ∧
    (∀ op ∈ [0x4A, 0x46, 0x56, 0x4E, 0x5E],
      (instruction_map op).implementation = some Behaviour.LSR) ∧
    (∀ op ∈ [0x2A, 0x26, 0x36, 0x2E, 0x3E],
      (instruction_map op).implementation = some Behaviour.ROL) ∧
    (∀ op ∈ [0x6A, 0x66, 0x76, 0x6E, 0x7E],
      (instruction_map op).implementation = some Behaviour.ROR) ∧
    (∀ op ∈ [0x0A, 0x06, 0x16, 0x0E, 0x1E, 0x4A, 0x46, 0x56, 0x4E, 0x5E,
        0x2A, 0x26, 0x36, 0x2E, 0x3E, 0x6A, 0x66, 0x76, 0x6E, 0x7E],
      (instruction_map op).name ≠ "DONE" ∧ (instruction_map op).name ≠ "BRK" ∧
      (instruction_map op).addressing_mode ≠ AddressMode.IMPLICIT ∧
      (op ∈ [0x0A, 0x4A, 0x2A, 0x6A] →
        (instruction_map op).addressing_mode = AddressMode.ACCUMULATOR) ∧
      (op ∉ [0x0A, 0x4A, 0x2A, 0x6A] →
        (instruction_map op).addressing_mode ≠ AddressMode.ACCUMULATOR)) := by
  decide

/-- The four lists of shift and rotate opcodes have no opcode in common. -/
theorem shift_lists_disjoint : ∀ op ∈ [0x0A, 0x06, 0x16, 0x0E, 0x1E, 0x4A, 0x46, 0x56, 0x4E,
      0x5E, 0x2A, 0x26, 0x36, 0x2E, 0x3E, 0x6A, 0x66, 0x76, 0x6E, 0x7E],
    (op ∈ [0x0A, 0x06, 0x16, 0x0E, 0x1E] ∨ op ∈ [0x4A, 0x46, 0x56, 0x4E, 0x5E] ∨
      op ∈ [0x2A, 0x26, 0x36, 0x2E, 0x3E] ∨ op ∈ [0x6A, 0x66, 0x76, 0x6E, 0x7E]) ∧
    ¬ (op ∈ [0x0A, 0x06, 0x16, 0x0E, 0x1E] ∧ op ∈ [0x4A, 0x46, 0x56, 0x4E, 0x5E]) ∧
    ¬ (op ∈ [0x0A, 0x06, 0x16, 0x0E, 0x1E] ∧ op ∈ [0x2A, 0x26, 0x36, 0x2E, 0x3E]) ∧
    ¬ (op ∈ [0x0A, 0x06, 0x16, 0x0E, 0x1E] ∧ op ∈ [0x6A, 0x66, 0x76, 0x6E, 0x7E]) ∧
    ¬ (op ∈ [0x4A, 0x46, 0x56, 0x4E, 0x5E] ∧ op ∈ [0x2A, 0x26, 0x36, 0x2E, 0x3E]) ∧
    ¬ (op ∈ [0x4A, 0x46, 0x56, 0x4E, 0x5E] ∧ op ∈ [0x6A, 0x66, 0x76, 0x6E, 0x7E]) ∧
    ¬ (op ∈ [0x2A, 0x26, 0x36, 0x2E, 0x3E] ∧ op ∈ [0x6A, 0x66, 0x76, 0x6E, 0x7E]) := by
  decide

/-- The end of a step for a shift or rotate: from what the behaviour left to the claim. -/
theorem shift_finish (e e1 : Emulator) (b : Behaviour) (v w k : Nat)
    (hb : (instruction_map (e.mem.readByte e.cpu.program_counter)).implementation = some b)
    (hn1 : (instruction_map (e.mem.readByte e.cpu.program_counter)).name ≠ "DONE")
    (hn2 : (instruction_map (e.mem.readByte e.cpu.program_counter)).name ≠ "BRK")
    (hx : e.exec (e.mem.readByte e.cpu.program_counter) b = some e1)
    (hw : e1.deref (e.handleAddressing (e.mem.readByte e.cpu.program_counter)).2 = some w)
    (h0 : e1.cpu.P.testBit 0 = v.testBit k)
    (h1 : e1.cpu.P.testBit 1 = decide (w = 0))
    (h7 : e1.cpu.P.testBit 7 = w.testBit 7)
    (hX : e1.cpu.X = e.cpu.X) (hY : e1.cpu.Y = e.cpu.Y) (hS : e1.cpu.S = e.cpu.S)
    (hM : ∀ a, (e.handleAddressing (e.mem.readByte e.cpu.program_counter)).2 ≠
      BytePtr.memory a → e1.mem.memory a = e.mem.memory a)
    (hA : (e.handleAddressing (e.mem.readByte e.cpu.program_counter)).2 ≠
      BytePtr.accumulator → e1.cpu.accumulator = e.cpu.accumulator) :
    ∃ e', e.cycle = some (true, e') ∧
      e'.deref (e.handleAddressing (e.mem.readByte e.cpu.program_counter)).2 = some w ∧
      (e'.cpu.P &&& P_CARRY ≠ 0 ↔ v.testBit k = true) ∧
      (e'.cpu.P &&& P_ZERO ≠ 0 ↔ w = 0) ∧
      (e'.cpu.P &&& P_NEGATIVE ≠ 0 ↔ w.testBit 7 = true) ∧
      e'.cpu.X = e.cpu.X ∧ e'.cpu.Y = e.cpu.Y ∧ e'.cpu.S = e.cpu.S ∧
      (∀ a, (e.handleAddressing (e.mem.readByte e.cpu.program_counter)).2 ≠
        BytePtr.memory a → e'.mem.memory a = e.mem.memory a) ∧
      ((e.handleAddressing (e.mem.readByte e.cpu.program_counter)).2 ≠
        BytePtr.accumulator → e'.cpu.accumulator = e.cpu.accumulator) := by
  obtain ⟨e2, hcyc, hcpu, hmem, -⟩ := cycle_of_exec e e1 b hb hn1 hn2 hx
  have hP2 : e2.cpu.P = e1.cpu.P := by rw [hcpu]
  obtain ⟨fc, fz, -, -, -, -, -, fn⟩ := flag_iff_testBit e2.cpu.P
  refine ⟨e2, hcyc, ?_, ?_, ?_, ?_, ?_, ?_, ?_, ?_, ?_⟩
  · rw [deref_of_cycle e1 e2 _ hcpu hmem]; exact hw
  · rw [fc, hP2, h0]
  · rw [fz, hP2, h1]; simp
  · rw [fn, hP2, h7]
  · rw [hcpu]; exact hX
  · rw [hcpu]; exact hY
  · rw [hcpu]; exact hS
  · intro a ha; rw [hmem]; exact hM a ha
  · intro ha; rw [hcpu]; exact hA ha


/-- C6: one step on any shift or rotate opcode, with `v` the operand byte (in memory or, in
accumulator mode, the accumulator) and `c` the carry-in. `ASL` stores `(2v) mod 256` with
Carry bit 7 of `v`; `LSR` stores `v / 2` with Carry bit 0 of `v`; `ROL` stores
`(2v) mod 256 + c` with Carry bit 7 of `v`; `ROR` stores `v / 2 + 128 c` with Carry bit 0 of
`v`. Zero and Negative are those of the stored byte `w`, which is written to the location
`v` was read from; nothing else in the address space or the registers X, Y, S is written. -/
theorem shift_rotate_step (e : Emulator) (opcode : Nat)
    (hop : opcode ∈ [0x0A, 0x06, 0x16, 0x0E, 0x1E, 0x4A, 0x46, 0x56, 0x4E, 0x5E,
      0x2A, 0x26, 0x36, 0x2E, 0x3E, 0x6A, 0x66, 0x76, 0x6E, 0x7E])
    (hfetch : e.mem.readByte e.cpu.program_counter = opcode)
    (hA : e.cpu.accumulator < 256) (hM : ∀ a, e.mem.memory a < 256) :
    ∃ v w e', e.deref (e.handleAddressing opcode).2 = some v ∧
      e.cycle = some (true, e') ∧
      e'.deref (e.handleAddressing opcode).2 = some w ∧
      (opcode ∈ [0x0A, 0x06, 0x16, 0x0E, 0x1E] →
        w = 2 * v % 256 ∧ (e'.cpu.P &&& P_CARRY ≠ 0 ↔ v.testBit 7 = true)) ∧
      (opcode ∈ [0x4A, 0x46, 0x56, 0x4E, 0x5E] →
        w = v / 2 ∧ (e'.cpu.P &&& P_CARRY ≠ 0 ↔ v.testBit 0 = true)) ∧
      (opcode ∈ [0x2A, 0x26, 0x36, 0x2E, 0x3E] →
        w = 2 * v % 256 + carryIn e.cpu.P ∧ (e'.cpu.P &&& P_CARRY ≠ 0 ↔ v.testBit 7 = true)) ∧
      (opcode ∈ [0x6A, 0x66, 0x76, 0x6E, 0x7E] →
        w = v / 2 + 128 * carryIn e.cpu.P ∧ (e'.cpu.P &&& P_CARRY ≠ 0 ↔ v.testBit 0 = true)) ∧
      (e'.cpu.P &&& P_ZERO ≠ 0 ↔ w = 0) ∧
      (e'.cpu.P &&& P_NEGATIVE ≠ 0 ↔ w.testBit 7 = true) ∧
      (opcode ∈ [0x0A, 0x4A, 0x2A, 0x6A] →
        (e.handleAddressing opcode).2 = BytePtr.accumulator) ∧
      (opcode ∉ [0x0A, 0x4A, 0x2A, 0x6A] →
        ∃ addr, (e.handleAddressing opcode).2 = BytePtr.memory addr) ∧
      e'.cpu.X = e.cpu.X ∧ e'.cpu.Y = e.cpu.Y ∧ e'.cpu.S = e.cpu.S ∧
      (∀ a, (e.handleAddressing opcode).2 ≠ BytePtr.memory a →
        e'.mem.memory a = e.mem.memory a) ∧
      ((e.handleAddressing opcode).2 ≠ BytePtr.accumulator →
        e'.cpu.accumulator = e.cpu.accumulator) := by
  obtain ⟨hasl, hlsr, hrol, hror, hall⟩ := shift_entries
  obtain ⟨hn1, hn2, hm1, hacc, hnacc⟩ := hall opcode hop
  obtain ⟨hcase, d1, d2, d3, d4, d5, d6⟩ := shift_lists_disjoint opcode hop
  have hpacc : opcode ∈ [0x0A, 0x4A, 0x2A, 0x6A] →
      (e.handleAddressing opcode).2 = BytePtr.accumulator :=
    fun h => handleAddressing_accumulator e opcode (hacc h)
  have hpmem : opcode ∉ [0x0A, 0x4A, 0x2A, 0x6A] →
      ∃ addr, (e.handleAddressing opcode).2 = BytePtr.memory addr :=
    fun h => handleAddressing_memory e opcode hm1 (hnacc h)
  have hv : ∃ v, v < 256 ∧ e.deref (e.handleAddressing opcode).2 = some v := by
    by_cases h : opcode ∈ [0x0A, 0x4A, 0x2A, 0x6A]
    · exact ⟨e.cpu.accumulator, hA, by rw [hpacc h]; rfl⟩
    · obtain ⟨addr, haddr⟩ := hpmem h
      exact ⟨e.mem.memory addr, hM addr, by rw [haddr]; rfl⟩
  obtain ⟨v, hv256, hd⟩ := hv
  subst hfetch
  rcases hcase with h | h | h | h
  · obtain ⟨e1, hx, hw, h0, h1, h7, -, hX, hY, hS, hMem, hAcc⟩ := ASL_behaviour e _ v hv256 hd
    obtain ⟨e', hcyc, hw', hC, hZ, hN, hX', hY', hS', hM', hA'⟩ :=
      shift_finish e e1 Behaviour.ASL v _ 7 (hasl _ h) hn1 hn2 hx hw h0 h1 h7 hX hY hS hMem hAcc
    exact ⟨v, _, e', hd, hcyc, hw', fun _ => ⟨rfl, hC⟩, fun g => absurd ⟨h, g⟩ d1,
      fun g => absurd ⟨h, g⟩ d2, fun g => absurd ⟨h, g⟩ d3, hZ, hN, hpacc, hpmem,
      hX', hY', hS', hM', hA'⟩
  · obtain ⟨e1, hx, hw, h0, h1, h7, -, hX, hY, hS, hMem, hAcc⟩ := LSR_behaviour e _ v hv256 hd
    obtain ⟨e', hcyc, hw', hC, hZ, hN, hX', hY', hS', hM', hA'⟩ :=
      shift_finish e e1 Behaviour.LSR v _ 0 (hlsr _ h) hn1 hn2 hx hw h0 h1 h7 hX hY hS hMem hAcc
    exact ⟨v, _, e', hd, hcyc, hw', fun g => absurd ⟨g, h⟩ d1, fun _ => ⟨rfl, hC⟩,
      fun g => absurd ⟨h, g⟩ d4, fun g => absurd ⟨h, g⟩ d5, hZ, hN, hpacc, hpmem,
      hX', hY', hS', hM', hA'⟩
  · obtain ⟨e1, hx, hw, h0, h1, h7, -, hX, hY, hS, hMem, hAcc⟩ := ROL_behaviour e _ v hv256 hd
    obtain ⟨e', hcyc, hw', hC, hZ, hN, hX', hY', hS', hM', hA'⟩ :=
      shift_finish e e1 Behaviour.ROL v _ 7 (hrol _ h) hn1 hn2 hx hw h0 h1 h7 hX hY hS hMem hAcc
    exact ⟨v, _, e', hd, hcyc, hw', fun g => absurd ⟨g, h⟩ d2, fun g => absurd ⟨g, h⟩ d4,
      fun _ => ⟨rfl, hC⟩, fun g => absurd ⟨h, g⟩ d6, hZ, hN, hpacc, hpmem,
      hX', hY', hS', hM', hA'⟩
  · obtain ⟨e1, hx, hw, h0, h1, h7, -, hX, hY, hS, hMem, hAcc⟩ := ROR_behaviour e _ v hv256 hd
    obtain ⟨e', hcyc, hw', hC, hZ, hN, hX', hY', hS', hM', hA'⟩ :=
      shift_finish e e1 Behaviour.ROR v _ 0 (hror _ h) hn1 hn2 hx hw h0 h1 h7 hX hY hS hMem hAcc
    exact ⟨v, _, e', hd, hcyc, hw', fun g => absurd ⟨g, h⟩ d3, fun g => absurd ⟨g, h⟩ d5,
      fun g => absurd ⟨g, h⟩ d6, fun _ => ⟨rfl, hC⟩, hZ, hN, hpacc, hpmem,
      hX', hY', hS', hM', hA'⟩

/-- An instance of C6: `ROL A` with the accumulator at `0x81` and Carry set leaves `0x03` in
the accumulator and Carry set. -/
theorem shift_rotate_step_witness :
    ∃ e', rolExample.cycle = some (true, e') ∧ e'.cpu.accumulator = 0x03 ∧
      e'.cpu.P &&& P_CARRY ≠ 0 := by
  obtain ⟨v, w, e', hv, hcyc, hw, -, -, hrol, -, -, -, -, -⟩ :=
    shift_rotate_step rolExample 0x2A (by decide) (by decide) (by decide)
      (ofList_bytes _ (by decide))
  have hp : (rolExample.handleAddressing 0x2A).2 = BytePtr.accumulator := by decide
  rw [hp] at hv hw
  have hv' : v = 0x81 := by
    have : rolExample.deref BytePtr.accumulator = some 0x81 := by decide
    rw [this] at hv
    exact (Option.some.inj hv).symm
  obtain ⟨hw', hC⟩ := hrol (by decide)
  subst hv'
  have hacc : e'.cpu.accumulator = w := Option.some.inj hw
  refine ⟨e', hcyc, ?_, hC.mpr (by decide)⟩
  rw [hacc, hw']
  decide


/-- A branch behaviour: the Relative resolver followed by `branchIf`. -/
theorem branch_behaviour (e : Emulator) (opcode : Nat) (c : Bool)
    (hmode : (instruction_map opcode).addressing_mode = .RELATIVE) :
    (e.handleAddressing opcode).1.branchIf c (e.handleAddressing opcode).2 =
      some (e.setPC (if c then
        wordOfInt ((((e.cpu.program_counter + 1) % 65536 : Nat) : Int) +
          toSignedByte (e.mem.memory ((e.cpu.program_counter + 1) % 65536))) % 65536
        else (e.cpu.program_counter + 1) % 65536)) := by
  unfold handleAddressing
  rw [hmode]
  cases c <;> simp [relative, branchIf, incPC, setPC, offsetOf, Memory.readByte]

theorem branch_entries :
    (instruction_map 0x90).implementation = some Behaviour.BCC ∧
    (instruction_map 0xB0).implementation = some Behaviour.BCS ∧
    (instruction_map 0xF0).implementation = some Behaviour.BEQ ∧
    (instruction_map 0x30).implementation = some Behaviour.BMI ∧
    (instruction_map 0xD0).implementation = some Behaviour.BNE ∧
    (instruction_map 0x10).implementation = some Behaviour.BPL ∧
    (instruction_map 0x50).implementation = some Behaviour.BVC ∧
    (instruction_map 0x70).implementation = some Behaviour.BVS ∧
    (∀ op ∈ [0x90, 0xB0, 0xF0, 0x30, 0xD0, 0x10, 0x50, 0x70],
      (instruction_map op).name ≠ "DONE" ∧ (instruction_map op).name ≠ "BRK" ∧
      (instruction_map op).addressing_mode = AddressMode.RELATIVE) := by
  decide

/-- The counter after a taken branch and the end-of-step increment. -/
theorem branch_target (p : Nat) (s : Int) :
    (((wordOfInt ((((p + 1) % 65536 : Nat) : Int) + s) % 65536 + 1) % 65536 : Nat) : Int) =
      ((p : Int) + 2 + s) % 65536 := by
  unfold wordOfInt
  omega

/-- The end of a step for a branch: from the behaviour to the claim. -/
theorem branch_finish (e : Emulator) (b : Behaviour) (c : Bool)
    (hb : (instruction_map (e.mem.readByte e.cpu.program_counter)).implementation = some b)
    (hn1 : (instruction_map (e.mem.readByte e.cpu.program_counter)).name ≠ "DONE")
    (hn2 : (instruction_map (e.mem.readByte e.cpu.program_counter)).name ≠ "BRK")
    (hmode : (instruction_map (e.mem.readByte e.cpu.program_counter)).addressing_mode =
      .RELATIVE)
    (hx : e.exec (e.mem.readByte e.cpu.program_counter) b =
      (e.handleAddressing (e.mem.readByte e.cpu.program_counter)).1.branchIf c
        (e.handleAddressing (e.mem.readByte e.cpu.program_counter)).2) :
    ∃ e', e.cycle = some (true, e') ∧
      ((e'.cpu.program_counter : Nat) : Int) =
        (if c = true then
          ((e.cpu.program_counter : Int) + 2 +
            toSignedByte (e.mem.memory ((e.cpu.program_counter + 1) % 65536))) % 65536
        else ((e.cpu.program_counter : Int) + 2) % 65536) ∧
      e'.cpu.accumulator = e.cpu.accumulator ∧ e'.cpu.X = e.cpu.X ∧ e'.cpu.Y = e.cpu.Y ∧
      e'.cpu.S = e.cpu.S ∧ e'.cpu.P = e.cpu.P ∧ e'.mem = e.mem := by
  rw [branch_behaviour e _ c hmode] at hx
  obtain ⟨e2, hcyc, hcpu, hmem, -⟩ := cycle_of_exec e _ b hb hn1 hn2 hx
  refine ⟨e2, hcyc, ?_, ?_, ?_, ?_, ?_, ?_, ?_⟩
  · rw [hcpu]
    cases c
    · simp only [setPC, Bool.false_eq_true, if_false]
      omega
    · simp only [setPC, if_true]
      exact branch_target _ _
  · rw [hcpu]; rfl
  · rw [hcpu]; rfl
  · rw [hcpu]; rfl
  · rw [hcpu]; rfl
  · rw [hcpu]; rfl
  · rw [hmem]; rfl

/-- C7: one step on a conditional branch at address `p` with offset byte `o`, read as a
signed 8-bit number: the program counter becomes `(p + 2 + o) mod 65536` when the flag
condition of the instruction holds (`BCC` Carry clear, `BCS` Carry set, `BEQ` Zero set,
`BMI` Negative set, `BNE` Zero clear, `BPL` Negative clear, `BVC` Overflow clear, `BVS`
Overflow set) and `(p + 2) mod 65536` when it does not; the other registers, the status
byte and the address space are unchanged. -/
theorem branch_step (e : Emulator) (opcode : Nat) (taken : Bool)
    (hfetch : e.mem.readByte e.cpu.program_counter = opcode)
    (hkind : (opcode = 0x90 ∧ taken = decide (e.cpu.P &&& P_CARRY = 0)) ∨
      (opcode = 0xB0 ∧ taken = decide (e.cpu.P &&& P_CARRY ≠ 0)) ∨
      (opcode = 0xF0 ∧ taken = decide (e.cpu.P &&& P_ZERO ≠ 0)) ∨
      (opcode = 0x30 ∧ taken = decide (e.cpu.P &&& P_NEGATIVE ≠ 0)) ∨
      (opcode = 0xD0 ∧ taken = decide (e.cpu.P &&& P_ZERO = 0)) ∨
      (opcode = 0x10 ∧ taken = decide (e.cpu.P &&& P_NEGATIVE = 0)) ∨
      (opcode = 0x50 ∧ taken = decide (e.cpu.P &&& P_OVERFLOW = 0)) ∨
      (opcode = 0x70 ∧ taken = decide (e.cpu.P &&& P_OVERFLOW ≠ 0))) :
    ∃ e', e.cycle = some (true, e') ∧
      ((e'.cpu.program_counter : Nat) : Int) =
        (if taken = true then
          ((e.cpu.program_counter : Int) + 2 +
            toSignedByte (e.mem.memory ((e.cpu.program_counter + 1) % 65536))) % 65536
        else ((e.cpu.program_counter : Int) + 2) % 65536) ∧
      e'.cpu.accumulator = e.cpu.accumulator ∧ e'.cpu.X = e.cpu.X ∧ e'.cpu.Y = e.cpu.Y ∧
      e'.cpu.S = e.cpu.S ∧ e'.cpu.P = e.cpu.P ∧ e'.mem = e.mem := by
  obtain ⟨h1, h2, h3, h4, h5, h6, h7, h8, hall⟩ := branch_entries
  have hP := (handleAddressing_frame e opcode).2.2.2.2.1
  subst hfetch
  rcases hkind with ⟨ho, ht⟩ | ⟨ho, ht⟩ | ⟨ho, ht⟩ | ⟨ho, ht⟩ | ⟨ho, ht⟩ | ⟨ho, ht⟩ |
    ⟨ho, ht⟩ | ⟨ho, ht⟩
  · obtain ⟨hn1, hn2, hmode⟩ := hall (e.mem.readByte e.cpu.program_counter) (by rw [ho]; decide)
    rw [← ho] at h1
    refine branch_finish e Behaviour.BCC taken h1 hn1 hn2 hmode ?_
    show e.BCC _ = _
    unfold BCC
    simp only [hP, ht, beq_iff_eq, bne_iff_ne, decide_eq_true_eq, decide_not]
    rfl
  · obtain ⟨hn1, hn2, hmode⟩ := hall (e.mem.readByte e.cpu.program_counter) (by rw [ho]; decide)
    rw [← ho] at h2
    refine branch_finish e Behaviour.BCS taken h2 hn1 hn2 hmode ?_
    show e.BCS _ = _
    unfold BCS
    simp only [hP, ht, beq_iff_eq, bne_iff_ne, decide_eq_true_eq, decide_not]
    rfl
  · obtain ⟨hn1, hn2, hmode⟩ := hall (e.mem.readByte e.cpu.program_counter) (by rw [ho]; decide)
    rw [← ho] at h3
    refine branch_finish e Behaviour.BEQ taken h3 hn1 hn2 hmode ?_
    show e.BEQ _ = _
    unfold BEQ
    simp only [hP, ht, beq_iff_eq, bne_iff_ne, decide_eq_true_eq, decide_not]
    rfl
  · obtain ⟨hn1, hn2, hmode⟩ := hall (e.mem.readByte e.cpu.program_counter) (by rw [ho]; decide)
    rw [← ho] at h4
    refine branch_finish e Behaviour.BMI taken h4 hn1 hn2 hmode ?_
    show e.BMI _ = _
    unfold BMI
    simp only [hP, ht, beq_iff_eq, bne_iff_ne, decide_eq_true_eq, decide_not]
    rfl
  · obtain ⟨hn1, hn2, hmode⟩ := hall (e.mem.readByte e.cpu.program_counter) (by rw [ho]; decide)
    rw [← ho] at h5
    refine branch_finish e Behaviour.BNE taken h5 hn1 hn2 hmode ?_
    show e.BNE _ = _
    unfold BNE
    simp only [hP, ht, beq_iff_eq, bne_iff_ne, decide_eq_true_eq, decide_not]
    rfl
  · obtain ⟨hn1, hn2, hmode⟩ := hall (e.mem.readByte e.cpu.program_counter) (by rw [ho]; decide)
    rw [← ho] at h6
    refine branch_finish e Behaviour.BPL taken h6 hn1 hn2 hmode ?_
    show e.BPL _ = _
    unfold BPL
    simp only [hP, ht, beq_iff_eq, bne_iff_ne, decide_eq_true_eq, decide_not]
    rfl
  · obtain ⟨hn1, hn2, hmode⟩ := hall (e.mem.readByte e.cpu.program_counter) (by rw [ho]; decide)
    rw [← ho] at h7
    refine branch_finish e Behaviour.BVC taken h7 hn1 hn2 hmode ?_
    show e.BVC _ = _
    unfold BVC
    simp only [hP, ht, beq_iff_eq, bne_iff_ne, decide_eq_true_eq, decide_not]
    rfl
  · obtain ⟨hn1, hn2, hmode⟩ := hall (e.mem.readByte e.cpu.program_counter) (by rw [ho]; decide)
    rw [← ho] at h8
    refine branch_finish e Behaviour.BVS taken h8 hn1 hn2 hmode ?_
    show e.BVS _ = _
    unfold BVS
    simp only [hP, ht, beq_iff_eq, bne_iff_ne, decide_eq_true_eq, decide_not]
    rfl

/-- An instance of C7: `BNE` with offset -4 at `0x0600` and Zero clear continues at
`0x05FE`. -/
theorem branch_step_witness :
    ∃ e', bneExample.cycle = some (true, e') ∧ e'.cpu.program_counter = 0x05FE := by
  obtain ⟨e', hcyc, hpc, -⟩ := branch_step bneExample 0xD0 true (by decide)
    (Or.inr (Or.inr (Or.inr (Or.inr (Or.inl ⟨rfl, by decide⟩)))))
  refine ⟨e', hcyc, ?_⟩
  have h : (if true = true then
      ((bneExample.cpu.program_counter : Int) + 2 +
        toSignedByte (bneExample.mem.memory ((bneExample.cpu.program_counter + 1) % 65536))) %
          65536
      else ((bneExample.cpu.program_counter : Int) + 2) % 65536) = 0x05FE := by decide
  rw [h] at hpc
  exact_mod_cast hpc


/-- C8: `cycle()` returns `false` exactly when the opcode at the program counter maps to a
halt entry of the table (named `"DONE"`, as the entry of the unassigned opcodes and of `0x02`
is) or is `BRK` (`0x00`) while `testing` is off; when it returns `false` the whole state,
registers, status byte and address space, is as before the call; in every other case it
returns `true`. -/
theorem cycle_false_iff (e : Emulator) :
    ((∃ e', e.cycle = some (false, e')) ↔
      ((instruction_map (e.mem.readByte e.cpu.program_counter)).name = "DONE" ∨
        (e.mem.readByte e.cpu.program_counter = 0x00 ∧ e.testing = false))) ∧
    (∀ e', e.cycle = some (false, e') → e' = e) ∧
    (¬ ((instruction_map (e.mem.readByte e.cpu.program_counter)).name = "DONE" ∨
        (e.mem.readByte e.cpu.program_counter = 0x00 ∧ e.testing = false)) →
      ∃ e', e.cycle = some (true, e')) ∧
    (instruction_map 0x02).name = "DONE" ∧ (instruction_map 0x03).name = "DONE" := by
  have hbrk : (instruction_map (e.mem.readByte e.cpu.program_counter)).name = "BRK" ↔
      e.mem.readByte e.cpu.program_counter = 0x00 := by
    by_cases hlt : e.mem.readByte e.cpu.program_counter < 256
    · exact (table_safe _ hlt).2
    · rw [instruction_map_ge _ (by omega)]
      constructor
      · intro h; exact absurd h (by decide)
      · intro h; omega
  have hhalt : ((instruction_map (e.mem.readByte e.cpu.program_counter)).name = "DONE" ∨
      (e.testing = false ∧
        (instruction_map (e.mem.readByte e.cpu.program_counter)).name = "BRK")) ↔
      ((instruction_map (e.mem.readByte e.cpu.program_counter)).name = "DONE" ∨
        (e.mem.readByte e.cpu.program_counter = 0x00 ∧ e.testing = false)) := by
    rw [hbrk, and_comm]
  have hfalse : ((instruction_map (e.mem.readByte e.cpu.program_counter)).name = "DONE" ∨
      (e.testing = false ∧
        (instruction_map (e.mem.readByte e.cpu.program_counter)).name = "BRK")) →
      e.cycle = some (false, e) := by
    intro h
    unfold cycle
    simp only [h, if_true]
  have htrue : ¬ ((instruction_map (e.mem.readByte e.cpu.program_counter)).name = "DONE" ∨
      (e.testing = false ∧
        (instruction_map (e.mem.readByte e.cpu.program_counter)).name = "BRK")) →
      ∃ e', e.cycle = some (true, e') := by
    intro h
    have hnd : (instruction_map (e.mem.readByte e.cpu.program_counter)).name ≠ "DONE" :=
      fun hd => h (Or.inl hd)
    have hlt : e.mem.readByte e.cpu.program_counter < 256 := by
      by_contra hge
      exact hnd (by rw [instruction_map_ge _ (by omega)]; rfl)
    have hsafe := (table_safe _ hlt).1 hnd
    unfold Instruction.safe at hsafe
    cases hb : (instruction_map (e.mem.readByte e.cpu.program_counter)).implementation with
    | none => rw [hb] at hsafe; simp at hsafe
    | some b =>
      rw [hb] at hsafe
      simp only [Bool.and_eq_true, Bool.or_eq_true, Bool.not_eq_true', bne_iff_ne, ne_eq]
        at hsafe
      obtain ⟨hs1, hs2⟩ := hsafe
      have h1 : b.dereferences = true →
          (e.handleAddressing (e.mem.readByte e.cpu.program_counter)).2 ≠ BytePtr.null := by
        intro hd
        rcases hs1 with hs1 | hs1
        · rw [hd] at hs1; exact absurd hs1 (by decide)
        · exact handleAddressing_nonnull e _ hs1
      have h2 : b.takesOffset = true → ∃ a,
          (e.handleAddressing (e.mem.readByte e.cpu.program_counter)).2 = BytePtr.memory a := by
        intro hd
        rcases hs2 with hs2 | hs2
        · rw [hd] at hs2; exact absurd hs2 (by decide)
        · exact handleAddressing_memory e _ hs2.1 hs2.2
      obtain ⟨e1, hx⟩ := exec_some e _ b h1 h2
      obtain ⟨e2, hcyc, -⟩ := cycle_of_not_halt e e1 b hb h hx
      exact ⟨e2, hcyc⟩
  refine ⟨⟨?_, ?_⟩, ?_, ?_, by decide, by decide⟩
  · rintro ⟨e', he'⟩
    by_contra hn
    obtain ⟨e2, he2⟩ := htrue (fun h => hn (hhalt.mp h))
    rw [he2] at he'
    exact absurd (Prod.mk.inj (Option.some.inj he')).1 (by decide)
  · intro h
    exact ⟨e, hfalse (hhalt.mpr h)⟩
  · intro e' he'
    by_cases h : ((instruction_map (e.mem.readByte e.cpu.program_counter)).name = "DONE" ∨
      (e.testing = false ∧
        (instruction_map (e.mem.readByte e.cpu.program_counter)).name = "BRK"))
    · rw [hfalse h] at he'
      exact (Prod.mk.inj (Option.some.inj he')).2.symm
    · obtain ⟨e2, he2⟩ := htrue h
      rw [he2] at he'
      exact absurd (Prod.mk.inj (Option.some.inj he')).1 (by decide)
  · intro h
    exact htrue (fun h' => h (hhalt.mp h'))


theorem JMP_indirect_entry :
    (instruction_map 0x6C).implementation = some Behaviour.JMP ∧
    (instruction_map 0x6C).name ≠ "DONE" ∧ (instruction_map 0x6C).name ≠ "BRK" ∧
    (instruction_map 0x6C).addressing_mode = AddressMode.INDIRECT := by
  decide

/-- C9: one step on `JMP` indirect (`0x6C`) whose operand bytes form the pointer address `L`:
the low byte of the target is `mem[L]`, the high byte is `mem[L + 1]`, except that it is
`mem[L AND 0xFF00]` when the low byte of `L` is `0xFF`; the program counter ends at that
target. With `L = 0x30FF` the high byte comes from `0x3000`. Nothing else changes. -/
theorem JMP_indirect_step (e : Emulator) (L : Nat)
    (hfetch : e.mem.readByte e.cpu.program_counter = 0x6C)
    (hM : ∀ a, e.mem.memory a < 256)
    (hL : L = e.mem.memory ((e.cpu.program_counter + 1) % 65536) +
      256 * e.mem.memory ((e.cpu.program_counter + 2) % 65536)) :
    ∃ e', e.cycle = some (true, e') ∧
      e'.cpu.program_counter = e.mem.memory L +
        256 * e.mem.memory (if L % 256 = 0xFF then L &&& 0xFF00 else L + 1) ∧
      (L = 0x30FF →
        e'.cpu.program_counter = e.mem.memory 0x30FF + 256 * e.mem.memory 0x3000) ∧
      e'.cpu.accumulator = e.cpu.accumulator ∧ e'.cpu.X = e.cpu.X ∧ e'.cpu.Y = e.cpu.Y ∧
      e'.cpu.S = e.cpu.S ∧ e'.cpu.P = e.cpu.P ∧ e'.mem = e.mem := by
  obtain ⟨hb, hn1, hn2, hmode⟩ := JMP_indirect_entry
  have hha : e.handleAddressing 0x6C = e.indirect := by
    unfold handleAddressing
    rw [hmode]
  have hx : e.exec 0x6C Behaviour.JMP = some ((e.setPC ((e.cpu.program_counter + 2) % 65536)).setPC
      ((e.mem.memory L + 256 * e.mem.memory (if L % 256 = 0xFF then L &&& 0xFF00 else L + 1)
        + 65535) % 65536)) := by
    show e.JMP 0x6C = _
    unfold JMP
    rw [hha, indirect_eq e L hM hL]
    rfl
  rw [← hfetch] at hb hn1 hn2 hx
  obtain ⟨e2, hcyc, hcpu, hmem, -⟩ := cycle_of_exec e _ Behaviour.JMP hb hn1 hn2 hx
  have hpc : e2.cpu.program_counter = e.mem.memory L +
      256 * e.mem.memory (if L % 256 = 0xFF then L &&& 0xFF00 else L + 1) := by
    rw [hcpu]
    simp only [setPC]
    have h1 := hM L
    have h2 := hM (if L % 256 = 0xFF then L &&& 0xFF00 else L + 1)
    omega
  refine ⟨e2, hcyc, hpc, ?_, ?_, ?_, ?_, ?_, ?_, ?_⟩
  · intro h
    rw [hpc, h]
    rfl
  · rw [hcpu]; simp only [setPC]
  · rw [hcpu]; simp only [setPC]
  · rw [hcpu]; simp only [setPC]
  · rw [hcpu]; simp only [setPC]
  · rw [hcpu]; simp only [setPC]
  · rw [hmem]; simp only [setPC]

/-- The example of C9: `JMP ($30FF)` with `0x80` at `0x30FF`, `0x40` at `0x3000` and `0x50`
at `0x3100` continues at `0x4080`, not at `0x5080`. -/
theorem JMP_indirect_step_witness :
    ∃ e', jmpExample.cycle = some (true, e') ∧ e'.cpu.program_counter = 0x4080 := by
  obtain ⟨e', hcyc, -, hex, -⟩ :=
    JMP_indirect_step jmpExample 0x30FF (by decide) (ofList_bytes _ (by decide)) (by decide)
  exact ⟨e', hcyc, (hex rfl).trans (by decide)⟩


/-- C10: for the zero-page base byte `b` that follows the opcode and every X, the resolver
`(zp,X)` yields the operand address `mem[(b + X) mod 256] + 256 * mem[(b + X + 1) mod 256]`;
both pointer bytes are read below `0x100`. With `b = 0xFF` and `X = 1` they are read at
`0x00` and `0x01`. Every opcode of that mode is resolved so. -/
theorem indexedIndirect_address (e : Emulator) (b : Nat)
    (hM : ∀ a, e.mem.memory a < 256)
    (hb : b = e.mem.readByte ((e.cpu.program_counter + 1) % 65536)) :
    e.indexedIndirect.2 = BytePtr.memory (e.mem.memory ((b + e.cpu.X) % 256) +
      256 * e.mem.memory ((b + e.cpu.X + 1) % 256)) ∧
    (b + e.cpu.X) % 256 < 0x100 ∧ (b + e.cpu.X + 1) % 256 < 0x100 ∧
    (b = 0xFF → e.cpu.X = 1 →
      e.indexedIndirect.2 = BytePtr.memory (e.mem.memory 0x00 + 256 * e.mem.memory 0x01)) ∧
    e.indexedIndirect.1 = e.setPC ((e.cpu.program_counter + 1) % 65536) ∧
    (∀ opcode, (instruction_map opcode).addressing_mode = AddressMode.INDEXED_INDIRECT →
      e.handleAddressing opcode = e.indexedIndirect) := by
  have h1 : (e.cpu.X + b) % 256 = (b + e.cpu.X) % 256 := by rw [Nat.add_comm]
  have h2 : ((b + e.cpu.X) % 256 + 1) % 256 = (b + e.cpu.X + 1) % 256 := by omega
  have hptr : e.indexedIndirect.2 = BytePtr.memory (e.mem.memory ((b + e.cpu.X) % 256) +
      256 * e.mem.memory ((b + e.cpu.X + 1) % 256)) := by
    have hb' : e.mem.memory ((e.cpu.program_counter + 1) % 65536) = b := hb.symm
    simp only [indexedIndirect, incPC, setPC, Memory.readByte, hb', h1, h2]
    rw [(word_of_bytes _ _ (hM _) (hM _)).2]
  refine ⟨hptr, by omega, by omega, ?_, rfl, ?_⟩
  · intro hb' hx
    rw [hptr, hb', hx]
  · intro opcode hmode
    unfold handleAddressing
    rw [hmode]

/-- The example of C10: with base byte `0xFF` and X at 1 the pointer is read at `0x00` and
`0x01`, so the operand address is `0x1234`. -/
theorem indexedIndirect_address_witness :
    indexedIndirectExample.indexedIndirect.2 = BytePtr.memory 0x1234 := by
  obtain ⟨-, -, -, hex, -⟩ := indexedIndirect_address indexedIndirectExample 0xFF
    (ofList_bytes _ (by decide)) (by decide)
  exact (hex rfl rfl).trans (by decide)

/-- C11: for the zero-page base byte `b` that follows the opcode and every Y, the resolver
`(zp),Y` yields the operand address `(mem[b] + 256 * mem[(b + 1) mod 256] + Y) mod 65536`:
the high pointer byte is read below `0x100` (at `0x00` when `b = 0xFF`) and adding Y wraps
over the 16-bit address space. Every opcode of that mode is resolved so. -/
theorem indirectIndexed_address (e : Emulator) (b : Nat)
    (hM : ∀ a, e.mem.memory a < 256)
    (hb : b = e.mem.readByte ((e.cpu.program_counter + 1) % 65536)) :
    e.indirectIndexed.2 = BytePtr.memory ((e.mem.memory b +
      256 * e.mem.memory ((b + 1) % 256) + e.cpu.Y) % 65536) ∧
    (b + 1) % 256 < 0x100 ∧
    (b = 0xFF → e.indirectIndexed.2 =
      BytePtr.memory ((e.mem.memory 0xFF + 256 * e.mem.memory 0x00 + e.cpu.Y) % 65536)) ∧
    (∀ opcode, (instruction_map opcode).addressing_mode = AddressMode.INDIRECT_INDEXED →
      e.handleAddressing opcode = e.indirectIndexed) := by
  have hptr : e.indirectIndexed.2 = BytePtr.memory ((e.mem.memory b +
      256 * e.mem.memory ((b + 1) % 256) + e.cpu.Y) % 65536) := by
    have hb' : e.mem.memory ((e.cpu.program_counter + 1) % 65536) = b := hb.symm
    have hhi : (e.mem.memory ((b + 1) % 256) <<< 8) % 65536 =
        e.mem.memory ((b + 1) % 256) <<< 8 := by
      have := hM ((b + 1) % 256)
      rw [Nat.shiftLeft_eq]
      omega
    simp only [indirectIndexed, incPC, setPC, Memory.readByte, hb', hhi]
    rw [(word_of_bytes _ _ (hM _) (hM _)).2]
  refine ⟨hptr, by omega, ?_, ?_⟩
  · intro hb'
    rw [hptr, hb']
  · intro opcode hmode
    unfold handleAddressing
    rw [hmode]

/-- The example of C11: with base byte `0xFF` the pointer is read at `0xFF` and `0x00`, and
`0xFFF8 + 0x10` wraps to the operand address `0x0008`. -/
theorem indirectIndexed_address_witness :
    indirectIndexedExample.indirectIndexed.2 = BytePtr.memory 0x0008 := by
  obtain ⟨-, -, hex, -⟩ := indirectIndexed_address indirectIndexedExample 0xFF
    (ofList_bytes _ (by decide)) (by decide)
  exact (hex rfl).trans (by decide)

/-- C12: with `b` the operand byte that follows the opcode, the Zero-Page resolver yields
the address `b`, and the Zero-Page+X and Zero-Page+Y resolvers yield `(b + X) mod 256` and
`(b + Y) mod 256`, which are below `0x100` whatever the index register holds. Every opcode
of these modes is resolved so. -/
theorem zeroPage_addresses (e : Emulator) (b : Nat)
    (hb : b = e.mem.readByte ((e.cpu.program_counter + 1) % 65536)) :
    e.zeroPage.2 = BytePtr.memory b ∧
    e.zeroPageX.2 = BytePtr.memory ((b + e.cpu.X) % 256) ∧
    e.zeroPageY.2 = BytePtr.memory ((b + e.cpu.Y) % 256) ∧
    (b + e.cpu.X) % 256 < 0x100 ∧ (b + e.cpu.Y) % 256 < 0x100 ∧
    (e.mem.memory ((e.cpu.program_counter + 1) % 65536) < 256 → b < 0x100) ∧
    (∀ opcode,
      ((instruction_map opcode).addressing_mode = AddressMode.ZERO_PAGE →
        e.handleAddressing opcode = e.zeroPage) ∧
      ((instruction_map opcode).addressing_mode = AddressMode.ZERO_PAGE_AND_X →
        e.handleAddressing opcode = e.zeroPageX) ∧
      ((instruction_map opcode).addressing_mode = AddressMode.ZERO_PAGE_AND_Y →
        e.handleAddressing opcode = e.zeroPageY)) := by
  have hb' : e.mem.memory ((e.cpu.program_counter + 1) % 65536) = b := hb.symm
  have hx : ((b + e.cpu.X) &&& 0xFF) % 65536 = (b + e.cpu.X) % 256 := by
    rw [land_255]; omega
  have hy : ((b + e.cpu.Y) &&& 0xFF) % 65536 = (b + e.cpu.Y) % 256 := by
    rw [land_255]; omega
  refine ⟨?_, ?_, ?_, by omega, by omega, ?_, ?_⟩
  · simp only [zeroPage, incPC, setPC, Memory.readByte, hb']
  · simp only [zeroPageX, incPC, setPC, Memory.readByte, hb', hx]
  · simp only [zeroPageY, incPC, setPC, Memory.readByte, hb', hy]
  · intro h
    rw [← hb']
    exact h
  · intro opcode
    refine ⟨?_, ?_, ?_⟩ <;> intro hmode <;> unfold handleAddressing <;> rw [hmode]

/-- An instance of C12: with operand byte `0xF0`, X at `0x20` and Y at `0x11` the three
resolvers yield `0xF0`, `0x10` and `0x01`. -/
theorem zeroPage_addresses_witness :
    zeroPageExample.zeroPage.2 = BytePtr.memory 0xF0 ∧
    zeroPageExample.zeroPageX.2 = BytePtr.memory 0x10 ∧
    zeroPageExample.zeroPageY.2 = BytePtr.memory 0x01 := by
  obtain ⟨h1, h2, h3, -⟩ := zeroPage_addresses zeroPageExample 0xF0 (by decide)
  exact ⟨h1, h2.trans (by decide), h3.trans (by decide)⟩

/-- C14: for every stack pointer `s`, two-byte value `w` and byte `v`: pushing `w` and then
pulling two bytes returns `w` with the stack pointer back at `s`, and likewise for the byte
`v`; every byte pushed lowers the stack pointer by one and every byte pulled raises it by
one, modulo 256; pushes write and pulls read only inside the stack page. `PHA` stores the
accumulator in the stack page at the stack pointer and lowers the stack pointer, leaving the
accumulator and the status byte as they were; `PLA` loads the accumulator with the byte the
raised stack pointer addresses, whatever the accumulator held, and gives Zero and Negative
the values of that byte; so `PHA`, then any change of the accumulator, then `PLA` restores
the accumulator and the stack pointer. -/
theorem stack_discipline (m : Memory) (s w v : Nat) (hs : s < 256) (hw : w < 65536)
    (hv : v < 256) :
    (m.stackPushWord s w).1.stackPullWord (m.stackPushWord s w).2 = (w, s) ∧
    (m.stackPushByte s v).1.stackPullByte (m.stackPushByte s v).2 = (v, s) ∧
    (m.stackPushByte s v).2 = (s + 255) % 256 ∧
    (m.stackPullByte s).2 = (s + 1) % 256 ∧
    (m.stackPushWord s w).2 = (s + 254) % 256 ∧
    (m.stackPullWord s).2 = (s + 2) % 256 ∧
    (∀ a, a < Memory.STACK_START ∨ Memory.STACK_START + 255 < a →
      (m.stackPushByte s v).1.memory a = m.memory a ∧
      (m.stackPushWord s w).1.memory a = m.memory a) ∧
    (∃ a, Memory.STACK_START ≤ a ∧ a ≤ Memory.STACK_START + 255 ∧
      (m.stackPullByte s).1 = m.memory a) ∧
    (∃ a b, Memory.STACK_START ≤ a ∧ a ≤ Memory.STACK_START + 255 ∧
      Memory.STACK_START ≤ b ∧ b ≤ Memory.STACK_START + 255 ∧
      (m.stackPullWord s).1 = m.memory b * 256 + m.memory a) ∧
    (∀ e : Emulator, e.mem = m → e.cpu.S = s → e.cpu.accumulator = v → ∀ op1 op2,
      ∃ e1 e2, e.PHA op1 = some e1 ∧ e1.PLA op2 = some e2 ∧ e1.cpu.S = (s + 255) % 256 ∧
        e2.cpu.accumulator = v ∧ e2.cpu.S = s) ∧
    (∀ e : Emulator, e.mem = m → e.cpu.S = s → ∀ op,
      ∃ e2, e.PLA op = some e2 ∧
        e2.cpu.accumulator = m.memory (Memory.STACK_START + (s + 1) % 256) ∧
        e2.cpu.S = (s + 1) % 256 ∧ e2.mem = m ∧
        (e2.cpu.P &&& P_ZERO ≠ 0 ↔ m.memory (Memory.STACK_START + (s + 1) % 256) = 0) ∧
        (e2.cpu.P &&& P_NEGATIVE ≠ 0 ↔
          (m.memory (Memory.STACK_START + (s + 1) % 256)).testBit 7 = true) ∧
        e2.cpu.X = e.cpu.X ∧ e2.cpu.Y = e.cpu.Y) ∧
    (∀ e : Emulator, e.mem = m → e.cpu.S = s → e.cpu.accumulator = v → ∀ op1 op2 a',
      ∃ e1 e2, e.PHA op1 = some e1 ∧
        e1.mem.memory (Memory.STACK_START + s) = v ∧
        (∀ a, a ≠ Memory.STACK_START + s → e1.mem.memory a = m.memory a) ∧
        e1.cpu.S = (s + 255) % 256 ∧ e1.cpu.accumulator = v ∧ e1.cpu.P = e.cpu.P ∧
        (e1.setA a').PLA op2 = some e2 ∧
        e2.cpu.accumulator = v ∧ e2.cpu.S = s ∧ e2.mem = e1.mem ∧
        (e2.cpu.P &&& P_ZERO ≠ 0 ↔ v = 0) ∧
        (e2.cpu.P &&& P_NEGATIVE ≠ 0 ↔ v.testBit 7 = true)) := by
  have hv' : v % 256 = v := by omega
  have hs' : s % 256 = s := by omega
  refine ⟨Memory.stackPullWord_stackPushWord m s w hs hw, ?_, rfl, rfl, ?_, ?_, ?_, ?_, ?_, ?_,
    ?_, ?_⟩
  · rw [Memory.stackPullByte_stackPushByte m s v hs, hv']
  · simp only [Memory.stackPushWord, Memory.stackPushByte]
    omega
  · simp only [Memory.stackPullWord, Memory.stackPullByte]
    omega
  · intro a ha
    refine ⟨?_, Memory.stackPushWord_outside m s w a ha⟩
    rw [Memory.stackPushByte_memory]
    have : a ≠ Memory.STACK_START + s % 256 := by omega
    simp [this]
  · exact ⟨Memory.STACK_START + (s + 1) % 256, by omega, by omega, rfl⟩
  · exact ⟨Memory.STACK_START + (s + 1) % 256, Memory.STACK_START + ((s + 1) % 256 + 1) % 256,
      by omega, by omega, by omega, by omega, rfl⟩
  · intro e hm hS hA op1 op2
    subst hm hS hA
    refine ⟨_, _, rfl, rfl, rfl, ?_, ?_⟩
    · have h := Memory.stackPullByte_stackPushByte e.mem e.cpu.S e.cpu.accumulator hs
      simp only [hAFC_eq, setP, setA, setS, setMem]
      rw [h]
      exact hv'
    · have h := Memory.stackPullByte_stackPushByte e.mem e.cpu.S e.cpu.accumulator hs
      simp only [hAFC_eq, setP, setA, setS, setMem]
      rw [h]
  · intro e hm hS op
    subst hm hS
    refine ⟨_, rfl, ?_, ?_, ?_, ?_, ?_, ?_, ?_⟩
    · simp only [hAFC_eq, setP, setA, setS, Memory.stackPullByte, Memory.readByte]
    · simp only [hAFC_eq, setP, setA, setS, Memory.stackPullByte]
    · simp only [hAFC_eq, setP, setA, setS]
    · rw [(flag_iff_testBit _).2.1]
      simp [hAFC_eq, setP, setA, setS, Memory.stackPullByte, Memory.readByte]
    · rw [(flag_iff_testBit _).2.2.2.2.2.2.2]
      simp [hAFC_eq, setP, setA, setS, Memory.stackPullByte, Memory.readByte]
    · simp only [hAFC_eq, setP, setA, setS]
    · simp only [hAFC_eq, setP, setA, setS]
  · intro e hm hS hA op1 op2 a'
    subst hm hS hA
    have h := Memory.stackPullByte_stackPushByte e.mem e.cpu.S e.cpu.accumulator hs
    rw [hv'] at h
    refine ⟨_, _, rfl, ?_, ?_, rfl, rfl, rfl, rfl, ?_, ?_, ?_, ?_, ?_⟩
    · simp only [setMem, setS, Memory.stackPushByte_memory, hs', if_true, hv']
    · intro a ha
      simp only [setMem, setS, Memory.stackPushByte_memory, hs', ha, if_false]
    · simp only [hAFC_eq, setP, setA, setS, setMem]
      rw [h]
    · simp only [hAFC_eq, setP, setA, setS, setMem]
      rw [h]
    · simp only [hAFC_eq, setP, setA, setS, setMem]
    · rw [(flag_iff_testBit _).2.1]
      simp only [hAFC_eq, setP, setA, setS, setMem]
      rw [h]
      simp
    · rw [(flag_iff_testBit _).2.2.2.2.2.2.2]
      simp only [hAFC_eq, setP, setA, setS, setMem]
      rw [h]
      simp

/-- An instance of C14: from stack pointer `0x00` the value `0x1234` is pushed and pulled
back, the stack pointer passing through `0xFE`; and `PHA` with the accumulator at `0xAB`
stores `0xAB` at `0x0100`, after which `PLA`, run with the accumulator overwritten by
`0x00`, loads `0xAB` again and leaves the stack pointer at `0x00`. -/
theorem stack_discipline_witness :
    (stackExample.mem.stackPushWord 0x00 0x1234).2 = 0xFE ∧
    (stackExample.mem.stackPushWord 0x00 0x1234).1.stackPullWord 0xFE = (0x1234, 0x00) ∧
    (∃ e1 e2, stackExample.PHA 0x48 = some e1 ∧ e1.mem.memory 0x0100 = 0xAB ∧
      e1.cpu.S = 0xFF ∧ (e1.setA 0x00).PLA 0x68 = some e2 ∧ e2.cpu.accumulator = 0xAB ∧
      e2.cpu.S = 0x00) := by
  obtain ⟨h1, -, -, -, h2, -, -, -, -, -, -, h3⟩ :=
    stack_discipline stackExample.mem 0x00 0x1234 0xAB (by decide) (by decide) (by decide)
  rw [h2] at h1
  obtain ⟨e1, e2, hpha, hmem, -, hS1, -, -, hpla, hA2, hS2, -⟩ :=
    h3 stackExample rfl rfl rfl 0x48 0x68 0x00
  exact ⟨h2, h1, e1, e2, hpha, hmem, hS1.trans (by decide), hpla, hA2, hS2⟩

/-- C13: a `JSR` at address `p` with target `t` pushes the two-byte value `p + 2` and leaves
the program counter at `t`; when the byte then fetched at `t` is `RTS`, the next step
leaves the program counter at `(p + 3) mod 65536` and the stack pointer at its value before
the `JSR`. Accumulator, X, Y and the status byte are unchanged throughout. -/
theorem JSR_RTS_round_trip (e : Emulator) (t : Nat)
    (hfetch : e.mem.readByte e.cpu.program_counter = 0x20)
    (hM : ∀ a, e.mem.memory a < 256) (hS : e.cpu.S < 256)
    (ht : t = e.mem.memory ((e.cpu.program_counter + 1) % 65536) +
      256 * e.mem.memory ((e.cpu.program_counter + 2) % 65536)) :
    ∃ e1, e.cycle = some (true, e1) ∧ e1.cpu.program_counter = t ∧
      e1.mem = (e.mem.stackPushWord e.cpu.S ((e.cpu.program_counter + 2) % 65536)).1 ∧
      e1.cpu.S = (e.cpu.S + 254) % 256 ∧
      e1.cpu.accumulator = e.cpu.accumulator ∧ e1.cpu.X = e.cpu.X ∧ e1.cpu.Y = e.cpu.Y ∧
      e1.cpu.P = e.cpu.P ∧
      (e1.mem.readByte t = 0x60 →
        ∃ e2, e1.cycle = some (true, e2) ∧
          e2.cpu.program_counter = (e.cpu.program_counter + 3) % 65536 ∧
          e2.cpu.S = e.cpu.S ∧
          e2.cpu.accumulator = e.cpu.accumulator ∧ e2.cpu.X = e.cpu.X ∧ e2.cpu.Y = e.cpu.Y ∧
          e2.cpu.P = e.cpu.P) := by
  obtain ⟨e1, hcyc, hcpu, hmem, -⟩ := JSR_effect e hfetch hM
  have hpc1 : e1.cpu.program_counter = t := by rw [hcpu, ht]
  have hS1 : e1.cpu.S = (e.mem.stackPushWord e.cpu.S ((e.cpu.program_counter + 2) % 65536)).2 := by
    rw [hcpu]
  have hS1' : e1.cpu.S = (e.cpu.S + 254) % 256 := by
    rw [hS1]
    simp only [Memory.stackPushWord, Memory.stackPushByte]
    omega
  refine ⟨e1, hcyc, hpc1, hmem, hS1', by rw [hcpu], by rw [hcpu], by rw [hcpu], by rw [hcpu], ?_⟩
  intro hrts
  rw [← hpc1] at hrts
  obtain ⟨e2, hcyc2, hcpu2, -, -⟩ := RTS_effect e1 hrts
  have hpull := Memory.stackPullWord_stackPushWord e.mem e.cpu.S
    ((e.cpu.program_counter + 2) % 65536) hS (Nat.mod_lt _ (by norm_num))
  rw [← hmem, ← hS1] at hpull
  refine ⟨e2, hcyc2, ?_, ?_, ?_, ?_, ?_, ?_⟩
  · rw [hcpu2, hpull]
    show ((e.cpu.program_counter + 2) % 65536 + 1) % 65536 = _
    omega
  · rw [hcpu2, hpull]
  · rw [hcpu2, hcpu]
  · rw [hcpu2, hcpu]
  · rw [hcpu2, hcpu]
  · rw [hcpu2, hcpu]

/-- An instance of C13: `JSR $0700` at `0x0600` with `RTS` at `0x0700` and stack pointer
`0xFF` goes to `0x0700` with stack pointer `0xFD`, then returns to `0x0603` with stack
pointer `0xFF`. -/
theorem JSR_RTS_round_trip_witness :
    ∃ e1 e2, jsrExample.cycle = some (true, e1) ∧ e1.cpu.program_counter = 0x0700 ∧
      e1.cpu.S = 0xFD ∧ e1.cycle = some (true, e2) ∧ e2.cpu.program_counter = 0x0603 ∧
      e2.cpu.S = 0xFF := by
  obtain ⟨e1, hcyc, hpc, hmem, hS, -, -, -, -, hret⟩ :=
    JSR_RTS_round_trip jsrExample 0x0700 (by decide) (ofList_bytes _ (by decide)) (by decide)
      (by decide)
  have hrts : e1.mem.readByte 0x0700 = 0x60 := by
    rw [hmem]
    decide
  obtain ⟨e2, hcyc2, hpc2, hS2, -⟩ := hret hrts
  exact ⟨e1, e2, hcyc, hpc, hS.trans (by decide), hcyc2, hpc2.trans (by decide),
    hS2.trans (by decide)⟩

/-- C15: with `testing` on, one step on `BRK` at address `p` returns `true`; it pushes the
two-byte value `(p + 2) mod 65536` and then the status byte with Break and Unused set; in
the live status byte it sets Interrupt-Disable and leaves every other flag, Break among
them, as it was; the stack pointer drops by 3 modulo 256 and the program counter ends at
`mem[0xFFFE] + 256 * mem[0xFFFF]`. Accumulator, X and Y are unchanged. -/
theorem BRK_step (e : Emulator) (hfetch : e.mem.readByte e.cpu.program_counter = 0x00)
    (ht : e.testing = true) (hM : ∀ a, e.mem.memory a < 256) :
    ∃ e', e.cycle = some (true, e') ∧
      e'.mem =
        ((e.mem.stackPushWord e.cpu.S ((e.cpu.program_counter + 2) % 65536)).1.stackPushByte
          ((e.cpu.S + 254) % 256) ((e.cpu.P ||| P_BREAK ||| P_UNUSED) % 256)).1 ∧
      ((e.cpu.P ||| P_BREAK ||| P_UNUSED) % 256) &&& P_BREAK ≠ 0 ∧
      ((e.cpu.P ||| P_BREAK ||| P_UNUSED) % 256) &&& P_UNUSED ≠ 0 ∧
      (∀ f ∈ [P_CARRY, P_ZERO, P_INT_DISABLE, P_DECIMAL, P_OVERFLOW, P_NEGATIVE],
        ((e.cpu.P ||| P_BREAK ||| P_UNUSED) % 256) &&& f = e.cpu.P &&& f) ∧
      e'.cpu.P &&& P_INT_DISABLE ≠ 0 ∧
      (∀ f ∈ [P_CARRY, P_ZERO, P_DECIMAL, P_BREAK, P_UNUSED, P_OVERFLOW, P_NEGATIVE],
        e'.cpu.P &&& f = e.cpu.P &&& f) ∧
      e'.cpu.S = (e.cpu.S + 253) % 256 ∧
      e'.cpu.program_counter = e.mem.memory 0xFFFE + 256 * e.mem.memory 0xFFFF ∧
      e'.cpu.accumulator = e.cpu.accumulator ∧ e'.cpu.X = e.cpu.X ∧ e'.cpu.Y = e.cpu.Y := by
  obtain ⟨e1, hcyc, hcpu, hmem, -⟩ := BRK_effect e hfetch ht hM
  have hS2 : (e.mem.stackPushWord e.cpu.S ((e.cpu.program_counter + 2) % 65536)).2 =
      (e.cpu.S + 254) % 256 := by
    simp only [Memory.stackPushWord, Memory.stackPushByte]
    omega
  have hP1 : e1.cpu.P = flagUpdate e.cpu.P P_INT_DISABLE true := by rw [hcpu]
  have hbit : ∀ i, ((e.cpu.P ||| P_BREAK ||| P_UNUSED) % 256).testBit i =
      (decide (i < 8) && (e.cpu.P.testBit i || decide (i = 4) || decide (i = 5))) := by
    intro i
    rw [testBit_mod_256, Nat.testBit_lor, Nat.testBit_lor, show P_BREAK = 2 ^ 4 from rfl,
      show P_UNUSED = 2 ^ 5 from rfl, Nat.testBit_two_pow, Nat.testBit_two_pow]
    simp only [eq_comm]
  obtain ⟨-, -, -, -, f4, f5, -, -⟩ := flag_iff_testBit ((e.cpu.P ||| P_BREAK ||| P_UNUSED) % 256)
  obtain ⟨m0, m1, m2, m3, -, -, m6, m7⟩ :=
    flag_masks_eq ((e.cpu.P ||| P_BREAK ||| P_UNUSED) % 256) e.cpu.P
  obtain ⟨-, -, g2, -⟩ := flag_iff_testBit e1.cpu.P
  obtain ⟨n0, n1, -, n3, n4, n5, n6, n7⟩ := flag_masks_eq e1.cpu.P e.cpu.P
  refine ⟨e1, hcyc, ?_, ?_, ?_, ?_, ?_, ?_, ?_, ?_, ?_, ?_, ?_⟩
  · rw [hmem, hS2]
  · rw [f4, hbit]; simp
  · rw [f5, hbit]; simp
  · intro f hf
    simp only [List.mem_cons, List.mem_singleton, List.not_mem_nil, or_false] at hf
    rcases hf with h | h | h | h | h | h <;> subst h
    · exact m0 (by rw [hbit]; simp [-Nat.testBit_zero])
    · exact m1 (by rw [hbit]; simp)
    · exact m2 (by rw [hbit]; simp)
    · exact m3 (by rw [hbit]; simp)
    · exact m6 (by rw [hbit]; simp)
    · exact m7 (by rw [hbit]; simp)
  · rw [g2, hP1]; simp
  · intro f hf
    simp only [List.mem_cons, List.mem_singleton, List.not_mem_nil, or_false] at hf
    rcases hf with h | h | h | h | h | h | h <;> subst h
    · exact n0 (by rw [hP1]; simp [-Nat.testBit_zero])
    · exact n1 (by rw [hP1]; simp)
    · exact n3 (by rw [hP1]; simp)
    · exact n4 (by rw [hP1]; simp)
    · exact n5 (by rw [hP1]; simp)
    · exact n6 (by rw [hP1]; simp)
    · exact n7 (by rw [hP1]; simp)
  · rw [hcpu]
    show ((e.mem.stackPushWord e.cpu.S ((e.cpu.program_counter + 2) % 65536)).1.stackPushByte
      (e.mem.stackPushWord e.cpu.S ((e.cpu.program_counter + 2) % 65536)).2
      ((e.cpu.P ||| P_BREAK ||| P_UNUSED) % 256)).2 = _
    rw [hS2]
    simp only [Memory.stackPushByte]
    omega
  · rw [hcpu]
  · rw [hcpu]
  · rw [hcpu]
  · rw [hcpu]

/-- An instance of C15: `BRK` at `0x0600` with the vector `0x0700`, status byte `0x63` and
stack pointer `0xFF` continues at `0x0700` with stack pointer `0xFC`, Interrupt-Disable set
and Break still clear in the live status byte. -/
theorem BRK_step_witness :
    ∃ e', brkExample.cycle = some (true, e') ∧ e'.cpu.program_counter = 0x0700 ∧
      e'.cpu.S = 0xFC ∧ e'.cpu.P &&& P_INT_DISABLE ≠ 0 ∧ e'.cpu.P &&& P_BREAK = 0 := by
  obtain ⟨e', hcyc, -, -, -, -, hI, hrest, hS, hpc, -⟩ :=
    BRK_step brkExample (by decide) (by decide) (ofList_bytes _ (by decide))
  exact ⟨e', hcyc, hpc.trans (by decide), hS.trans (by decide), hI,
    (hrest P_BREAK (by simp)).trans (by decide)⟩

/-- C16: one step on `RTI` pulls a status byte `q` and then a two-byte value `w`; it leaves
the status byte equal to `q` with Break cleared and Unused set, the program counter at `w`
and the stack pointer raised by 3 modulo 256, and writes nothing else. Consequently, with
`testing` on, a `BRK` at address `p` followed by an `RTI` at the vector target resumes at
`(p + 2) mod 65536` with the status byte of before the `BRK` (Break cleared, Unused set)
and the stack pointer of before the `BRK`. -/
theorem RTI_step (e : Emulator) (hfetch : e.mem.readByte e.cpu.program_counter = 0x40)
    (hM : ∀ a, e.mem.memory a < 256) :
    (∃ e', e.cycle = some (true, e') ∧
      e'.cpu.P &&& P_BREAK = 0 ∧ e'.cpu.P &&& P_UNUSED ≠ 0 ∧
      (∀ f ∈ [P_CARRY, P_ZERO, P_INT_DISABLE, P_DECIMAL, P_OVERFLOW, P_NEGATIVE],
        e'.cpu.P &&& f = (e.mem.stackPullByte e.cpu.S).1 &&& f) ∧
      e'.cpu.program_counter = (e.mem.stackPullWord ((e.cpu.S + 1) % 256)).1 ∧
      e'.cpu.S = (e.cpu.S + 3) % 256 ∧
      e'.mem = e.mem ∧
      e'.cpu.accumulator = e.cpu.accumulator ∧ e'.cpu.X = e.cpu.X ∧ e'.cpu.Y = e.cpu.Y) ∧
    (∀ e0 : Emulator, e0.mem.readByte e0.cpu.program_counter = 0x00 → e0.testing = true →
      (∀ a, e0.mem.memory a < 256) → e0.cpu.S < 256 →
      ∃ e1, e0.cycle = some (true, e1) ∧
        e1.cpu.program_counter = e0.mem.memory 0xFFFE + 256 * e0.mem.memory 0xFFFF ∧
        (e1.mem.readByte e1.cpu.program_counter = 0x40 →
          ∃ e2, e1.cycle = some (true, e2) ∧
            e2.cpu.program_counter = (e0.cpu.program_counter + 2) % 65536 ∧
            e2.cpu.S = e0.cpu.S ∧
            e2.cpu.P &&& P_BREAK = 0 ∧ e2.cpu.P &&& P_UNUSED ≠ 0 ∧
            (∀ f ∈ [P_CARRY, P_ZERO, P_INT_DISABLE, P_DECIMAL, P_OVERFLOW, P_NEGATIVE],
              e2.cpu.P &&& f = e0.cpu.P &&& f) ∧
            e2.cpu.accumulator = e0.cpu.accumulator ∧ e2.cpu.X = e0.cpu.X ∧
            e2.cpu.Y = e0.cpu.Y)) := by
  have hflags : ∀ P q : Nat, P = flagUpdate (flagUpdate q P_BREAK false) P_UNUSED true →
      P &&& P_BREAK = 0 ∧ P &&& P_UNUSED ≠ 0 ∧
      ∀ q0 : Nat, (∀ i, i < 8 → i ≠ 4 → i ≠ 5 → q.testBit i = q0.testBit i) →
        ∀ f ∈ [P_CARRY, P_ZERO, P_INT_DISABLE, P_DECIMAL, P_OVERFLOW, P_NEGATIVE],
          P &&& f = q0 &&& f := by
    intro P q hP
    obtain ⟨-, -, -, -, f4, f5, -, -⟩ := flag_iff_testBit P
    refine ⟨?_, ?_, ?_⟩
    · by_contra h
      have := f4.1 h
      rw [hP, testBit_restored] at this
      simp at this
    · rw [f5, hP, testBit_restored]; simp
    · intro q0 hq f hf
      obtain ⟨m0, m1, m2, m3, -, -, m6, m7⟩ := flag_masks_eq P q0
      simp only [List.mem_cons, List.mem_singleton, List.not_mem_nil, or_false] at hf
      rcases hf with h | h | h | h | h | h <;> subst h
      · exact m0 (by rw [hP, testBit_restored, ← hq 0 (by omega) (by omega) (by omega)]
                     simp [-Nat.testBit_zero])
      · exact m1 (by rw [hP, testBit_restored, ← hq 1 (by omega) (by omega) (by omega)]; simp)
      · exact m2 (by rw [hP, testBit_restored, ← hq 2 (by omega) (by omega) (by omega)]; simp)
      · exact m3 (by rw [hP, testBit_restored, ← hq 3 (by omega) (by omega) (by omega)]; simp)
      · exact m6 (by rw [hP, testBit_restored, ← hq 6 (by omega) (by omega) (by omega)]; simp)
      · exact m7 (by rw [hP, testBit_restored, ← hq 7 (by omega) (by omega) (by omega)]; simp)
  have hpull1 : ∀ (m : Memory) (s : Nat), (m.stackPullByte s).2 = (s + 1) % 256 :=
    fun _ _ => rfl
  have hpull2 : ∀ (m : Memory) (s : Nat), (m.stackPullWord s).2 = (s + 2) % 256 := by
    intro m s
    simp only [Memory.stackPullWord, Memory.stackPullByte]
    omega
  constructor
  · obtain ⟨e1, hcyc, hcpu, hmem, -⟩ :=
      RTI_effect e hfetch (stackPullWord_lt _ _ hM)
    obtain ⟨hB, hU, hrest⟩ := hflags e1.cpu.P (e.mem.stackPullByte e.cpu.S).1 (by rw [hcpu])
    refine ⟨e1, hcyc, hB, hU, hrest _ (fun _ _ _ _ => rfl), ?_, ?_, hmem, ?_, ?_, ?_⟩
    · rw [hcpu]
      show (e.mem.stackPullWord (e.mem.stackPullByte e.cpu.S).2).1 = _
      rw [hpull1]
    · rw [hcpu]
      show (e.mem.stackPullWord (e.mem.stackPullByte e.cpu.S).2).2 = _
      rw [hpull2, hpull1]
      omega
    · rw [hcpu]
    · rw [hcpu]
    · rw [hcpu]
  · intro e0 hf0 ht0 hM0 hS0
    obtain ⟨e1, hcyc, hcpu, hmem, -⟩ := BRK_effect e0 hf0 ht0 hM0
    refine ⟨e1, hcyc, by rw [hcpu], ?_⟩
    intro hf1
    have hM1 : ∀ a, e1.mem.memory a < 256 := by
      intro a
      rw [hmem]
      simp only [Memory.stackPushWord, Memory.stackPushByte, Memory.writeByte]
      have := hM0 a
      split_ifs <;> omega
    obtain ⟨e2, hcyc2, hcpu2, -, -⟩ := RTI_effect e1 hf1 (stackPullWord_lt _ _ hM1)
    have hS1 : e1.cpu.S = ((e0.mem.stackPushWord e0.cpu.S
        ((e0.cpu.program_counter + 2) % 65536)).1.stackPushByte
        (e0.mem.stackPushWord e0.cpu.S ((e0.cpu.program_counter + 2) % 65536)).2
        ((e0.cpu.P ||| P_BREAK ||| P_UNUSED) % 256)).2 := by rw [hcpu]
    have hlt : (e0.mem.stackPushWord e0.cpu.S ((e0.cpu.program_counter + 2) % 65536)).2 <
        256 := by
      simp only [Memory.stackPushWord, Memory.stackPushByte]
      omega
    have hq : e1.mem.stackPullByte e1.cpu.S =
        ((e0.cpu.P ||| P_BREAK ||| P_UNUSED) % 256 % 256,
          (e0.mem.stackPushWord e0.cpu.S ((e0.cpu.program_counter + 2) % 65536)).2) := by
      rw [hS1, hmem]
      exact Memory.stackPullByte_stackPushByte _ _ _ hlt
    have hw : e1.mem.stackPullWord (e1.mem.stackPullByte e1.cpu.S).2 =
        ((e0.cpu.program_counter + 2) % 65536, e0.cpu.S) := by
      rw [hq, hmem]
      exact Memory.stackPullWord_under_byte _ _ _ _ hS0 (by omega)
    obtain ⟨hB, hU, hrest⟩ := hflags e2.cpu.P (e1.mem.stackPullByte e1.cpu.S).1 (by rw [hcpu2])
    refine ⟨e2, hcyc2, ?_, ?_, hB, hU, hrest e0.cpu.P ?_, ?_, ?_, ?_⟩
    · rw [hcpu2]
      show (e1.mem.stackPullWord (e1.mem.stackPullByte e1.cpu.S).2).1 = _
      rw [hw]
    · rw [hcpu2]
      show (e1.mem.stackPullWord (e1.mem.stackPullByte e1.cpu.S).2).2 = _
      rw [hw]
    · intro i h8 h4 h5
      rw [hq]
      show ((e0.cpu.P ||| P_BREAK ||| P_UNUSED) % 256 % 256).testBit i = _
      rw [Nat.mod_mod, testBit_mod_256, Nat.testBit_lor, Nat.testBit_lor,
        show P_BREAK = 2 ^ 4 from rfl, show P_UNUSED = 2 ^ 5 from rfl, Nat.testBit_two_pow,
        Nat.testBit_two_pow]
      simp [h8, Ne.symm h4, Ne.symm h5]
    · rw [hcpu2, hcpu]
    · rw [hcpu2, hcpu]
    · rw [hcpu2, hcpu]

/-- An instance of C16: `RTI` at `0x0700` with stack pointer `0xFC` over the status byte
`0x73` and the value `0x0602` continues at `0x0602` with stack pointer `0xFF` and Break
clear; and `BRK` at `0x0600` followed by `RTI` at its vector target `0x0700` resumes at
`0x0602` with stack pointer `0xFF`. -/
theorem RTI_step_witness :
    (∃ e', rtiExample.cycle = some (true, e') ∧ e'.cpu.program_counter = 0x0602 ∧
      e'.cpu.S = 0xFF ∧ e'.cpu.P &&& P_BREAK = 0) ∧
    (∃ e1 e2, brkExample.cycle = some (true, e1) ∧ e1.cycle = some (true, e2) ∧
      e2.cpu.program_counter = 0x0602 ∧ e2.cpu.S = 0xFF) := by
  obtain ⟨⟨e', hcyc, hB, -, -, hpc, hS, -⟩, hcons⟩ :=
    RTI_step rtiExample (by decide) (ofList_bytes _ (by decide))
  refine ⟨⟨e', hcyc, hpc.trans (by decide), hS.trans (by decide), hB⟩, ?_⟩
  obtain ⟨e1, hcyc1, hpc1, hret⟩ :=
    hcons brkExample (by decide) (by decide) (ofList_bytes _ (by decide)) (by decide)
  have hcpu1 : e1 = (brkExample.cycle.get (by decide)).2 := by
    simp only [hcyc1, Option.get_some]
  have hrti : e1.mem.readByte e1.cpu.program_counter = 0x40 := by
    rw [hcpu1]
    decide
  obtain ⟨e2, hcyc2, hpc2, hS2, -⟩ := hret hrti
  exact ⟨e1, e2, hcyc1, hcyc2, hpc2.trans (by decide), hS2.trans (by decide)⟩

/-- C17 (the code does otherwise): for an image longer than the capacity
`ROM_END - ROM_START + 1`, `loadROM` writes "Cannot install ROM, too big." and then goes on:
when the image fits in the 65536-byte array it is copied whole from `ROM_START` on (past
`ROM_END`), "Loaded ROM successfully." is written and nothing else changes; when it does not
fit, the copy runs past the end of the array. In neither case is the load given up with the
address space as it was. -/
theorem loadROM_oversized (ROM_START ROM_END : Nat) (e : Emulator) (program : List Nat)
    (hbig : ROM_END - ROM_START + 1 < program.length) :
    (ROM_START + program.length ≤ 65536 →
      ∃ e', e.loadROM ROM_START ROM_END program =
          some (["Cannot install ROM, too big.", "Loaded ROM successfully."], e') ∧
        (∀ i, i < program.length → e'.mem.memory (ROM_START + i) = program.getD i 0) ∧
        (∀ a, a < ROM_START ∨ ROM_START + program.length ≤ a →
          e'.mem.memory a = e.mem.memory a) ∧
        e'.cpu = e.cpu) ∧
    (65536 < ROM_START + program.length → e.loadROM ROM_START ROM_END program = none) := by
  constructor
  · intro hfit
    refine ⟨e.setMem (e.mem.memcpy ROM_START program), ?_, ?_, ?_, rfl⟩
    · simp [loadROM, hbig, hfit]
    · intro i hi
      simp [setMem, Memory.memcpy, hi]
    · intro a ha
      have : ¬ (ROM_START ≤ a ∧ a < ROM_START + program.length) := by omega
      simp [setMem, Memory.memcpy, this]
  · intro hover
    have : ¬ (ROM_START + program.length ≤ 65536) := by omega
    simp [loadROM, this]

/-- An instance of C17: with a program region of the two addresses `0x0600` and `0x0601`, the
three-byte image `A9 01 EA` is reported as too big and copied all the same; its third byte
lands at `0x0602`, which held `0x00`. -/
theorem loadROM_oversized_witness :
    ∃ e', stackExample.loadROM 0x0600 0x0601 [0xA9, 0x01, 0xEA] =
        some (["Cannot install ROM, too big.", "Loaded ROM successfully."], e') ∧
      e'.mem.memory 0x0600 = 0xA9 ∧ e'.mem.memory 0x0602 = 0xEA ∧
      stackExample.mem.memory 0x0600 = 0x00 ∧ stackExample.mem.memory 0x0602 = 0x00 := by
  obtain ⟨e', hload, hcopy, -, -⟩ :=
    (loadROM_oversized 0x0600 0x0601 stackExample [0xA9, 0x01, 0xEA] (by decide)).1 (by decide)
  exact ⟨e', hload, hcopy 0 (by decide), hcopy 2 (by decide), by decide, by decide⟩

/-- C18 as stated fails: with `NOP` at address `0x0000` and the program counter there, `run`
calls `cycle()` at address `0`, below the start of any program region that does not begin
at `0`; so the run does not stay inside `[0x8000, 0xFFFF]`, nor inside any region with a
positive start. -/
theorem run_below_region :
    (run 0xFFFF 1 nopExample).1 = [0] ∧ ¬ runStaysInRegion 0x8000 0xFFFF 1 nopExample ∧
    (∀ ROM_START ROM_END, 0 < ROM_START → 0 < ROM_END →
      ¬ runStaysInRegion ROM_START ROM_END 1 nopExample) := by
  have hc : ∃ e', nopExample.cycle = some (true, e') := by
    have h : (nopExample.cycle.map Prod.fst) = some true := by decide
    cases hcy : nopExample.cycle with
    | none => rw [hcy] at h; simp at h
    | some r =>
      obtain ⟨b, e'⟩ := r
      rw [hcy] at h
      simp only [Option.map_some', Option.some.injEq] at h
      subst h
      exact ⟨e', rfl⟩
  obtain ⟨e', hc⟩ := hc
  have hrun : ∀ ROM_END, 0 < ROM_END → (run ROM_END 1 nopExample).1 = [0] := by
    intro E hE
    have hpc : nopExample.cpu.program_counter = 0 := rfl
    simp only [run, hpc, hE, if_true, hc]
  refine ⟨hrun _ (by decide), ?_, ?_⟩
  · intro h
    have := h 0 (by rw [hrun _ (by decide)]; simp)
    omega
  · intro S E hS hE h
    have := h 0 (by rw [hrun _ hE]; simp)
    omega

/-- C18, amended: `run` calls `cycle()` only at addresses that are not above `ROM_END`, and
no lower bound applies; from a program counter above `ROM_END` it returns at once with the
state as it is; from a program counter `p` below `ROM_END` it steps the instruction at `p`
(whether `p` is below `ROM_START` or not), stops there when the step returns `false`, and
goes on from the state after the step when it returns `true`. -/
theorem run_steps (ROM_END fuel : Nat) (e : Emulator) :
    (∀ p ∈ (run ROM_END fuel e).1, p ≤ ROM_END) ∧
    (ROM_END < e.cpu.program_counter → run ROM_END fuel e = ([], some e)) ∧
    (e.cpu.program_counter < ROM_END →
      (run ROM_END (fuel + 1) e).1.head? = some e.cpu.program_counter ∧
      (∀ e', e.cycle = some (false, e') →
        run ROM_END (fuel + 1) e = ([e.cpu.program_counter], some e')) ∧
      (∀ e', e.cycle = some (true, e') →
        run ROM_END (fuel + 1) e =
          (e.cpu.program_counter :: (run ROM_END fuel e').1, (run ROM_END fuel e').2))) := by
  refine ⟨?_, ?_, ?_⟩
  · induction fuel generalizing e with
    | zero => intro p hp; simp [run] at hp
    | succ n ih =>
      intro p hp
      unfold run at hp
      split_ifs at hp with hlt
      · cases hcy : e.cycle with
        | none =>
          rw [hcy] at hp
          simp only [List.mem_singleton] at hp
          omega
        | some r =>
          obtain ⟨b, e'⟩ := r
          rw [hcy] at hp
          cases b
          · simp only [List.mem_singleton] at hp
            omega
          · simp only [List.mem_cons] at hp
            rcases hp with h | h
            · omega
            · exact ih e' p h
      · simp at hp
  · intro h
    have hn : ¬ e.cpu.program_counter < ROM_END := by omega
    cases fuel <;> simp [run, hn]
  · intro hlt
    refine ⟨?_, ?_, ?_⟩
    · unfold run
      rw [if_pos hlt]
      cases hcy : e.cycle with
      | none => rfl
      | some r =>
        obtain ⟨b, e'⟩ := r
        cases b <;> rfl
    · intro e' hcy
      simp only [run, hlt, if_true, hcy]
    · intro e' hcy
      simp only [run, hlt, if_true, hcy]

/-- An instance of C18 as amended: with `ROM_END` at `0xFFFF`, the run from `NOP` at address
`0x0000` begins with the step at address `0`, and every address it steps at is at most
`0xFFFF`. -/
theorem run_steps_witness :
    (run 0xFFFF 2 nopExample).1.head? = some 0 ∧
    (∀ p ∈ (run 0xFFFF 2 nopExample).1, p ≤ 0xFFFF) := by
  obtain ⟨h1, -, h3⟩ := run_steps 0xFFFF 1 nopExample
  obtain ⟨h4, -⟩ := h3 (by decide)
  exact ⟨h4, (run_steps 0xFFFF 2 nopExample).1⟩

set_option maxRecDepth 100000 in
/-- C19: after `initInstructionMap` every opcode value has a descriptor; an opcode value to
which no instruction is assigned (`0x02`, `0x03` and `0xFF` among them) has the halt
descriptor, named `"DONE"` with Implicit addressing; of the 256 opcode values exactly 151
have a descriptor that is not the halt descriptor and the other 105 have the halt
descriptor. -/
theorem table_sentinel :
    (∀ op, op ∉ (assignments.filter (fun p => p.2.name ≠ "DONE")).map Prod.fst →
      (instruction_map op).name = "DONE" ∧
      (instruction_map op).addressing_mode = AddressMode.IMPLICIT) ∧
    (∀ op ∈ [0x02, 0x03, 0xFF],
      op ∉ (assignments.filter (fun p => p.2.name ≠ "DONE")).map Prod.fst ∧
      (instruction_map op).name = "DONE" ∧
      (instruction_map op).addressing_mode = AddressMode.IMPLICIT) ∧
    ((List.range 256).filter (fun op => (instruction_map op).name ≠ "DONE")).length = 151 ∧
    ((List.range 256).filter (fun op => (instruction_map op).name = "DONE")).length = 105 := by
  refine ⟨?_, by decide, by decide, by decide⟩
  intro op hop
  by_cases h : op < 256
  · have key : ∀ op < 256,
        op ∈ (assignments.filter (fun p => p.2.name ≠ "DONE")).map Prod.fst ∨
        ((instruction_map op).name = "DONE" ∧
          (instruction_map op).addressing_mode = AddressMode.IMPLICIT) := by
      decide
    rcases key op h with h1 | h1
    · exact absurd h1 hop
    · exact h1
  · rw [instruction_map_ge op (by omega)]
    exact ⟨rfl, rfl⟩

/-- C20: for every opcode whose table entry is not the halt entry, the resolver of its
addressing mode moves the program counter on by the encoded length less one, the number of
operand bytes of the mode (0 for Implicit and Accumulator; 1 for Immediate, the Zero-Page
forms, Relative, Indexed-Indirect and Indirect-Indexed; 2 for the Absolute forms and
Indirect); and when that opcode is the one at the program counter `p` and its instruction
does not redirect control (it is not `JMP`, `JSR`, `RTS`, `RTI`, `BRK` or a taken branch), one
step returns `true` with the program counter at `(p + encoded length) mod 65536`. -/
theorem step_length (e : Emulator) (opcode : Nat)
    (hnd : (instruction_map opcode).name ≠ "DONE") (hpc : e.cpu.program_counter < 65536) :
    (instruction_map opcode).bytes - 1 = (instruction_map opcode).addressing_mode.operandBytes ∧
    (e.handleAddressing opcode).1.cpu.program_counter =
      (e.cpu.program_counter + ((instruction_map opcode).bytes - 1)) % 65536 ∧
    ∃ b, (instruction_map opcode).implementation = some b ∧
      (e.mem.readByte e.cpu.program_counter = opcode → b.redirects e.cpu.P = false →
        ∃ e', e.cycle = some (true, e') ∧
          e'.cpu.program_counter =
            (e.cpu.program_counter + (instruction_map opcode).bytes) % 65536) := by
  have hlt : opcode < 256 := by
    by_contra hge
    exact hnd (by rw [instruction_map_ge _ (by omega)]; rfl)
  obtain ⟨hbytes, hzero⟩ := table_lengths opcode hlt hnd
  have hres := handleAddressing_pc e opcode hpc
  obtain ⟨b, e1, hb, hx⟩ := exec_of_table e opcode hnd
  refine ⟨by omega, ?_, b, hb, ?_⟩
  · rw [hres, hbytes]
    rfl
  · intro hfetch hr
    subst hfetch
    have hh : ¬ ((instruction_map (e.mem.readByte e.cpu.program_counter)).name = "DONE" ∨
        (e.testing = false ∧
          (instruction_map (e.mem.readByte e.cpu.program_counter)).name = "BRK")) := by
      rintro (h | ⟨-, h⟩)
      · exact hnd h
      · have h0 := ((table_safe _ hlt).2).1 h
        rw [h0] at hb
        have hbrk := call_return_entries.2.2.2.2.2.2.2.2.2.2.1
        rw [hbrk] at hb
        have : b = Behaviour.BRK := (Option.some.inj hb).symm
        subst this
        exact absurd hr (by simp [Behaviour.redirects])
    obtain ⟨e2, hcyc, hcpu, -⟩ := cycle_of_not_halt e e1 b hb hh hx
    have hpc1 := exec_pc e e1 _ b hr hx
    refine ⟨e2, hcyc, ?_⟩
    rw [hcpu]
    show (e1.cpu.program_counter + 1) % 65536 = _
    rw [hpc1, hbytes]
    by_cases hc : (b.dereferences || b.takesOffset) = true
    · rw [if_pos hc, hres]
      omega
    · rw [if_neg hc]
      have := hzero b hb (by simpa using hc)
      omega

/-- An instance of C20: `ADC #$50` at `0x0600`, of encoded length 2, leaves the program
counter at `0x0602`, its resolver having moved it to `0x0601`. -/
theorem step_length_witness :
    (adcExample.handleAddressing 0x69).1.cpu.program_counter = 0x0601 ∧
    ∃ e', adcExample.cycle = some (true, e') ∧ e'.cpu.program_counter = 0x0602 := by
  obtain ⟨-, h2, b, hb, hstep⟩ := step_length adcExample 0x69 (by decide) (by decide)
  have hadc : (instruction_map 0x69).implementation = some Behaviour.ADC := by decide
  rw [hadc] at hb
  have hb2 : b = Behaviour.ADC := (Option.some.inj hb).symm
  subst hb2
  obtain ⟨e', hcyc, hpc⟩ := hstep (by decide) (by decide)
  exact ⟨h2.trans (by decide), e', hcyc, hpc.trans (by decide)⟩

/-- C21: a state whose status byte has Unused set still has it set after one step, whatever
the opcode and whatever `testing` is, and every step returns; `PLP` and `RTI`, which
overwrite the whole status byte, leave Unused set whatever byte they pull. -/
theorem unused_stays_set (e : Emulator) (hU : e.cpu.P &&& P_UNUSED ≠ 0) :
    (∃ r e', e.cycle = some (r, e') ∧ e'.cpu.P &&& P_UNUSED ≠ 0) ∧
    (∀ e0 : Emulator,
      e0.mem.readByte e0.cpu.program_counter = 0x28 ∨
        e0.mem.readByte e0.cpu.program_counter = 0x40 →
      ∃ e', e0.cycle = some (true, e') ∧ e'.cpu.P &&& P_UNUSED ≠ 0) := by
  constructor
  · rcases cycle_cases e with ⟨-, hcyc⟩ | ⟨-, b, e1, e2, -, hx, hcyc, hcpu, -⟩
    · exact ⟨false, e, hcyc, hU⟩
    · refine ⟨true, e2, hcyc, ?_⟩
      have h5 := (exec_flags e e1 _ b hx).1 ((flag_iff_testBit e.cpu.P).2.2.2.2.2.1.mp hU)
      rw [(flag_iff_testBit e2.cpu.P).2.2.2.2.2.1, hcpu]
      exact h5
  · intro e0 hf
    obtain ⟨e', hcyc, h5, -⟩ := restore_step e0 hf
    exact ⟨e', hcyc, (flag_iff_testBit e'.cpu.P).2.2.2.2.2.1.mpr h5⟩

/-- An instance of C21: after the `BRK` of the break example (status byte `0x63`) Unused is
still set, and after the `RTI` of the return example, which pulls the byte `0x73`, it is
set as well. -/
theorem unused_stays_set_witness :
    (∃ r e', brkExample.cycle = some (r, e') ∧ e'.cpu.P &&& P_UNUSED ≠ 0) ∧
    (∃ e', rtiExample.cycle = some (true, e') ∧ e'.cpu.P &&& P_UNUSED ≠ 0) := by
  obtain ⟨h1, h2⟩ := unused_stays_set brkExample (by decide)
  exact ⟨h1, h2 rtiExample (Or.inr (by decide))⟩

set_option maxRecDepth 20000 in
/-- C24: a step is safe for every opcode value and either setting of `testing`: it always
returns, that is, it neither calls an absent behaviour nor reads or writes through an
absent operand location. Every table entry without a behaviour is a halt entry, which is
turned away before the dispatch, and no entry with Implicit addressing has a behaviour that
reads or writes through the operand. -/
theorem cycle_safe (e : Emulator) :
    (∃ r e', e.cycle = some (r, e')) ∧
    (∀ op, (instruction_map op).implementation = none → (instruction_map op).name = "DONE") ∧
    (∀ op b, (instruction_map op).addressing_mode = AddressMode.IMPLICIT →
      (instruction_map op).implementation = some b → b.dereferences = false) ∧
    ((instruction_map (e.mem.readByte e.cpu.program_counter)).name = "DONE" →
      e.cycle = some (false, e)) := by
  have htab : ∀ op < 256,
      ((instruction_map op).implementation = none → (instruction_map op).name = "DONE") ∧
      ((instruction_map op).addressing_mode = AddressMode.IMPLICIT →
        (instruction_map op).implementation.all (fun b => !b.dereferences) = true) := by
    decide
  refine ⟨?_, ?_, ?_, ?_⟩
  · rcases cycle_cases e with ⟨-, hcyc⟩ | ⟨-, b, e1, e2, -, -, hcyc, -⟩
    · exact ⟨false, e, hcyc⟩
    · exact ⟨true, e2, hcyc⟩
  · intro op hnone
    by_cases h : op < 256
    · exact (htab op h).1 hnone
    · rw [instruction_map_ge op (by omega)]
      rfl
  · intro op b hmode hb
    by_cases h : op < 256
    · have := (htab op h).2 hmode
      rw [hb] at this
      simpa using this
    · rw [instruction_map_ge op (by omega)] at hb
      cases hb
  · intro hd
    rcases cycle_cases e with ⟨-, hcyc⟩ | ⟨hn, -⟩
    · exact hcyc
    · exact absurd (Or.inl hd) hn

/-- C28: a state whose status byte has Break clear still has it clear after one step,
whatever the opcode and whatever `testing` is; the copy of the status byte that `PHP`
stores on the stack, and the one that `BRK` stores there, have Break set while the live
status byte keeps it clear; and `PLP` and `RTI` leave Break clear whatever byte they pull. -/
theorem break_stays_clear (e : Emulator) (hB : e.cpu.P &&& P_BREAK = 0) :
    (∃ r e', e.cycle = some (r, e') ∧ e'.cpu.P &&& P_BREAK = 0) ∧
    (e.mem.readByte e.cpu.program_counter = 0x08 →
      ∃ e', e.cycle = some (true, e') ∧ e'.cpu.P &&& P_BREAK = 0 ∧
        e'.mem.memory (Memory.STACK_START + e.cpu.S % 256) &&& P_BREAK ≠ 0) ∧
    (e.mem.readByte e.cpu.program_counter = 0x00 → e.testing = true →
      (∀ a, e.mem.memory a < 256) →
      ∃ e', e.cycle = some (true, e') ∧ e'.cpu.P &&& P_BREAK = 0 ∧
        e'.mem.memory (Memory.STACK_START + (e.cpu.S + 254) % 256) &&& P_BREAK ≠ 0) ∧
    (∀ e0 : Emulator,
      e0.mem.readByte e0.cpu.program_counter = 0x28 ∨
        e0.mem.readByte e0.cpu.program_counter = 0x40 →
      ∃ e', e0.cycle = some (true, e') ∧ e'.cpu.P &&& P_BREAK = 0) := by
  have hclear : ∀ P : Nat, P.testBit 4 = false → P &&& P_BREAK = 0 := by
    intro P h
    by_contra hne
    rw [(flag_iff_testBit P).2.2.2.2.1.mp hne] at h
    cases h
  have hB4 : e.cpu.P.testBit 4 = false := by
    cases h4 : e.cpu.P.testBit 4
    · rfl
    · exact absurd hB ((flag_iff_testBit e.cpu.P).2.2.2.2.1.mpr h4)
  have hstep : ∀ e', e.cycle = some (true, e') → e'.cpu.P &&& P_BREAK = 0 := by
    intro e' hc
    rcases cycle_cases e with ⟨-, hcyc⟩ | ⟨-, b, e1, e2, -, hx, hcyc, hcpu, -⟩
    · rw [hcyc] at hc
      cases hc
    · rw [hcyc] at hc
      obtain rfl : e2 = e' := (Prod.mk.inj (Option.some.inj hc)).2
      apply hclear
      rw [hcpu]
      exact (exec_flags e e1 _ b hx).2 hB4
  refine ⟨?_, ?_, ?_, ?_⟩
  · rcases cycle_cases e with ⟨-, hcyc⟩ | ⟨-, b, e1, e2, -, hx, hcyc, hcpu, -⟩
    · exact ⟨false, e, hcyc, hB⟩
    · exact ⟨true, e2, hcyc, hstep e2 hcyc⟩
  · intro hf
    obtain ⟨e', hcyc, hmem, -⟩ := PHP_effect e hf
    refine ⟨e', hcyc, hstep e' hcyc, ?_⟩
    rw [hmem, Memory.stackPushByte_memory, if_pos rfl, (flag_iff_testBit _).2.2.2.2.1,
      testBit_pushed]
    simp
  · intro hf ht hM
    obtain ⟨e', hcyc, -, hmem, -⟩ := BRK_effect e hf ht hM
    refine ⟨e', hcyc, hstep e' hcyc, ?_⟩
    have hS2 : (e.mem.stackPushWord e.cpu.S ((e.cpu.program_counter + 2) % 65536)).2 =
        (e.cpu.S + 254) % 256 := by
      simp only [Memory.stackPushWord, Memory.stackPushByte]
      omega
    have hmod : (e.cpu.S + 254) % 256 % 256 = (e.cpu.S + 254) % 256 := by omega
    rw [hmem, Memory.stackPushByte_memory, hS2, hmod, if_pos rfl,
      (flag_iff_testBit _).2.2.2.2.1, testBit_pushed]
    simp
  · intro e0 hf
    obtain ⟨e', hcyc, -, h4⟩ := restore_step e0 hf
    exact ⟨e', hcyc, hclear _ h4⟩

/-- An instance of C28: the `BRK` of the break example (status byte `0x63`, Break clear)
leaves Break clear in the live status byte. -/
theorem break_stays_clear_witness :
    ∃ r e', brkExample.cycle = some (r, e') ∧ e'.cpu.P &&& P_BREAK = 0 :=
  (break_stays_clear brkExample (by decide)).1

/-- C26: one step on an `ADC` opcode with accumulator `a`, operand byte `m` and carry-in `c`
sets Overflow iff the sum `s(a) + s(m) + c` of the signed readings lies outside
`[-128, 127]`; and when Overflow is clear the new accumulator, read as signed, is that sum. -/
theorem ADC_overflow_signed (e : Emulator) (opcode : Nat)
    (hop : opcode ∈ [0x69, 0x65, 0x75, 0x6D, 0x7D, 0x79, 0x61, 0x71])
    (hfetch : e.mem.readByte e.cpu.program_counter = opcode)
    (hA : e.cpu.accumulator < 256) (hM : ∀ a, e.mem.memory a < 256) :
    ∃ addr e', (e.handleAddressing opcode).2 = BytePtr.memory addr ∧
      e.cycle = some (true, e') ∧
      (e'.cpu.P &&& P_OVERFLOW ≠ 0 ↔
        (toSignedByte e.cpu.accumulator + toSignedByte (e.mem.memory addr) +
            (carryIn e.cpu.P : Nat) < -128 ∨
          127 < toSignedByte e.cpu.accumulator + toSignedByte (e.mem.memory addr) +
            (carryIn e.cpu.P : Nat))) ∧
      (e'.cpu.P &&& P_OVERFLOW = 0 →
        toSignedByte e'.cpu.accumulator =
          toSignedByte e.cpu.accumulator + toSignedByte (e.mem.memory addr) +
            (carryIn e.cpu.P : Nat)) := by
  obtain ⟨addr, e', hptr, hcyc, hacc, -, hv, -⟩ := ADC_cycle e opcode hop hfetch hA hM
  have hm := hM addr
  have hc : carryIn e.cpu.P ≤ 1 := by
    unfold carryIn
    split_ifs <;> omega
  have hV : (e'.cpu.P &&& P_OVERFLOW ≠ 0 ↔
      (toSignedByte e.cpu.accumulator + toSignedByte (e.mem.memory addr) +
          (carryIn e.cpu.P : Nat) < -128 ∨
        127 < toSignedByte e.cpu.accumulator + toSignedByte (e.mem.memory addr) +
          (carryIn e.cpu.P : Nat))) := by
    rw [(flag_iff_testBit e'.cpu.P).2.2.2.2.2.2.1, hv, testBit_seven, testBit_seven,
      testBit_seven]
    simp only [decide_eq_true_eq, decide_eq_decide, ne_eq]
    unfold toSignedByte
    split_ifs <;> omega
  refine ⟨addr, e', hptr, hcyc, hV, ?_⟩
  intro h0
  have hno : ¬ (toSignedByte e.cpu.accumulator + toSignedByte (e.mem.memory addr) +
        (carryIn e.cpu.P : Nat) < -128 ∨
      127 < toSignedByte e.cpu.accumulator + toSignedByte (e.mem.memory addr) +
        (carryIn e.cpu.P : Nat)) := fun h => hV.mpr h h0
  revert hno
  rw [hacc]
  unfold toSignedByte
  intro hno
  split_ifs at hno ⊢ <;> omega

/-- An instance of C26: `ADC #$50` with accumulator `0x50` and Carry clear; the signed sum
`80 + 80` is above `127`, and Overflow is set. -/
theorem ADC_overflow_signed_witness :
    ∃ e', adcExample.cycle = some (true, e') ∧ e'.cpu.P &&& P_OVERFLOW ≠ 0 := by
  obtain ⟨addr, e', hptr, hcyc, hV, -⟩ :=
    ADC_overflow_signed adcExample 0x69 (by decide) (by decide) (by decide)
      (ofList_bytes _ (by decide))
  have haddr : addr = 0x0601 := by
    have : (adcExample.handleAddressing 0x69).2 = BytePtr.memory 0x0601 := by decide
    rw [this] at hptr
    exact (BytePtr.memory.inj hptr).symm
  subst haddr
  exact ⟨e', hcyc, hV.mpr (Or.inr (by decide))⟩

/-- C25: one step on an `SBC` opcode with operand byte `m` and one step on an `ADC` opcode
with operand byte `255 - m`, from states with the same accumulator and the same carry-in,
give the same accumulator and the same Carry, Overflow, Zero and Negative flags. -/
theorem SBC_eq_ADC_complement (es ea : Emulator) (ops opa : Nat)
    (hops : ops ∈ [0xE9, 0xE5, 0xF5, 0xED, 0xFD, 0xF9, 0xE1, 0xF1])
    (hopa : opa ∈ [0x69, 0x65, 0x75, 0x6D, 0x7D, 0x79, 0x61, 0x71])
    (hfs : es.mem.readByte es.cpu.program_counter = ops)
    (hfa : ea.mem.readByte ea.cpu.program_counter = opa)
    (hA : es.cpu.accumulator < 256) (hMs : ∀ a, es.mem.memory a < 256)
    (hMa : ∀ a, ea.mem.memory a < 256)
    (hacc : ea.cpu.accumulator = es.cpu.accumulator)
    (hcarry : carryIn ea.cpu.P = carryIn es.cpu.P) :
    ∃ s t es' ea', (es.handleAddressing ops).2 = BytePtr.memory s ∧
      (ea.handleAddressing opa).2 = BytePtr.memory t ∧
      es.cycle = some (true, es') ∧ ea.cycle = some (true, ea') ∧
      (ea.mem.memory t = 255 - es.mem.memory s →
        es'.cpu.accumulator = ea'.cpu.accumulator ∧
        ∀ f ∈ [P_CARRY, P_OVERFLOW, P_ZERO, P_NEGATIVE], es'.cpu.P &&& f = ea'.cpu.P &&& f) := by
  obtain ⟨s, es', hps, hcs, hsa, hsc, hsv, hsz, hsn, -⟩ := SBC_cycle es ops hops hfs hA hMs
  obtain ⟨t, ea', hpa, hca, haa, hac, hav, haz, han, -⟩ :=
    ADC_cycle ea opa hopa hfa (hacc ▸ hA) hMa
  refine ⟨s, t, es', ea', hps, hpa, hcs, hca, ?_⟩
  intro hm
  have hms := hMs s
  have hc : carryIn es.cpu.P ≤ 1 := by
    unfold carryIn
    split_ifs <;> omega
  rw [hacc, hcarry, hm] at haa hac hav haz han
  have hAeq : es'.cpu.accumulator = ea'.cpu.accumulator := by
    rw [hsa, haa]
    unfold byteOfInt
    omega
  refine ⟨hAeq, ?_⟩
  obtain ⟨m0, m1, -, -, -, -, m6, m7⟩ := flag_masks_eq es'.cpu.P ea'.cpu.P
  have h0 : es'.cpu.P.testBit 0 = ea'.cpu.P.testBit 0 := by
    rw [hsc, hac]
    simp only [decide_eq_decide]
    omega
  have h7 : es'.cpu.P.testBit 7 = ea'.cpu.P.testBit 7 := by
    rw [hsn, han, hAeq, haa]
  have h1 : es'.cpu.P.testBit 1 = ea'.cpu.P.testBit 1 := by
    rw [hsz, haz, hAeq, haa]
  have h6 : es'.cpu.P.testBit 6 = ea'.cpu.P.testBit 6 := by
    rw [hsv, hav, hAeq, haa, testBit_seven, testBit_seven, testBit_seven, testBit_seven]
    simp only [decide_eq_decide, ne_eq]
    omega
  intro f hf
  simp only [List.mem_cons, List.mem_singleton, List.not_mem_nil, or_false] at hf
  rcases hf with h | h | h | h <;> subst h
  · exact m0 h0
  · exact m6 h6
  · exact m1 h1
  · exact m7 h7

/-- An instance of C25: `SBC #$01` and `ADC #$FE`, both with accumulator `0x00` and Carry
set, give the accumulator `0xFF` and the same Carry flag. -/
theorem SBC_eq_ADC_complement_witness :
    ∃ es' ea', sbcExample.cycle = some (true, es') ∧
      adcComplementExample.cycle = some (true, ea') ∧
      es'.cpu.accumulator = ea'.cpu.accumulator ∧
      es'.cpu.P &&& P_CARRY = ea'.cpu.P &&& P_CARRY := by
  obtain ⟨s, t, es', ea', hps, hpa, hcs, hca, h⟩ :=
    SBC_eq_ADC_complement sbcExample adcComplementExample 0xE9 0x69 (by decide) (by decide)
      (by decide) (by decide) (by decide) (ofList_bytes _ (by decide))
      (ofList_bytes _ (by decide)) (by decide) (by decide)
  have hs : s = 0x0601 := by
    have : (sbcExample.handleAddressing 0xE9).2 = BytePtr.memory 0x0601 := by decide
    rw [this] at hps
    exact (BytePtr.memory.inj hps).symm
  have ht : t = 0x0601 := by
    have : (adcComplementExample.handleAddressing 0x69).2 = BytePtr.memory 0x0601 := by decide
    rw [this] at hpa
    exact (BytePtr.memory.inj hpa).symm
  subst hs ht
  obtain ⟨h1, h2⟩ := h (by decide)
  exact ⟨es', ea', hcs, hca, h1, h2 P_CARRY (by simp)⟩

/-- C22: two states that differ only in the Decimal bit of the status byte, stepped on the
same `ADC` or `SBC` opcode, end with the same accumulator and the same Carry, Overflow,
Zero and Negative flags, and each run leaves the Decimal bit as it found it. -/
theorem decimal_no_effect (e : Emulator) (opcode P' : Nat)
    (hop : opcode ∈ [0x69, 0x65, 0x75, 0x6D, 0x7D, 0x79, 0x61, 0x71] ∨
      opcode ∈ [0xE9, 0xE5, 0xF5, 0xED, 0xFD, 0xF9, 0xE1, 0xF1])
    (hfetch : e.mem.readByte e.cpu.program_counter = opcode)
    (hA : e.cpu.accumulator < 256) (hM : ∀ a, e.mem.memory a < 256)
    (hP : ∀ f ∈ [P_CARRY, P_ZERO, P_INT_DISABLE, P_BREAK, P_UNUSED, P_OVERFLOW, P_NEGATIVE],
      P' &&& f = e.cpu.P &&& f) :
    ∃ e1 e2, e.cycle = some (true, e1) ∧ (e.setP P').cycle = some (true, e2) ∧
      e1.cpu.accumulator = e2.cpu.accumulator ∧
      (∀ f ∈ [P_CARRY, P_OVERFLOW, P_ZERO, P_NEGATIVE], e1.cpu.P &&& f = e2.cpu.P &&& f) ∧
      e1.cpu.P &&& P_DECIMAL = e.cpu.P &&& P_DECIMAL ∧
      e2.cpu.P &&& P_DECIMAL = P' &&& P_DECIMAL := by
  have hcarry : carryIn P' = carryIn e.cpu.P := by
    unfold carryIn
    rw [hP P_CARRY (by simp)]
  have hfinish : ∀ e1 e2 : Emulator,
      e1.cpu.P.testBit 0 = e2.cpu.P.testBit 0 → e1.cpu.P.testBit 6 = e2.cpu.P.testBit 6 →
      e1.cpu.P.testBit 1 = e2.cpu.P.testBit 1 → e1.cpu.P.testBit 7 = e2.cpu.P.testBit 7 →
      ∀ f ∈ [P_CARRY, P_OVERFLOW, P_ZERO, P_NEGATIVE], e1.cpu.P &&& f = e2.cpu.P &&& f := by
    intro e1 e2 h0 h6 h1 h7 f hf
    obtain ⟨m0, m1, -, -, -, -, m6, m7⟩ := flag_masks_eq e1.cpu.P e2.cpu.P
    simp only [List.mem_cons, List.mem_singleton, List.not_mem_nil, or_false] at hf
    rcases hf with h | h | h | h <;> subst h
    · exact m0 h0
    · exact m6 h6
    · exact m1 h1
    · exact m7 h7
  rcases hop with hop | hop
  · obtain ⟨a1, e1, hp1, hc1, hacc1, hC1, hV1, hZ1, hN1, hr1⟩ :=
      ADC_cycle e opcode hop hfetch hA hM
    obtain ⟨a2, e2, hp2, hc2, hacc2, hC2, hV2, hZ2, hN2, hr2⟩ :=
      ADC_cycle (e.setP P') opcode hop hfetch hA hM
    rw [handleAddressing_setP, hp1] at hp2
    obtain rfl : a1 = a2 := BytePtr.memory.inj hp2
    have hq : (e.setP P').cpu.P = P' := rfl
    have hqa : (e.setP P').cpu.accumulator = e.cpu.accumulator := rfl
    have hqm : (e.setP P').mem = e.mem := rfl
    rw [hq, hqa, hqm, hcarry] at hacc2 hC2 hV2 hZ2 hN2
    rw [hq] at hr2
    refine ⟨e1, e2, hc1, hc2, by rw [hacc1, hacc2],
      hfinish e1 e2 (by rw [hC1, hC2]) (by rw [hV1, hV2]) (by rw [hZ1, hZ2])
        (by rw [hN1, hN2]), ?_, ?_⟩
    · exact (flag_masks_eq e1.cpu.P e.cpu.P).2.2.2.1 (hr1 3 (by omega))
    · exact (flag_masks_eq e2.cpu.P P').2.2.2.1 (hr2 3 (by omega))
  · obtain ⟨a1, e1, hp1, hc1, hacc1, hC1, hV1, hZ1, hN1, hr1⟩ :=
      SBC_cycle e opcode hop hfetch hA hM
    obtain ⟨a2, e2, hp2, hc2, hacc2, hC2, hV2, hZ2, hN2, hr2⟩ :=
      SBC_cycle (e.setP P') opcode hop hfetch hA hM
    rw [handleAddressing_setP, hp1] at hp2
    obtain rfl : a1 = a2 := BytePtr.memory.inj hp2
    have hq : (e.setP P').cpu.P = P' := rfl
    have hqa : (e.setP P').cpu.accumulator = e.cpu.accumulator := rfl
    have hqm : (e.setP P').mem = e.mem := rfl
    rw [hq, hqa, hqm, hcarry] at hacc2 hC2
    rw [hqa, hqm] at hV2
    rw [hq] at hr2
    have hAeq : e1.cpu.accumulator = e2.cpu.accumulator := by rw [hacc1, hacc2]
    refine ⟨e1, e2, hc1, hc2, hAeq,
      hfinish e1 e2 (by rw [hC1, hC2]) (by rw [hV1, hV2, hAeq]) (by rw [hZ1, hZ2, hAeq])
        (by rw [hN1, hN2, hAeq]), ?_, ?_⟩
    · exact (flag_masks_eq e1.cpu.P e.cpu.P).2.2.2.1 (hr1 3 (by omega))
    · exact (flag_masks_eq e2.cpu.P P').2.2.2.1 (hr2 3 (by omega))

/-- An instance of C22: `ADC #$50` with accumulator `0x50`, run with status byte `0x20` and
with status byte `0x28` (Decimal set), gives the accumulator `0xA0` both times and keeps the
Decimal bit of each run. -/
theorem decimal_no_effect_witness :
    ∃ e1 e2, adcExample.cycle = some (true, e1) ∧
      (adcExample.setP 0x28).cycle = some (true, e2) ∧
      e1.cpu.accumulator = e2.cpu.accumulator ∧
      e1.cpu.P &&& P_DECIMAL = 0 ∧ e2.cpu.P &&& P_DECIMAL = P_DECIMAL := by
  obtain ⟨e1, e2, h1, h2, hacc, -, hd1, hd2⟩ :=
    decimal_no_effect adcExample 0x69 0x28 (Or.inl (by decide)) (by decide) (by decide)
      (ofList_bytes _ (by decide)) (by decide)
  exact ⟨e1, e2, h1, h2, hacc, hd1.trans (by decide), hd2.trans (by decide)⟩

/-- C27: with `v` the operand byte and `c` the Carry flag, a step on `ROL` followed by a step
on `ROR` that resolves to the same location (the accumulator or the same address) leaves
the operand at `v` and Carry at `c` again, and so does a step on `ROR` followed by one on
`ROL`; after the second step Zero is set iff `v = 0` and Negative is bit 7 of `v`. -/
theorem ROL_ROR_inverse (e : Emulator) (op1 op2 v : Nat) (hv : v < 256)
    (hfetch : e.mem.readByte e.cpu.program_counter = op1)
    (hd : e.deref (e.handleAddressing op1).2 = some v)
    (hops : (op1 ∈ [0x2A, 0x26, 0x36, 0x2E, 0x3E] ∧ op2 ∈ [0x6A, 0x66, 0x76, 0x6E, 0x7E]) ∨
      (op1 ∈ [0x6A, 0x66, 0x76, 0x6E, 0x7E] ∧ op2 ∈ [0x2A, 0x26, 0x36, 0x2E, 0x3E])) :
    ∃ e1, e.cycle = some (true, e1) ∧
      (e1.mem.readByte e1.cpu.program_counter = op2 →
        (e1.handleAddressing op2).2 = (e.handleAddressing op1).2 →
        ∃ e2, e1.cycle = some (true, e2) ∧
          e2.deref (e.handleAddressing op1).2 = some v ∧
          (e2.cpu.P &&& P_CARRY ≠ 0 ↔ e.cpu.P &&& P_CARRY ≠ 0) ∧
          (e2.cpu.P &&& P_ZERO ≠ 0 ↔ v = 0) ∧
          (e2.cpu.P &&& P_NEGATIVE ≠ 0 ↔ v.testBit 7 = true)) := by
  have hc : carryIn e.cpu.P ≤ 1 := by
    unfold carryIn
    split_ifs <;> omega
  have hcin : (e.cpu.P &&& P_CARRY ≠ 0 ↔ carryIn e.cpu.P = 1) := by
    unfold carryIn
    split_ifs with h <;> simp [h]
  rcases hops with ⟨h1, h2⟩ | ⟨h1, h2⟩
  · obtain ⟨e1, hcyc1, hw1, hC1, -, -⟩ := (rotate_cycle e op1 v hv hfetch hd).1 h1
    refine ⟨e1, hcyc1, ?_⟩
    intro hf2 hsame
    have hv1 : 2 * v % 256 + carryIn e.cpu.P < 256 := by omega
    rw [← hsame] at hw1
    obtain ⟨e2, hcyc2, hw2, hC2, hZ2, hN2⟩ := (rotate_cycle e1 op2 _ hv1 hf2 hw1).2 h2
    have hc1 : carryIn e1.cpu.P = if 128 ≤ v then 1 else 0 := by
      rw [carryIn_eq, hC1, testBit_seven]
      have : v % 256 = v := by omega
      simp [this]
    have hback : (2 * v % 256 + carryIn e.cpu.P) / 2 + 128 * carryIn e1.cpu.P = v := by
      rw [hc1]
      split_ifs <;> omega
    rw [hback] at hw2 hZ2 hN2
    rw [hsame] at hw2
    obtain ⟨fc, fz, -, -, -, -, -, fn⟩ := flag_iff_testBit e2.cpu.P
    refine ⟨e2, hcyc2, hw2, ?_, ?_, ?_⟩
    · rw [fc, hC2, hcin, Nat.testBit_zero]
      simp only [decide_eq_true_eq]
      omega
    · rw [fz, hZ2]; simp
    · rw [fn, hN2]
  · obtain ⟨e1, hcyc1, hw1, hC1, -, -⟩ := (rotate_cycle e op1 v hv hfetch hd).2 h1
    refine ⟨e1, hcyc1, ?_⟩
    intro hf2 hsame
    have hv1 : v / 2 + 128 * carryIn e.cpu.P < 256 := by omega
    rw [← hsame] at hw1
    obtain ⟨e2, hcyc2, hw2, hC2, hZ2, hN2⟩ := (rotate_cycle e1 op2 _ hv1 hf2 hw1).1 h2
    have hc1 : carryIn e1.cpu.P = v % 2 := by
      rw [carryIn_eq, hC1, Nat.testBit_zero]
      simp only [decide_eq_true_eq]
      split_ifs <;> omega
    have hback : 2 * (v / 2 + 128 * carryIn e.cpu.P) % 256 + carryIn e1.cpu.P = v := by
      rw [hc1]
      omega
    rw [hback] at hw2 hZ2 hN2
    rw [hsame] at hw2
    obtain ⟨fc, fz, -, -, -, -, -, fn⟩ := flag_iff_testBit e2.cpu.P
    refine ⟨e2, hcyc2, hw2, ?_, ?_, ?_⟩
    · rw [fc, hC2, hcin, testBit_seven]
      simp only [decide_eq_true_eq]
      omega
    · rw [fz, hZ2]; simp
    · rw [fn, hN2]

/-- An instance of C27: `ROL A` then `ROR A` with the accumulator at `0x81` and Carry set
leaves the accumulator at `0x81` and Carry set. -/
theorem ROL_ROR_inverse_witness :
    ∃ e1 e2, rolRorExample.cycle = some (true, e1) ∧ e1.cycle = some (true, e2) ∧
      e2.cpu.accumulator = 0x81 ∧ e2.cpu.P &&& P_CARRY ≠ 0 := by
  obtain ⟨e1, hcyc1, hnext⟩ :=
    ROL_ROR_inverse rolRorExample 0x2A 0x6A 0x81 (by decide) (by decide) (by decide)
      (Or.inl ⟨by decide, by decide⟩)
  have he1 : e1 = (rolRorExample.cycle.get (by decide)).2 := by
    simp only [hcyc1, Option.get_some]
  have hf2 : e1.mem.readByte e1.cpu.program_counter = 0x6A := by
    rw [he1]
    decide
  have hsame : (e1.handleAddressing 0x6A).2 = (rolRorExample.handleAddressing 0x2A).2 := by
    rw [handleAddressing_accumulator e1 0x6A (by decide),
      handleAddressing_accumulator rolRorExample 0x2A (by decide)]
  obtain ⟨e2, hcyc2, hw, hC, -⟩ := hnext hf2 hsame
  rw [handleAddressing_accumulator rolRorExample 0x2A (by decide)] at hw
  exact ⟨e1, e2, hcyc1, hcyc2, Option.some.inj hw, hC.mpr (by decide)⟩

/-- C23: for a state whose opcode at the program counter is not `0x00`, a step with
`testing` on and a step with `testing` off return the same boolean and leave the same
registers, status byte and address space; the two runs differ at most in the waits
counted. -/
theorem testing_only_BRK (e : Emulator)
    (h0 : e.mem.readByte e.cpu.program_counter ≠ 0x00) :
    ∃ r e1 e2, (e.setTesting true).cycle = some (r, e1) ∧
      (e.setTesting false).cycle = some (r, e2) ∧ e1.cpu = e2.cpu ∧ e1.mem = e2.mem := by
  have hnb : (instruction_map (e.mem.readByte e.cpu.program_counter)).name ≠ "BRK" := by
    intro h
    by_cases hlt : e.mem.readByte e.cpu.program_counter < 256
    · exact h0 ((table_safe _ hlt).2.mp h)
    · rw [instruction_map_ge _ (by omega)] at h
      exact absurd h (by decide)
  have hfetch : ∀ t, (e.setTesting t).mem.readByte (e.setTesting t).cpu.program_counter =
      e.mem.readByte e.cpu.program_counter := fun _ => rfl
  rcases cycle_cases (e.setTesting true) with
    ⟨hh1, hc1⟩ | ⟨hn1, b1, x1, y1, hb1, hx1, hc1, hcpu1, hmem1, -⟩
  · rw [hfetch] at hh1
    rcases hh1 with hd | ⟨-, hbrk⟩
    · rcases cycle_cases (e.setTesting false) with ⟨-, hc2⟩ | ⟨hn2, -⟩
      · exact ⟨false, _, _, hc1, hc2, rfl, rfl⟩
      · rw [hfetch] at hn2
        exact absurd (Or.inl hd) hn2
    · exact absurd hbrk hnb
  · rw [hfetch] at hn1 hb1 hx1
    rcases cycle_cases (e.setTesting false) with
      ⟨hh2, -⟩ | ⟨-, b2, x2, y2, hb2, hx2, hc2, hcpu2, hmem2, -⟩
    · rw [hfetch] at hh2
      rcases hh2 with hd | ⟨-, hbrk⟩
      · exact absurd (Or.inl hd) hn1
      · exact absurd hbrk hnb
    · rw [hfetch] at hb2 hx2
      rw [hb1] at hb2
      obtain rfl : b1 = b2 := Option.some.inj hb2
      have hcore := exec_core (e.setTesting true) (e.setTesting false)
        (e.mem.readByte e.cpu.program_counter) b1 rfl rfl
      rw [hx1, hx2] at hcore
      simp only [Option.map_some', Option.some.injEq, Prod.mk.injEq] at hcore
      refine ⟨true, y1, y2, hc1, hc2, ?_, ?_⟩
      · rw [hcpu1, hcpu2, hcore.1]
      · rw [hmem1, hmem2, hcore.2]

/-- An instance of C23: `ADC #$50` stepped with `testing` on and with `testing` off returns
the same boolean and leaves the same registers and address space. -/
theorem testing_only_BRK_witness :
    ∃ r e1 e2, (adcExample.setTesting true).cycle = some (r, e1) ∧
      (adcExample.setTesting false).cycle = some (r, e2) ∧ e1.cpu = e2.cpu ∧
      e1.mem = e2.mem :=
  testing_only_BRK adcExample (by decide)

end Emulator
